import Mathlib

/-!
# Verification of pydanticxml (cofob/pydanticxml)

A shallow embedding of the two serialization pipelines of the repository:

* `src/pydantic_xmlmodel/xmlmodel.py` — the pydantic-v1 style `XMLModel`
  class with `to_xml` / `from_xml` (namespace `V1` below);
* `src/pydantic_xmlmodel/serde.py` — the pydantic-v2 style functions
  `model_dump_xml` / `model_validate_xml` (namespace `V2` below).

The XML element trees are those of `xml.etree.ElementTree`; Python record
classes become explicit schema values, their instances become explicit
instance values, and the external collaborators (the XML text parser, the
pydantic validators, Python builtins such as `str()` and `int()`) are
modelled as executable Lean functions, documented at their definitions.
-/

namespace PydanticXml

/-! ## Common data model: scalar python types and XML elements -/

/-- The scalar leaf types that can appear in field annotations.
`any` models `typing.Any` (the declared type of `XMLModel.xml_content`). -/
inductive PyTy where
  | str
  | int
  | bool
  | any
deriving DecidableEq, Repr

/-- An `xml.etree.ElementTree.Element`: a tag, an insertion-ordered
attribute mapping, an ordered list of children, and optional text. -/
inductive Element where
  | mk (tag : String) (attrib : List (String × String))
       (children : List Element) (text : Option String)

/-- Python-dict assignment on an association list: replace in place if the
key is present, otherwise append. -/
def dictSet {α : Type} : List (String × α) → String → α → List (String × α)
  | [], k, v => [(k, v)]
  | (k0, v0) :: rest, k, v =>
      if k0 = k then (k0, v) :: rest else (k0, v0) :: dictSet rest k v

/-- Python-dict lookup on an association list (first match). -/
def dictGet? {α : Type} (d : List (String × α)) (k : String) : Option α :=
  (d.find? (fun p => p.1 = k)).map Prod.snd

/-- The tag of an element. -/
def Element.tag : Element → String
  | .mk t _ _ _ => t

/-- The attribute list of an element. -/
def Element.attrib : Element → List (String × String)
  | .mk _ a _ _ => a

/-- The children of an element. -/
def Element.children : Element → List Element
  | .mk _ _ c _ => c

/-- The text of an element (`None` modelled as `none`). -/
def Element.text : Element → Option String
  | .mk _ _ _ tx => tx

/-- A fresh element with a given tag, as built by `Element(name)` /
`SubElement(parent, name)` before being filled in. -/
def Element.new (t : String) : Element := .mk t [] [] none

/-- `element.set(key, value)`: Python-dict semantics — replace the value in
place if the key is present, otherwise append the pair. -/
def Element.setAttr : Element → String → String → Element
  | .mk t a c tx, k, v => .mk t (dictSet a k v) c tx

/-- `element.attrib[key]` / `key in element.attrib`: first-match lookup. -/
def Element.getAttr? (e : Element) (k : String) : Option String :=
  dictGet? e.attrib k

/-- `SubElement(parent, ...)` attaches the new child at the end. -/
def Element.addChild : Element → Element → Element
  | .mk t a c tx, child => .mk t a (c ++ [child]) tx

/-- `element.text = value`. -/
def Element.setText : Element → String → Element
  | .mk t a c _, s => .mk t a c (some s)

/-- `element.findall(tag)`: all immediate children with the given tag, in
document order. -/
def Element.findall (e : Element) (t : String) : List Element :=
  e.children.filter (fun c => c.tag = t)

/-- `element.find(tag)`: the first immediate child with the given tag. -/
def Element.find? (e : Element) (t : String) : Option Element :=
  e.children.find? (fun c => c.tag = t)

mutual

/-- Models the external XML text collaborator round trip
(`tostring`/`toxml` followed by `fromstring`): attributes, tags and
non-empty text survive unchanged (escaping is bijective), while an element
whose text is the empty string is rendered without separate text and
re-parses with no text. -/
def normalizeElement : Element → Element
  | .mk t a cs tx =>
    .mk t a (normalizeChildren cs)
      (match tx with
       | some s => if s.isEmpty then none else some s
       | none => none)

/-- Pointwise normalization of the children. -/
def normalizeChildren : List Element → List Element
  | [] => []
  | c :: rest => normalizeElement c :: normalizeChildren rest

end

/-- The failure kinds that can surface from the two pipelines.
`parse` models `xml.etree.ElementTree.ParseError`, `value` models the
`ValueError`s raised by the library code itself (the schema-shape errors),
`validation` models `pydantic.ValidationError`, and `runtime` models other
Python runtime crashes (`AttributeError`, `TypeError`, unbound locals,
exceeding the recursion limit). -/
inductive Err where
  | parse (msg : String)
  | value (msg : String)
  | validation (msg : String)
  | runtime (msg : String)
deriving DecidableEq, Repr

/-- Elementwise short-circuiting traversal of a list. -/
def exceptMapList {A B : Type} (f : A → Except Err B) : List A → Except Err (List B)
  | [] => .ok []
  | x :: rest =>
    match f x with
    | .error err => .error err
    | .ok y =>
      match exceptMapList f rest with
      | .error err => .error err
      | .ok ys => .ok (y :: ys)

/-- `str.lower()` (ASCII, character-wise). -/
def pyLower (s : String) : String := String.mk (s.data.map Char.toLower)

/-- `str.upper()` (ASCII, character-wise). -/
def pyUpper (s : String) : String := String.mk (s.data.map Char.toUpper)

/-- Python `a or b` on an optional string and a string (`""` is falsy). -/
def pyOr (a : Option String) (b : String) : String :=
  match a with
  | some s => if s.isEmpty then b else s
  | none => b

/-! ## Python decimal integer conversion

Models the Python builtins used by the code: `str(i)` on an `int` renders
the decimal form (with a leading minus sign when negative), and `int(s)`
parses it back.  We restrict `int(s)` to the strings `str` can produce:
an optional minus sign followed by decimal digits (Python additionally
accepts surrounding whitespace, a plus sign and underscores, which the
serializer never emits). -/

/-- The decimal digit character for a digit value (values `≥ 9` all map to
the digit `9`; the function is only used on digits `< 10`). -/
def digitChar : Nat → Char
  | 0 => '0'
  | 1 => '1'
  | 2 => '2'
  | 3 => '3'
  | 4 => '4'
  | 5 => '5'
  | 6 => '6'
  | 7 => '7'
  | 8 => '8'
  | _ => '9'

/-- The digit value of a decimal digit character. -/
def charDigit? (c : Char) : Option Nat :=
  if 48 ≤ c.toNat ∧ c.toNat ≤ 57 then some (c.toNat - 48) else none

/-- Little-endian base-10 digits, with explicit fuel so that the function
reduces definitionally (`fuel = n` always suffices). -/
def natDigitsRevAux : Nat → Nat → List Nat
  | 0, _ => []
  | _ + 1, 0 => []
  | fuel + 1, n + 1 => ((n + 1) % 10) :: natDigitsRevAux fuel ((n + 1) / 10)

/-- Little-endian base-10 digits of a natural number. -/
def natDigitsRev (n : Nat) : List Nat := natDigitsRevAux n n

/-- Decimal rendering of a natural number, via its base-10 digits. -/
def pyNatStr (n : Nat) : String :=
  if n = 0 then "0" else String.mk (((natDigitsRev n).map digitChar).reverse)

/-- `str(i)` for a Python `int`. -/
def pyIntStr (n : Int) : String :=
  if n < 0 then "-" ++ pyNatStr n.natAbs else pyNatStr n.natAbs

/-- Parse a nonempty list of decimal digit characters (big-endian). -/
def parseNatDigits (cs : List Char) : Option Nat :=
  if cs.isEmpty then none
  else cs.foldlM (fun acc c => (charDigit? c).map (fun d => acc * 10 + d)) 0

/-- `int(s)` on a character list: optional minus sign, then digits. -/
def pyParseIntChars : List Char → Option Int
  | [] => none
  | c :: rest =>
    if c = '-' then (parseNatDigits rest).map (fun k => -(Int.ofNat k))
    else (parseNatDigits (c :: rest)).map Int.ofNat

/-- `int(s)` on the decimal strings produced by `str`. -/
def pyParseInt (s : String) : Option Int :=
  pyParseIntChars s.data

/-! ## V1: `src/pydantic_xmlmodel/xmlmodel.py` (pydantic-v1 style `XMLModel`)

Schemas model the pydantic-v1 view of a class: every field carries its
`type_` (innermost type), whether it is list-like (`sub_fields`), its
`allow_none` flag, its always-resolved string `alias` (pydantic v1 defaults
the alias to the field name), the optional `__xml_name__` entry of
`field_info.extra`, and its default value (pydantic v1 gives `Optional`
fields an implicit default of `None`).  The designated content field
`xml_content` is kept in a separate slot of the schema, mirroring the
`if field == "xml_content": continue` guards in the source.  All record
classes are modelled as `XMLModel` subclasses unless their `isXmlModel`
flag is false (a plain `pydantic.BaseModel`); plain models nested inside
an `XMLModel` only differ in element-name selection. -/

namespace V1

/-- A symbolic `__xml_name_function__`.  The source stores an arbitrary
user function `str -> str` (default `lambda x: x.lower()`); we model the
function space symbolically so that schemas stay decidable. -/
inductive NameFn where
  | lower
  | upper
  | constant (s : String)
  | identity

/-- `NameFn` application. -/
def NameFn.apply : NameFn → String → String
  | .lower, s => pyLower s
  | .upper, s => pyUpper s
  | .constant c, _ => c
  | .identity, s => s

mutual

/-- The declared shape of a pydantic-v1 field: a scalar type, a nested
record class, or a list-like type (`sub_fields is not None`) with its
element annotation.  A bare `List` is `listOf (scalar .any)`: pydantic v1
fills in `Any` as the element type. -/
inductive FieldTy where
  | scalar (t : PyTy)
  | model (s : Schema)
  | listOf (elem : FieldTy)

/-- The pydantic-v1 `ModelField` data used by the source. -/
inductive FieldInfo where
  | mk (ty : FieldTy) (allowNone : Bool) (aliasName : String)
       (xmlNameExtra : Option String) (default : Option Value)

/-- A record class: its `__name__`, `__xml_name__`, `__xml_name_function__`,
whether it subclasses `XMLModel`, the `ModelField` of `xml_content`, and
the remaining declared fields in declaration order. -/
inductive Schema where
  | mk (className : String) (xmlName : Option String) (nameFn : Option NameFn)
       (isXmlModel : Bool) (content : FieldInfo)
       (fields : List (String × FieldInfo))

/-- A runtime Python value handled by the encoder. -/
inductive Value where
  | vStr (s : String)
  | vInt (n : Int)
  | vBool (b : Bool)
  | vNone
  | vList (items : List Value)
  | vModel (inst : Instance)

/-- A validated model instance: its class, the values of the declared
non-content fields (in declaration order), and the value of `xml_content`. -/
inductive Instance where
  | mk (schema : Schema) (vals : List (String × Value)) (content : Value)

end

/-- The `type_` of the field (the innermost type). -/
def FieldTy.leaf : FieldTy → FieldTy
  | .scalar t => .scalar t
  | .model s => .model s
  | .listOf e => e.leaf

/-- Whether `sub_fields is not None` for this field. -/
def FieldTy.isSeq : FieldTy → Bool
  | .listOf _ => true
  | _ => false

/-- Whether `type_` is a `BaseModel` subclass. -/
def FieldTy.leafIsModel (ty : FieldTy) : Bool :=
  match ty.leaf with
  | .model _ => true
  | _ => false

/-- The `type_` as a record class, when it is one. -/
def FieldTy.leafModel? (ty : FieldTy) : Option Schema :=
  match ty.leaf with
  | .model s => some s
  | _ => none

def FieldInfo.ty : FieldInfo → FieldTy
  | .mk ty _ _ _ _ => ty

def FieldInfo.allowNone : FieldInfo → Bool
  | .mk _ a _ _ _ => a

def FieldInfo.aliasName : FieldInfo → String
  | .mk _ _ al _ _ => al

def FieldInfo.xmlNameExtra : FieldInfo → Option String
  | .mk _ _ _ x _ => x

def FieldInfo.default : FieldInfo → Option Value
  | .mk _ _ _ _ d => d

def Schema.className : Schema → String
  | .mk c _ _ _ _ _ => c

def Schema.xmlName : Schema → Option String
  | .mk _ x _ _ _ _ => x

def Schema.nameFn : Schema → Option NameFn
  | .mk _ _ f _ _ _ => f

def Schema.isXmlModel : Schema → Bool
  | .mk _ _ _ b _ _ => b

def Schema.content : Schema → FieldInfo
  | .mk _ _ _ _ c _ => c

def Schema.fields : Schema → List (String × FieldInfo)
  | .mk _ _ _ _ _ fs => fs

def Instance.schema : Instance → Schema
  | .mk s _ _ => s

def Instance.vals : Instance → List (String × Value)
  | .mk _ v _ => v

def Instance.content : Instance → Value
  | .mk _ _ c => c

/-- `obj.__fields__[field]` for a non-content field. -/
def Schema.fieldInfo? (s : Schema) (n : String) : Option FieldInfo :=
  dictGet? s.fields n

/-- Whether a value is Python `None`. -/
def Value.isNone : Value → Bool
  | .vNone => true
  | _ => false

/-- `XMLModel._get_xml_name` (xmlmodel.py lines 84-92): the explicit
`__xml_name__` override wins; otherwise a non-`None`
`__xml_name_function__` is applied to the class name; otherwise the class
name itself is used. -/
def getXmlName (s : Schema) : String :=
  match s.xmlName with
  | some n => n
  | none =>
    match s.nameFn with
    | some f => f.apply s.className
    | none => s.className

/-- The element name chosen for a record class by the encoder/decoder:
`cls.__name__`, replaced by `cls._get_xml_name()` when the class is an
`XMLModel` (xmlmodel.py lines 144-147, 162-165, 193-196, 276-284,
321-323). -/
def classXmlName (s : Schema) : String :=
  if s.isXmlModel then getXmlName s else s.className

mutual

/-- Python `str(value)` on the embedded value universe.  Scalars follow the
CPython renderings exactly (`str(True) = "True"`, decimal integers,
`str(None) = "None"`); lists render their items with `repr`; a pydantic-v1
model renders as the space-joined `field=repr(value)` pairs of its
`__dict__`, `xml_content` first (it is declared on the `XMLModel` base
class, so it precedes the subclass fields). -/
def pyStr : Value → String
  | .vStr s => s
  | .vInt n => pyIntStr n
  | .vBool true => "True"
  | .vBool false => "False"
  | .vNone => "None"
  | .vList items => "[" ++ pyReprJoin items ++ "]"
  | .vModel (.mk _ vals c) => "xml_content=" ++ pyRepr c ++ pyStrFields vals

/-- Python `repr(value)` on the embedded value universe (strings are
quoted; character escaping is not modelled). -/
def pyRepr : Value → String
  | .vStr s => "'" ++ s ++ "'"
  | .vInt n => pyIntStr n
  | .vBool true => "True"
  | .vBool false => "False"
  | .vNone => "None"
  | .vList items => "[" ++ pyReprJoin items ++ "]"
  | .vModel (.mk s vals c) =>
      s.className ++ "(xml_content=" ++ pyRepr c ++ pyStrFields vals ++ ")"

/-- Comma-joined `repr`s of list items. -/
def pyReprJoin : List Value → String
  | [] => ""
  | [v] => pyRepr v
  | v :: rest => pyRepr v ++ ", " ++ pyReprJoin rest

/-- The `field=repr(value)` tail of a model rendering. -/
def pyStrFields : List (String × Value) → String
  | [] => ""
  | (n, v) :: rest => " " ++ n ++ "=" ++ pyRepr v ++ pyStrFields rest

end

/-! ### V1 encoder (`to_xml_innner`, xmlmodel.py lines 128-202)

The recursion is structural on the instance/value being encoded (Python's
recursion depth equals the nesting depth of the data).  Each sub-element is
built completely before being attached, which yields the same tree as the
source's `SubElement`-then-fill order because errors abort the whole call. -/

mutual

/-- One `to_xml_innner(e, obj)` call: the field loop, then the
`xml_content` handling. -/
def toXmlInner (excludeNone : Bool) : Instance → Element → Except Err Element
  | .mk s vals content, e =>
    match encodeFields excludeNone s vals e with
    | .error err => .error err
    | .ok e1 => encodeContent excludeNone s content e1

/-- The body of the field loop for one field (xmlmodel.py lines 131-180):
the nested-record branch, the list branch, or the attribute branch. -/
def encodeFieldStep (excludeNone : Bool) (s : Schema) (fname : String) (value : Value)
    (e : Element) : Except Err Element :=
  match s.fieldInfo? fname with
  | none => .error (.runtime ("KeyError: " ++ fname))
  | some info =>
    match info.ty with
    | .model _ =>
      -- nested-record branch (lines 138-151): type_ is a BaseModel and
      -- sub_fields is None
      if info.allowNone && value.isNone then
        .ok e
      else
        match value with
        | .vModel inst =>
          (match toXmlInner excludeNone inst (Element.new (classXmlName inst.schema)) with
           | .error err => .error err
           | .ok sub => .ok (e.addChild sub))
        | _ => .error (.runtime "AttributeError: value is not a model")
    | .listOf elem =>
      -- list branch (lines 152-169): sub_fields is not None; the element
      -- type_ (innermost leaf) must be a BaseModel
      if !elem.leafIsModel then
        .error (.value ("Field " ++ fname ++
          " is a list-like field but not a list of BaseModel"))
      else
        match value with
        | .vList items => encodeItems excludeNone items e
        | _ => .error (.runtime "TypeError: value is not iterable")
    | .scalar _ =>
      -- attribute branch (lines 170-180); pydantic-v1 aliases are never
      -- `None` (they default to the field name), so the alias is used
      if !(excludeNone && value.isNone) then
        .ok (e.setAttr info.aliasName (pyStr value))
      else
        .ok e

/-- The loop over `obj.dict().items()` (the instance fields, which exclude
`xml_content` in our representation, mirroring the `continue` guard).  The
schema is consulted per field as `obj.__fields__[field]`. -/
def encodeFields (excludeNone : Bool) (s : Schema) :
    List (String × Value) → Element → Except Err Element
  | [], e => .ok e
  | (fname, value) :: rest, e =>
    match encodeFieldStep excludeNone s fname value e with
    | .error err => .error err
    | .ok e1 => encodeFields excludeNone s rest e1

/-- The `for item in value` loop of the list branch (lines 160-169): each
item becomes a sibling child named after the item's own runtime class. -/
def encodeItems (excludeNone : Bool) : List Value → Element → Except Err Element
  | [], e => .ok e
  | item :: rest, e =>
    match item with
    | .vModel inst =>
      match toXmlInner excludeNone inst (Element.new (classXmlName inst.schema)) with
      | .error err => .error err
      | .ok sub => encodeItems excludeNone rest (e.addChild sub)
    | _ => .error (.runtime "AttributeError: item is not a model")

/-- The `xml_content` handling (lines 181-202): only `XMLModel` instances
carry content; a list-like content of non-models raises; a list-like
content of models appends children named after the declared element class
(`sub_fields[0].type_`); anything else becomes the element text via
`str`. -/
def encodeContent (excludeNone : Bool) (s : Schema) : Value → Element → Except Err Element
  | content, e =>
    if s.isXmlModel && !content.isNone then
      match s.content.ty with
      | .listOf elem =>
        match elem.leafModel? with
        | some es =>
          match content with
          | .vList items => encodeContentItems excludeNone (classXmlName es) items e
          | _ => .error (.runtime "TypeError: xml_content is not iterable")
        | none => .error (.value ("xml_content field of " ++ s.className ++
            " must be a List[BaseModel]"))
      | _ => .ok (e.setText (pyStr content))
    else
      .ok e

/-- The `for item in obj.xml_content` loop (lines 197-199): every item is
encoded under the single name computed from the declared element class. -/
def encodeContentItems (excludeNone : Bool) (name : String) :
    List Value → Element → Except Err Element
  | [], e => .ok e
  | item :: rest, e =>
    match item with
    | .vModel inst =>
      match toXmlInner excludeNone inst (Element.new name) with
      | .error err => .error err
      | .ok sub => encodeContentItems excludeNone name rest (e.addChild sub)
    | _ => .error (.runtime "AttributeError: item is not a model")

end

/-- `XMLModel.to_xml` up to the tree stage (xmlmodel.py lines 204-207):
the root element is named by `self._get_xml_name()` and filled by
`to_xml_innner`.  The subsequent minidom rendering to text is the external
serialization collaborator. -/
def toXml (excludeNone : Bool) (obj : Instance) : Except Err Element :=
  toXmlInner excludeNone obj (Element.new (getXmlName obj.schema))

/-! ### V1 external validator (pydantic v1 `model(**data)`)

Models the external schema/validation collaborator as used by the source:
pydantic v1 populates fields by alias, applies defaults for missing keys,
errors on missing required fields, and coerces raw values lazily
(`str`/`int`/`bool` string conversions, pass-through for `Any`,
`isinstance` pass-through for already-constructed nested models). -/

/-- The strings pydantic v1 accepts as boolean `True` (after lowercasing). -/
def pyBoolTrueStrs : List String := ["on", "t", "true", "y", "yes", "1"]

/-- The strings pydantic v1 accepts as boolean `False` (after lowercasing). -/
def pyBoolFalseStrs : List String := ["off", "f", "false", "n", "no", "0"]

/-- Coerce one raw value against a declared field type, pydantic-v1 style.
The `allow_none` acceptance of `None` is checked first in every case. -/
def coerceV1 : FieldTy → Bool → Value → Except Err Value
  | .scalar .any, allowNone, v =>
    if allowNone && v.isNone then .ok .vNone else .ok v
  | .scalar .str, allowNone, v =>
    if allowNone && v.isNone then .ok .vNone
    else
      match v with
      | .vStr s => .ok (.vStr s)
      | .vInt n => .ok (.vStr (pyIntStr n))
      | .vBool true => .ok (.vStr "True")
      | .vBool false => .ok (.vStr "False")
      | _ => .error (.validation "str type expected")
  | .scalar .int, allowNone, v =>
    if allowNone && v.isNone then .ok .vNone
    else
      match v with
      | .vInt n => .ok (.vInt n)
      | .vBool b => .ok (.vInt (if b then 1 else 0))
      | .vStr s =>
        (match pyParseInt s with
         | some n => .ok (.vInt n)
         | none => .error (.validation "value is not a valid integer"))
      | _ => .error (.validation "value is not a valid integer")
  | .scalar .bool, allowNone, v =>
    if allowNone && v.isNone then .ok .vNone
    else
      match v with
      | .vBool b => .ok (.vBool b)
      | .vInt n =>
        if n = 1 then .ok (.vBool true)
        else if n = 0 then .ok (.vBool false)
        else .error (.validation "value could not be parsed to a boolean")
      | .vStr s =>
        if pyBoolTrueStrs.contains (pyLower s) then .ok (.vBool true)
        else if pyBoolFalseStrs.contains (pyLower s) then .ok (.vBool false)
        else .error (.validation "value could not be parsed to a boolean")
      | _ => .error (.validation "value could not be parsed to a boolean")
  | .model ms, allowNone, v =>
    if allowNone && v.isNone then .ok .vNone
    else
      match v with
      | .vModel inst =>
        -- isinstance pass-through; class identity is nominal (by name)
        if inst.schema.className = ms.className then .ok (.vModel inst)
        else .error (.validation ("instance of " ++ ms.className ++ " expected"))
      | _ => .error (.validation ("instance of " ++ ms.className ++ " expected"))
  | .listOf elem, allowNone, v =>
    if allowNone && v.isNone then .ok .vNone
    else
      match v with
      | .vList items =>
        (match exceptMapList (fun x => coerceV1 elem false x) items with
         | .ok out => .ok (.vList out)
         | .error err => .error err)
      | _ => .error (.validation "value is not a valid list")


/-- Validate the declared non-content fields against a raw keyed bag. -/
def validateFieldsV1 (fields : List (String × FieldInfo)) (data : List (String × Value)) :
    Except Err (List (String × Value)) :=
  match fields with
  | [] => .ok []
  | (n, info) :: rest =>
    let one : Except Err Value :=
      match dictGet? data info.aliasName with
      | none =>
        match info.default with
        | some d => .ok d
        | none => .error (.validation ("field required: " ++ n))
      | some v => coerceV1 info.ty info.allowNone v
    match one with
    | .error err => .error err
    | .ok v =>
      match validateFieldsV1 rest data with
      | .error err => .error err
      | .ok vs => .ok ((n, v) :: vs)

/-- `model(**data)` for a v1 model: validate every declared field
(including `xml_content`) by alias lookup; unknown keys are ignored
(pydantic v1 default `Extra.ignore`). -/
def modelValidateV1 (s : Schema) (data : List (String × Value)) : Except Err Instance :=
  match validateFieldsV1 s.fields data with
  | .error err => .error err
  | .ok vals =>
    let contentRes : Except Err Value :=
      match dictGet? data s.content.aliasName with
      | none =>
        match s.content.default with
        | some d => .ok d
        | none => .error (.validation "field required: xml_content")
      | some v => coerceV1 s.content.ty s.content.allowNone v
    match contentRes with
    | .error err => .error err
    | .ok c => .ok (.mk s vals c)

/-! ### V1 decoder (`from_element`, xmlmodel.py lines 256-338)

The recursion is structural on the target schema (Python's recursion depth
equals the nesting depth of the record type). -/

/-- Decode a list of child elements with a given decoder
(`for child in ...: from_element(child, type_)`). -/
def decodeChildListAux (dec : Element → Except Err Instance) :
    List Element → Except Err (List Instance)
  | [] => .ok []
  | c :: rest =>
    match dec c with
    | .error err => .error err
    | .ok inst =>
      match decodeChildListAux dec rest with
      | .error err => .error err
      | .ok insts => .ok (inst :: insts)

mutual

/-- One `from_element(element, model)` call: build the raw bag from the
field loop and the `xml_content` handling, then construct via
`model(**data)` (line 336). -/
def fromElement : Schema → Element → Except Err Instance
  | .mk cn xn nf ix cf fs, e =>
    match decodeFieldsV1 fs e [] with
    | .error err => .error err
    | .ok data =>
      match decodeContentV1 cf cn e data with
      | .error err => .error err
      | .ok data1 => modelValidateV1 (.mk cn xn nf ix cf fs) data1

/-- The body of the decoder field loop for one field (lines 261-306). -/
def decodeFieldStepV1 (fname : String) (info : FieldInfo) (e : Element)
    (data : List (String × Value)) : Except Err (List (String × Value)) :=
  match info with
  | .mk ty _ al extra _ =>
    match ty with
    | .listOf elem =>
      -- is_list_like branch (lines 268-282 and 297-300); the attribute
      -- check of line 292 is skipped because field_type is a model
      (match decodeListFieldV1 fname elem e with
       | .error err => .error err
       | .ok v => .ok (dictSet data fname v))
    | .model ms =>
      -- xml_name resolution for a record field (lines 283-289), then the
      -- subelement branch (lines 302-306), keyed by the field name; the
      -- attribute check of line 292 is skipped because field_type is a model
      let xmlName :=
        if ms.isXmlModel then getXmlName ms else pyOr extra al
      (match e.find? xmlName with
       | some child =>
         (match fromElement ms child with
          | .error err => .error err
          | .ok inst => .ok (dictSet data fname (.vModel inst)))
       | none => .ok data)
    | .scalar _ =>
      -- xml_name resolution (lines 286-289), then the attribute branch
      -- (lines 292-295), keyed by xml_name; with no matching attribute the
      -- `element.find` of line 303 runs but its result is unused
      let xmlName := pyOr extra al
      (match e.getAttr? xmlName with
       | some v => .ok (dictSet data xmlName (.vStr v))
       | none => .ok data)

/-- The loop over `model.__fields__` (lines 258-306); `xml_content` is
excluded by our schema representation, mirroring the `continue` guard. -/
def decodeFieldsV1 : List (String × FieldInfo) → Element → List (String × Value) →
    Except Err (List (String × Value))
  | [], _, data => .ok data
  | (fname, info) :: rest, e, data =>
    match decodeFieldStepV1 fname info e data with
    | .error err => .error err
    | .ok data1 => decodeFieldsV1 rest e data1

/-- The list-like field handling (lines 268-282, 297-300), chasing the
pydantic-v1 `type_` (the innermost element type).  A non-model element
type raises; a model element type that is not an `XMLModel` leaves
`xml_name` unassigned in the source (its `else` arm is commented out),
which we model as the runtime failure its first use produces. -/
def decodeListFieldV1 (fname : String) : FieldTy → Element → Except Err Value
  | .scalar _, _ =>
    .error (.value ("Field " ++ fname ++
      " is a list-like field but not a list of BaseModel"))
  | .model ms, e =>
    if ms.isXmlModel then
      match decodeChildListAux (fun c => fromElement ms c) (e.findall (getXmlName ms)) with
      | .error err => .error err
      | .ok insts => .ok (.vList (insts.map Value.vModel))
    else .error (.runtime ("UnboundLocalError: xml_name for field " ++ fname))
  | .listOf e2, e => decodeListFieldV1 fname e2 e

/-- The `xml_content` handling (lines 308-333): a list-like content field
of models collects the matching children; a list-like content of
non-models raises; otherwise the bag binds the content alias to
`element.text or ""`. -/
def decodeContentV1 (cf : FieldInfo) (className : String) (e : Element)
    (data : List (String × Value)) : Except Err (List (String × Value)) :=
  match cf with
  | .mk ty _ al _ _ =>
    match ty with
    | .listOf elem =>
      match decodeContentListV1 className elem e with
      | .error err => .error err
      | .ok v => .ok (dictSet data al v)
    | _ => .ok (dictSet data al (.vStr (e.text.getD "")))

/-- The list-like content handling (lines 313-329), chasing the element
`type_`: children whose tag equals the declared element name are decoded
in document order. -/
def decodeContentListV1 (className : String) : FieldTy → Element → Except Err Value
  | .scalar _, _ =>
    .error (.value ("xml_content field of " ++ className ++
      " must be a List[BaseModel]"))
  | .model ms, e =>
    match decodeChildListAux (fun c => fromElement ms c)
        (e.children.filter (fun c => c.tag = classXmlName ms)) with
    | .error err => .error err
    | .ok insts => .ok (.vList (insts.map Value.vModel))
  | .listOf e2, e => decodeContentListV1 className e2 e

end

/-- `XMLModel.from_xml` after the parse stage (xmlmodel.py line 341). -/
def fromXmlTree (s : Schema) (root : Element) : Except Err Instance :=
  fromElement s root

/-- `XMLModel.from_xml` (xmlmodel.py lines 340-341): parse the text with
the external XML collaborator (`xml.etree.ElementTree.fromstring`,
abstracted as the `parse` argument), then decode the tree against the
class.  A parse failure surfaces as a `ParseError` before any decoding. -/
def fromXml (parse : String → Except String Element) (s : Schema)
    (xml : String) : Except Err Instance :=
  match parse xml with
  | .error msg => .error (.parse msg)
  | .ok root => fromElement s root

/-- The attribute name the decoder consults for a field, if any: only the
attribute branch (line 292) reads an attribute, keyed by `xml_name`. -/
def fieldAttrName? (info : FieldInfo) : Option String :=
  match info.ty with
  | .scalar _ => some (pyOr info.xmlNameExtra info.aliasName)
  | _ => none

/-- The child tag the decoder consults for a field, if any: the subelement
branch (line 303) and the list branch (line 274). -/
def fieldChildTag? (info : FieldInfo) : Option String :=
  match info.ty with
  | .scalar _ => none
  | .model ms =>
    some (if ms.isXmlModel then getXmlName ms
      else pyOr info.xmlNameExtra info.aliasName)
  | .listOf elem =>
    match elem.leaf with
    | .model ms => some (getXmlName ms)
    | _ => none

/-- All attribute names the decoder can consult on the input element. -/
def attrNames (s : Schema) : List String :=
  s.fields.filterMap (fun p => fieldAttrName? p.2)

/-- The child tag consulted by a list-like `xml_content` (line 319). -/
def contentTags (s : Schema) : List String :=
  match s.content.ty with
  | .listOf elem =>
    (match elem.leaf with
     | .model ms => [classXmlName ms]
     | _ => [])
  | _ => []

/-- All child tags the decoder can consult on the input element. -/
def childTags (s : Schema) : List String :=
  s.fields.filterMap (fun p => fieldChildTag? p.2) ++ contentTags s

/-- Whether a runtime value survives the attribute round trip under a
scalar annotation: the attribute string parses back to the value. -/
def scalarConform : PyTy → Value → Bool
  | .str, .vStr _ => true
  | .int, .vInt _ => true
  | .bool, .vBool _ => true
  | .any, .vStr _ => true
  | _, _ => false

/-- Field/value alignment for an attribute-only model: the instance values
carry the declared names in declaration order, every annotation is scalar
with no `xml_name` extra, and every value conforms to its annotation. -/
def fieldsConform : List (String × FieldInfo) → List (String × Value) → Bool
  | [], [] => true
  | (n, info) :: fs, (m, v) :: vs =>
    n == m &&
    (match info.ty with
     | .scalar t => info.xmlNameExtra.isNone && scalarConform t v
     | _ => false) &&
    fieldsConform fs vs
  | _, _ => false

/-- The aliases of a field list, in order. -/
def aliasesOf (fs : List (String × FieldInfo)) : List String :=
  fs.map (fun p => p.2.aliasName)

/-- Every field's attribute on the element holds its value's string. -/
def attrsRestored (el : Element) :
    List (String × FieldInfo) → List (String × Value) → Prop
  | [], [] => True
  | (_, info) :: fs, (_, v) :: vs =>
    el.getAttr? info.aliasName = some (pyStr v) ∧ attrsRestored el fs vs
  | _, _ => False

/-- Every field's alias in the raw bag holds its value's string. -/
def dataRestored (data : List (String × Value)) :
    List (String × FieldInfo) → List (String × Value) → Prop
  | [], [] => True
  | (_, info) :: fs, (_, v) :: vs =>
    dictGet? data info.aliasName = some (.vStr (pyStr v)) ∧ dataRestored data fs vs
  | _, _ => False

/-- The side conditions under which the v1 attribute round trip restores
every declared field: an `XMLModel` whose inherited content slot is the
default `Any`, distinct field names and aliases, a content alias that
collides with no field alias, and conforming scalar fields. -/
def v1RoundtripOk (s : Schema) (vals : List (String × Value)) : Bool :=
  s.isXmlModel &&
  (match s.content.ty with
   | .scalar .any => true
   | _ => false) &&
  decide (s.fields.map Prod.fst).Nodup &&
  decide (aliasesOf s.fields).Nodup &&
  decide (s.content.aliasName ∉ aliasesOf s.fields) &&
  fieldsConform s.fields vals

end V1

/-! ## V2: `src/pydantic_xmlmodel/serde.py` (pydantic-v2 style functions)

Field annotations model the `get_origin`/`get_args` view used by the
source: a plain scalar class, `NoneType`, a record class, a
`Sequence`-origin generic with its argument list, or a `Union` with its
argument list (`Optional[X]` is `union [X, noneTy]`).  A v2 model carries
no separate content slot: `serde.py` treats the field *named*
`xml_content` specially. -/

namespace V2

mutual

/-- A field annotation as the source inspects it. -/
inductive Ann where
  | prim (t : PyTy)
  | noneTy
  | basemodel (s : SchemaV2)
  | seq (args : List Ann)
  | union (args : List Ann)

/-- A pydantic-v2 model class: its `__name__`, the optional `__xml_name__`
class attribute (a string when present), the optional `xml_name` entry of
`model_config`, and `model_fields` in declaration order. -/
inductive SchemaV2 where
  | mk (className : String) (xmlName : Option String) (configXmlName : Option String)
       (fields : List (String × FieldV2))

/-- A v2 `FieldInfo`: annotation, `serialization_alias`,
`validation_alias`, and the default value (`none` when required). -/
inductive FieldV2 where
  | mk (ann : Ann) (serializationAlias : Option String)
       (validationAlias : Option String) (default : Option ValueV2)

/-- A runtime Python value in the v2 pipeline. -/
inductive ValueV2 where
  | vStr (s : String)
  | vInt (n : Int)
  | vBool (b : Bool)
  | vNone
  | vList (items : List ValueV2)
  | vModel (inst : InstanceV2)

/-- A validated v2 model instance. -/
inductive InstanceV2 where
  | mk (schema : SchemaV2) (vals : List (String × ValueV2))

end

def SchemaV2.className : SchemaV2 → String
  | .mk c _ _ _ => c

def SchemaV2.xmlName : SchemaV2 → Option String
  | .mk _ x _ _ => x

def SchemaV2.configXmlName : SchemaV2 → Option String
  | .mk _ _ cfg _ => cfg

def SchemaV2.fields : SchemaV2 → List (String × FieldV2)
  | .mk _ _ _ fs => fs

def FieldV2.ann : FieldV2 → Ann
  | .mk a _ _ _ => a

def FieldV2.serializationAlias : FieldV2 → Option String
  | .mk _ sa _ _ => sa

def FieldV2.validationAlias : FieldV2 → Option String
  | .mk _ _ va _ => va

def FieldV2.default : FieldV2 → Option ValueV2
  | .mk _ _ _ d => d

def InstanceV2.schema : InstanceV2 → SchemaV2
  | .mk s _ => s

def InstanceV2.vals : InstanceV2 → List (String × ValueV2)
  | .mk _ v => v

/-- `obj.model_fields[name]`. -/
def SchemaV2.fieldInfo? (s : SchemaV2) (n : String) : Option FieldV2 :=
  dictGet? s.fields n

/-- Whether a v2 value is Python `None`. -/
def ValueV2.isNone : ValueV2 → Bool
  | .vNone => true
  | _ => false

/-- `_get_basemodel_name` (serde.py lines 34-42): the `__xml_name__` class
attribute wins; otherwise a string `xml_name` entry of `model_config`;
otherwise the class `__name__`. -/
def getBasemodelName (s : SchemaV2) : String :=
  match s.xmlName with
  | some n => n
  | none =>
    match s.configXmlName with
    | some n => n
    | none => s.className

/-- Whether an annotation argument is a `BaseModel` subclass
(`_issubclass_safe(arg, BaseModel)`). -/
def Ann.isBasemodel : Ann → Bool
  | .basemodel _ => true
  | _ => false

/-- `_analyze_sequence(origin, args)` (serde.py lines 45-59): a
`Sequence`-origin annotation with no arguments or with a non-model
argument raises; otherwise it reports a model list.  Any other origin
(including `None`, a scalar class, a model class or `Union`, on which
`issubclass` is false or raises `TypeError`) reports `False`. -/
def analyzeSequence : Ann → Except Err Bool
  | .seq [] =>
    .error (.value "Invalid list type, must be a list of basemodels (no type args)")
  | .seq args =>
    if args.all Ann.isBasemodel then .ok true
    else .error (.value "Invalid list type, must be a list of basemodels (type args is not a basemodel)")
  | _ => .ok false

/-- The `for union_arg in args` loop of `_analyze_annotation`
(serde.py lines 67-73), threading the two flags. -/
def analyzeUnionArgs : List Ann → Bool → Bool → Except Err (Bool × Bool)
  | [], isList, isBm => .ok (isList, isBm)
  | a :: rest, isList, isBm =>
    if a.isBasemodel then analyzeUnionArgs rest isList true
    else
      match analyzeSequence a with
      | .error err => .error err
      | .ok true => analyzeUnionArgs rest true true
      | .ok false => analyzeUnionArgs rest isList isBm

/-- `_analyze_annotation(origin, args)` (serde.py lines 62-83), returning
`(is_list, is_basemodel)`.  The `origin is str` guard corresponds to the
`prim .str` case (a `str` annotation is a `Sequence` subclass in Python,
which the guard deliberately bypasses). -/
def analyzeAnnotation : Ann → Except Err (Bool × Bool)
  | .union args => analyzeUnionArgs args false false
  | .prim .str => .ok (false, false)
  | .seq args =>
    match analyzeSequence (.seq args) with
    | .error err => .error err
    | .ok true => .ok (true, true)
    | .ok false => .ok (false, false)
  | .basemodel _ => .ok (false, true)
  | .prim _ => .ok (false, false)
  | .noneTy => .ok (false, false)

/-- `ret.add(x)` for a Python `set` of classes: membership is class
identity, modelled nominally by class name. -/
def addToSet (ret : List SchemaV2) (s : SchemaV2) : List SchemaV2 :=
  if ret.any (fun t => t.className = s.className) then ret else ret ++ [s]

/-- Collect the `BaseModel` members of an argument list into the set. -/
def collectBasemodels : List Ann → List SchemaV2 → List SchemaV2
  | [], acc => acc
  | .basemodel s :: rest, acc => collectBasemodels rest (addToSet acc s)
  | _ :: rest, acc => collectBasemodels rest acc

/-- `_find_basemodel_types(origin, args)` (serde.py lines 86-107).  The
source returns a Python `set`, whose iteration order is unspecified; we
return the members in insertion order and let the callers apply an
arbitrary enumeration (see `convertFromXml`). -/
def findBasemodelTypes : Ann → Except Err (List SchemaV2)
  | .union args => .ok (collectBasemodels args [])
  | .seq [] =>
    .error (.value "Invalid list type, must be a list of basemodels (no type args)")
  | .seq args => .ok (collectBasemodels args [])
  | .basemodel s => .ok [s]
  | _ => .ok []

/-- `select_name` (serde.py lines 129-132). -/
def selectName (byAlias : Bool) (name : String) (al : Option String) : String :=
  match al with
  | some a => if byAlias then a else name
  | none => name

/-- `select_submodel_name` (serde.py lines 134-137). -/
def selectSubmodelName (submodelByAlias : Bool) (name : String) (al : Option String) : String :=
  match al with
  | some a => if submodelByAlias then a else name
  | none => name

mutual

/-- Python `str(value)` on the v2 value universe (scalars exactly as
CPython; a v2 model renders as space-joined `field=repr(value)` pairs). -/
def pyStrV2 : ValueV2 → String
  | .vStr s => s
  | .vInt n => pyIntStr n
  | .vBool true => "True"
  | .vBool false => "False"
  | .vNone => "None"
  | .vList items => "[" ++ pyReprJoinV2 items ++ "]"
  | .vModel (.mk _ vals) => (pyStrFieldsV2 vals).drop 1

/-- Python `repr(value)` on the v2 value universe. -/
def pyReprV2 : ValueV2 → String
  | .vStr s => "'" ++ s ++ "'"
  | .vInt n => pyIntStr n
  | .vBool true => "True"
  | .vBool false => "False"
  | .vNone => "None"
  | .vList items => "[" ++ pyReprJoinV2 items ++ "]"
  | .vModel (.mk s vals) => s.className ++ "(" ++ (pyStrFieldsV2 vals).drop 1 ++ ")"

/-- Comma-joined `repr`s of list items. -/
def pyReprJoinV2 : List ValueV2 → String
  | [] => ""
  | [v] => pyReprV2 v
  | v :: rest => pyReprV2 v ++ ", " ++ pyReprJoinV2 rest

/-- The `field=repr(value)` tail of a model rendering. -/
def pyStrFieldsV2 : List (String × ValueV2) → String
  | [] => ""
  | (n, v) :: rest => " " ++ n ++ "=" ++ pyReprV2 v ++ pyStrFieldsV2 rest

end

/-! ### V2 encoder (`convert_to_xml`, serde.py lines 139-188) -/

mutual

/-- One `convert_to_xml(element, obj)` call. -/
def convertToXml (byAlias submodelByAlias : Bool) : InstanceV2 → Element → Except Err Element
  | .mk s vals, e => convertFieldsToXml byAlias submodelByAlias s vals e

/-- The body of the encoder field loop for one field (serde.py lines
142-186). -/
def convertFieldStepV2 (byAlias submodelByAlias : Bool) (s : SchemaV2) (name : String)
    (value : ValueV2) (e : Element) : Except Err Element :=
  match s.fieldInfo? name with
  | none => .error (.runtime ("AttributeError: " ++ name))
  | some f =>
    -- `field.annotation is None` raises in the source; an annotation is
    -- always present in our representation
    match analyzeAnnotation f.ann with
    | .error err => .error err
    | .ok (isList, _) =>
      let isXmlContent := name == "xml_content"
      if isList then
        -- list branch (lines 160-170): a `None` list is skipped; model
        -- items become sub-elements; non-model items are skipped silently
        match value with
        | .vNone => .ok e
        | .vList items => convertListItems byAlias submodelByAlias f.serializationAlias items e
        | _ => .error (.runtime "TypeError: value is not iterable")
      else
        match value with
        | .vModel inst =>
          -- submodel branch (lines 172-177)
          (match convertToXml byAlias submodelByAlias inst
              (Element.new (selectSubmodelName submodelByAlias
                (getBasemodelName inst.schema) f.serializationAlias)) with
           | .error err => .error err
           | .ok sub => .ok (e.addChild sub))
        | .vNone =>
          -- `if value is None: continue` (lines 179-180)
          .ok e
        | v =>
          if isXmlContent then
            -- `element.text = str(value)` (lines 181-182)
            .ok (e.setText (pyStrV2 v))
          else
            -- `element.set(select_name(name, alias), str(value))` (183-186)
            .ok (e.setAttr (selectName byAlias name f.serializationAlias) (pyStrV2 v))

/-- The loop over `obj.model_fields.items()` (realized over the instance
field list, which mirrors `model_fields`), with `value = getattr(obj,
name)` as the per-field value. -/
def convertFieldsToXml (byAlias submodelByAlias : Bool) (s : SchemaV2) :
    List (String × ValueV2) → Element → Except Err Element
  | [], e => .ok e
  | (name, value) :: rest, e =>
    match convertFieldStepV2 byAlias submodelByAlias s name value e with
    | .error err => .error err
    | .ok e1 => convertFieldsToXml byAlias submodelByAlias s rest e1

/-- The `for single_value in value` loop (lines 163-170): model items
become sub-elements named after their own runtime class; other items are
skipped. -/
def convertListItems (byAlias submodelByAlias : Bool) (sa : Option String) :
    List ValueV2 → Element → Except Err Element
  | [], e => .ok e
  | item :: rest, e =>
    match item with
    | .vModel inst =>
      match convertToXml byAlias submodelByAlias inst
          (Element.new (selectSubmodelName submodelByAlias
            (getBasemodelName inst.schema) sa)) with
      | .error err => .error err
      | .ok sub => convertListItems byAlias submodelByAlias sa rest (e.addChild sub)
    | _ => convertListItems byAlias submodelByAlias sa rest e

end

/-- `model_dump_xml` up to the tree stage (serde.py lines 110-188): the
root element is named by `_get_basemodel_name(type(model))`; the XML
declaration and `tostring` rendering are the external text collaborator. -/
def modelDumpXmlTree (byAlias submodelByAlias : Bool) (inst : InstanceV2) :
    Except Err Element :=
  convertToXml byAlias submodelByAlias inst (Element.new (getBasemodelName inst.schema))

/-! ### V2 decoder (`convert_from_xml`, serde.py lines 210-279)

The raw field bag holds strings, lists and nested dicts, exactly as the
source builds it before handing it to `model_validate`.

The candidate record types of a field come from `_find_basemodel_types`,
which returns a Python `set`; the set's iteration order is unspecified, so
the decoder takes the enumeration actually used by a run as the function
argument `setOrder` (a permutation of the insertion-ordered members).
`fuel` models CPython's recursion limit. -/

/-- A raw decoded value: attribute/text strings, candidate-type lists, and
nested dicts. -/
inductive Raw where
  | rstr (s : String)
  | rlist (xs : List Raw)
  | rdict (entries : List (String × Raw))

mutual

/-- One `convert_from_xml(element, obj)` call. -/
def convertFromXml (setOrder : List SchemaV2 → List SchemaV2) (byAlias : Bool) :
    Nat → SchemaV2 → Element → Except Err (List (String × Raw))
  | 0, _, _ => .error (.runtime "maximum recursion depth exceeded")
  | fuel + 1, .mk _ _ _ fs, e => convertFieldsFromXml setOrder byAlias fuel fs e []

/-- The body of the decoder field loop for one field (lines 222-276). -/
def convertFieldStepFromXml (setOrder : List SchemaV2 → List SchemaV2) (byAlias : Bool) :
    Nat → String → FieldV2 → Element → List (String × Raw) →
      Except Err (List (String × Raw))
  | 0, _, _, _, _ => .error (.runtime "maximum recursion depth exceeded")
  | fuel + 1, name, .mk ann _ va _, e, data =>
    match analyzeAnnotation ann with
    | .error err => .error err
    | .ok (isList, isBm) =>
      -- `is_xml_content` is computed from the declared field name (line
      -- 236), before the alias rebinding of lines 238-242
      let isXmlContent := name == "xml_content"
      let name1 := if byAlias then pyOr va name else name
      if isBm && !isList then
        -- single-record branch (lines 244-254): candidates are probed in
        -- set order; each match overwrites the key, so the last match wins
        match findBasemodelTypes ann with
        | .error err => .error err
        | .ok types =>
          if types.isEmpty then
            .error (.value ("Field " ++ name1 ++ " has no basemodel types"))
          else
            decodeSingleCandidates setOrder byAlias fuel (setOrder types) e name1 data
      else if isBm && isList then
        -- record-list branch (lines 255-267): an accumulating list over
        -- the candidates in set order, `findall` per candidate
        match findBasemodelTypes ann with
        | .error err => .error err
        | .ok types =>
          if types.isEmpty then
            .error (.value ("Field " ++ name1 ++ " has no basemodel type"))
          else
            match decodeGroupCandidates setOrder byAlias fuel (setOrder types) e with
            | .error err => .error err
            | .ok items => .ok (dictSet data name1 (.rlist items))
      else
        -- scalar branch (lines 268-276): element text for `xml_content`,
        -- attribute lookup otherwise; a missing value omits the key
        let value := if isXmlContent then e.text else e.getAttr? name1
        match value with
        | none => .ok data
        | some v => .ok (dictSet data name1 (.rstr v))

/-- The loop over `obj.model_fields.items()` (lines 222-276). -/
def convertFieldsFromXml (setOrder : List SchemaV2 → List SchemaV2) (byAlias : Bool) :
    Nat → List (String × FieldV2) → Element → List (String × Raw) →
      Except Err (List (String × Raw))
  | 0, _, _, _ => .error (.runtime "maximum recursion depth exceeded")
  | _ + 1, [], _, data => .ok data
  | fuel + 1, (name, f) :: rest, e, data =>
    match convertFieldStepFromXml setOrder byAlias fuel name f e data with
    | .error err => .error err
    | .ok data1 => convertFieldsFromXml setOrder byAlias fuel rest e data1

/-- The `for basemodel_type in basemodel_types` loop of the single-record
branch (lines 249-254). -/
def decodeSingleCandidates (setOrder : List SchemaV2 → List SchemaV2) (byAlias : Bool) :
    Nat → List SchemaV2 → Element → String → List (String × Raw) →
      Except Err (List (String × Raw))
  | 0, _, _, _, _ => .error (.runtime "maximum recursion depth exceeded")
  | _ + 1, [], _, _, data => .ok data
  | fuel + 1, t :: ts, e, name, data =>
    match e.find? (getBasemodelName t) with
    | none => decodeSingleCandidates setOrder byAlias fuel ts e name data
    | some sub =>
      match convertFromXml setOrder byAlias fuel t sub with
      | .error err => .error err
      | .ok d =>
        decodeSingleCandidates setOrder byAlias fuel ts e name
          (dictSet data name (.rdict d))

/-- The `for basemodel_type in basemodel_types` loop of the record-list
branch (lines 261-267): per candidate, all matching children in document
order, groups concatenated in enumeration order. -/
def decodeGroupCandidates (setOrder : List SchemaV2 → List SchemaV2) (byAlias : Bool) :
    Nat → List SchemaV2 → Element → Except Err (List Raw)
  | 0, _, _ => .error (.runtime "maximum recursion depth exceeded")
  | _ + 1, [], _ => .ok []
  | fuel + 1, t :: ts, e =>
    match decodeChildrenV2 setOrder byAlias fuel t (e.findall (getBasemodelName t)) with
    | .error err => .error err
    | .ok group =>
      match decodeGroupCandidates setOrder byAlias fuel ts e with
      | .error err => .error err
      | .ok more => .ok (group ++ more)

/-- Decode a list of matching children against one candidate type. -/
def decodeChildrenV2 (setOrder : List SchemaV2 → List SchemaV2) (byAlias : Bool) :
    Nat → SchemaV2 → List Element → Except Err (List Raw)
  | 0, _, _ => .error (.runtime "maximum recursion depth exceeded")
  | _ + 1, _, [] => .ok []
  | fuel + 1, t, c :: cs =>
    match convertFromXml setOrder byAlias fuel t c with
    | .error err => .error err
    | .ok d =>
      match decodeChildrenV2 setOrder byAlias fuel t cs with
      | .error err => .error err
      | .ok ds => .ok (.rdict d :: ds)

end

/-! ### V2 external validator (pydantic v2 `model_validate`)

Models the external validation collaborator in lax mode: field population
by validation alias, defaults for missing keys, string-to-scalar coercion
(`"true"/"false"` and friends case-insensitively for booleans, decimal
strings for integers), nested dict construction for record annotations,
elementwise coercion for sequences (positional for multi-argument tuples),
and first-success arm selection for unions. -/

mutual

/-- `Any` keeps the raw value (strings and lists; the decoder only
produces dicts under record annotations, which `Any` never carries). -/
def rawToValue : Raw → Except Err ValueV2
  | .rstr s => .ok (.vStr s)
  | .rlist xs =>
    match rawListToValue xs with
    | .error err => .error err
    | .ok vs => .ok (.vList vs)
  | .rdict _ => .error (.validation "dict input for Any is outside the model")

/-- Pointwise `rawToValue`. -/
def rawListToValue : List Raw → Except Err (List ValueV2)
  | [] => .ok []
  | x :: xs =>
    match rawToValue x with
    | .error err => .error err
    | .ok v =>
      match rawListToValue xs with
      | .error err => .error err
      | .ok vs => .ok (v :: vs)

end

/-- The strings pydantic v2 lax mode accepts as boolean true (after
lowercasing). -/
def pyBoolV2True : List String := ["1", "on", "t", "true", "y", "yes"]

/-- The strings pydantic v2 lax mode accepts as boolean false (after
lowercasing). -/
def pyBoolV2False : List String := ["0", "off", "f", "false", "n", "no"]

mutual

/-- Coerce one raw value against an annotation. -/
def coerceV2 : Ann → Raw → Except Err ValueV2
  | .prim .str, .rstr s => .ok (.vStr s)
  | .prim .str, _ => .error (.validation "Input should be a valid string")
  | .prim .int, .rstr s =>
    (match pyParseInt s with
     | some n => .ok (.vInt n)
     | none => .error (.validation "Input should be a valid integer"))
  | .prim .int, _ => .error (.validation "Input should be a valid integer")
  | .prim .bool, .rstr s =>
    if pyBoolV2True.contains (pyLower s) then .ok (.vBool true)
    else if pyBoolV2False.contains (pyLower s) then .ok (.vBool false)
    else .error (.validation "Input should be a valid boolean")
  | .prim .bool, _ => .error (.validation "Input should be a valid boolean")
  | .prim .any, raw => rawToValue raw
  | .noneTy, _ => .error (.validation "Input should be None")
  | .basemodel s2, .rdict d =>
    (match modelValidateV2 s2 d with
     | .error err => .error err
     | .ok inst => .ok (.vModel inst))
  | .basemodel s2, _ =>
    .error (.validation ("Input should be a valid dictionary or instance of "
      ++ s2.className))
  | .seq [a], .rlist xs =>
    (match exceptMapList (fun x => coerceV2 a x) xs with
     | .error err => .error err
     | .ok out => .ok (.vList out))
  | .seq args, .rlist xs =>
    (match coerceZipV2 args xs with
     | .error err => .error err
     | .ok out => .ok (.vList out))
  | .seq _, _ => .error (.validation "Input should be a valid list")
  | .union args, raw => coerceUnionV2 args raw

/-- Positional coercion for a multi-argument (tuple-like) sequence
annotation; an arity mismatch fails. -/
def coerceZipV2 : List Ann → List Raw → Except Err (List ValueV2)
  | [], [] => .ok []
  | a :: as_, x :: xs =>
    match coerceV2 a x with
    | .error err => .error err
    | .ok v =>
      match coerceZipV2 as_ xs with
      | .error err => .error err
      | .ok vs => .ok (v :: vs)
  | _, _ => .error (.validation "Tuple should have the declared number of items")

/-- First-success arm selection for a union annotation. -/
def coerceUnionV2 : List Ann → Raw → Except Err ValueV2
  | [], _ => .error (.validation "no union member matched")
  | a :: rest, raw =>
    match coerceV2 a raw with
    | .ok v => .ok v
    | .error _ => coerceUnionV2 rest raw

/-- Validate the declared fields against the raw bag; lookup is by
`validation_alias` (or the field name), missing keys fall back to the
default and error when the field is required; unknown keys are ignored. -/
def validateFieldsV2 : List (String × FieldV2) → List (String × Raw) →
    Except Err (List (String × ValueV2))
  | [], _ => .ok []
  | (n, .mk ann _ va dflt) :: rest, data =>
    let key := pyOr va n
    let one : Except Err ValueV2 :=
      match dictGet? data key with
      | none =>
        match dflt with
        | some d => .ok d
        | none => .error (.validation ("Field required: " ++ n))
      | some raw => coerceV2 ann raw
    match one with
    | .error err => .error err
    | .ok v =>
      match validateFieldsV2 rest data with
      | .error err => .error err
      | .ok vs => .ok ((n, v) :: vs)

/-- `model.model_validate(obj)` on a raw keyed bag. -/
def modelValidateV2 : SchemaV2 → List (String × Raw) → Except Err InstanceV2
  | .mk cn xn cfg fs, data =>
    match validateFieldsV2 fs data with
    | .error err => .error err
    | .ok vals => .ok (.mk (.mk cn xn cfg fs) vals)

end

/-- `model_validate_xml` (serde.py lines 197-283): parse the text with the
external XML collaborator, build the raw bag, and validate it. -/
def modelValidateXml (parse : String → Except String Element)
    (setOrder : List SchemaV2 → List SchemaV2) (fuel : Nat) (s : SchemaV2)
    (byAlias : Bool) (xml : String) : Except Err InstanceV2 :=
  match parse xml with
  | .error msg => .error (.parse msg)
  | .ok root =>
    match convertFromXml setOrder byAlias fuel s root with
    | .error err => .error err
    | .ok data => modelValidateV2 s data

/-- The attribute name the serde decoder consults for a field, if any:
only the scalar fall-through (line 272) reads an attribute, and not for
`xml_content`. -/
def fieldAttrNameV2 (ba : Bool) (name : String) (f : FieldV2) : Option String :=
  match analyzeAnnotation f.ann with
  | .ok (_, false) =>
    if name == "xml_content" then none
    else some (if ba then pyOr f.validationAlias name else name)
  | _ => none

/-- All attribute names the serde decoder can consult on the input
element. -/
def attrNamesV2 (ba : Bool) (s : SchemaV2) : List String :=
  s.fields.filterMap (fun p => fieldAttrNameV2 ba p.1 p.2)

/-- The child tags the serde decoder can consult for a field: the element
names of the candidate record types (lines 250, 262). -/
def fieldChildTagsV2 (f : FieldV2) : List String :=
  match analyzeAnnotation f.ann with
  | .ok (_, true) =>
    (match findBasemodelTypes f.ann with
     | .ok types => types.map getBasemodelName
     | .error _ => [])
  | _ => []

/-- The child tags the serde decoder can consult over a field list. -/
def fieldsChildTagsV2 : List (String × FieldV2) → List String
  | [] => []
  | p :: rest => fieldChildTagsV2 p.2 ++ fieldsChildTagsV2 rest

/-- All child tags the serde decoder can consult on the input element. -/
def childTagsV2 (s : SchemaV2) : List String :=
  fieldsChildTagsV2 s.fields

/-- Whether a runtime value survives the serde attribute round trip under
a primitive annotation. -/
def scalarConformV2 : PyTy → ValueV2 → Bool
  | .str, .vStr _ => true
  | .int, .vInt _ => true
  | .bool, .vBool _ => true
  | .any, .vStr _ => true
  | _, _ => false

/-- Field/value alignment for an attribute-only serde model: declared
names in declaration order, none named `xml_content`, primitive
annotations, no validation alias, conforming values. -/
def fieldsConformV2 : List (String × FieldV2) → List (String × ValueV2) → Bool
  | [], [] => true
  | (n, f) :: fs, (m, v) :: vs =>
    n == m &&
    !(n == "xml_content") &&
    (match f.ann with
     | .prim t => scalarConformV2 t v
     | _ => false) &&
    f.validationAlias.isNone &&
    fieldsConformV2 fs vs
  | _, _ => false

/-- Every field's attribute on the element holds its value's string. -/
def attrsRestoredV2 (el : Element) :
    List (String × FieldV2) → List (String × ValueV2) → Prop
  | [], [] => True
  | (n, _) :: fs, (_, v) :: vs =>
    el.getAttr? n = some (pyStrV2 v) ∧ attrsRestoredV2 el fs vs
  | _, _ => False

/-- Every field's name in the raw bag holds its value's string. -/
def dataRestoredV2 (data : List (String × Raw)) :
    List (String × FieldV2) → List (String × ValueV2) → Prop
  | [], [] => True
  | (n, _) :: fs, (_, v) :: vs =>
    dictGet? data n = some (.rstr (pyStrV2 v)) ∧ dataRestoredV2 data fs vs
  | _, _ => False

/-- The raw bag the serde decoder builds from an attribute-only element:
one string entry per field, keyed by the field name, in order. -/
def rawBag (data : List (String × Raw)) :
    List (String × FieldV2) → List (String × ValueV2) → List (String × Raw)
  | (n, _) :: fs, (_, v) :: vs => rawBag (dictSet data n (.rstr (pyStrV2 v))) fs vs
  | _, _ => data

/-- The side conditions under which the serde attribute round trip is the
identity: distinct field names and conforming primitive fields. -/
def v2RoundtripOk (s : SchemaV2) (vals : List (String × ValueV2)) : Bool :=
  decide (s.fields.map Prod.fst).Nodup && fieldsConformV2 s.fields vals

end V2


/-! ## Concrete schemas and instances used by the claim theorems -/

namespace Fixtures

open V1 V2

/-- The `xml_content` field as inherited from the `XMLModel` base class:
`xml_content: Optional[Any] = None`. -/
def defaultContent : V1.FieldInfo :=
  .mk (.scalar .any) true "xml_content" none (some .vNone)

/-- `class ExampleModel(XMLModel): __xml_name__ = "example"; name: str;
value: int` (tests/test_main.py). -/
def exSchema : V1.Schema :=
  .mk "ExampleModel" (some "example") (some .lower) true defaultContent
    [("name", .mk (.scalar .str) false "name" none none),
     ("value", .mk (.scalar .int) false "value" none none)]

/-- `ExampleModel(name="test", value=123)` (fresh, `xml_content is None`). -/
def exInst : V1.Instance :=
  .mk exSchema [("name", .vStr "test"), ("value", .vInt 123)] .vNone

/-- The same instance after a serialize/deserialize round trip: the content
field has become the empty string. -/
def exInstRT : V1.Instance :=
  .mk exSchema [("name", .vStr "test"), ("value", .vInt 123)] (.vStr "")

/-- A model with one optional integer field. -/
def optSchema : V1.Schema :=
  .mk "OptModel" (some "opt") (some .lower) true defaultContent
    [("a", .mk (.scalar .int) true "a" none (some .vNone))]

/-- An empty `XMLModel` subclass named `inner`. -/
def innerSchema : V1.Schema :=
  .mk "InnerModel" (some "inner") (some .lower) true defaultContent []

/-- `class OuterModel(XMLModel): inner: Optional[InnerModel] = None`. -/
def outerSchema : V1.Schema :=
  .mk "OuterModel" (some "outer") (some .lower) true defaultContent
    [("inner", .mk (.model innerSchema) true "inner" none (some .vNone))]

/-- A model with one boolean field. -/
def boolSchema : V1.Schema :=
  .mk "BoolModel" (some "b") (some .lower) true defaultContent
    [("flag", .mk (.scalar .bool) false "flag" none none)]

/-- `class XmlListNonBaseModel(XMLModel): data: List[int]`
(tests/test_list.py). -/
def badListSchema : V1.Schema :=
  .mk "XmlListNonBaseModel" (some "test") (some .lower) true defaultContent
    [("data", .mk (.listOf (.scalar .int)) false "data" none none)]

/-- The v2 counterpart of `ExampleModel`. -/
def exSchemaV2 : V2.SchemaV2 :=
  .mk "Example" none (some "example")
    [("name", .mk (.prim .str) none none none),
     ("value", .mk (.prim .int) none none none)]

def exInstV2 : V2.InstanceV2 :=
  .mk exSchemaV2 [("name", .vStr "test"), ("value", .vInt 123)]

/-- A v2 model with one boolean field. -/
def boolSchemaV2 : V2.SchemaV2 :=
  .mk "BoolM" none (some "b") [("flag", .mk (.prim .bool) none none none)]

/-- A v2 model with a `List[int]` field. -/
def badListSchemaV2 : V2.SchemaV2 :=
  .mk "Bad" none (some "test") [("data", .mk (.seq [.prim .int]) none none none)]

/-- A v2 record candidate named `a` with one string field. -/
def aSchemaV2 : V2.SchemaV2 :=
  .mk "A" none (some "a") [("x", .mk (.prim .str) none none none)]

/-- A v2 record candidate named `b` with one string field. -/
def bSchemaV2 : V2.SchemaV2 :=
  .mk "B" none (some "b") [("y", .mk (.prim .str) none none none)]

/-- A v2 model whose list field admits the two candidates `A` and `B`. -/
def pairSchemaV2 : V2.SchemaV2 :=
  .mk "Pair" none (some "pair")
    [("items", .mk (.seq [.basemodel aSchemaV2, .basemodel bSchemaV2]) none none none)]

/-- `<pair><b y="0"/><a x="0"/><a x="1"/></pair>`. -/
def pairElem : Element :=
  .mk "pair" []
    [.mk "b" [("y", "0")] [] none,
     .mk "a" [("x", "0")] [] none,
     .mk "a" [("x", "1")] [] none] none

/-- A v2 model with one optional integer field with default `None`. -/
def optSchemaV2 : V2.SchemaV2 :=
  .mk "Opt" none (some "opt")
    [("a", .mk (.union [.prim .int, .noneTy]) none none (some .vNone))]

/-- A v2 model with a bare (unparameterized) sequence field. -/
def noArgSchemaV2 : V2.SchemaV2 :=
  .mk "NoArg" none (some "test") [("data", .mk (.seq []) none none none)]

/-- A v2 model that declares `xml_content: str` next to an integer
field. -/
def contentSchemaV2 : V2.SchemaV2 :=
  .mk "WithContent" none (some "c")
    [("value", .mk (.prim .int) none none none),
     ("xml_content", .mk (.prim .str) none none none)]

/-- `<example name="n" value="7"/>`: no text, no children. -/
def c9Elem : Element :=
  .mk "example" [("name", "n"), ("value", "7")] [] none

/-- The instance `from_element` produces from `c9Elem`: the content value
is the empty string, not `None`. -/
def c9Inst : V1.Instance :=
  .mk exSchema [("name", .vStr "n"), ("value", .vInt 7)] (.vStr "")

/-- `<example name="n" value="7">hi</example>`. -/
def c9ElemT : Element :=
  .mk "example" [("name", "n"), ("value", "7")] [] (some "hi")

/-- The instance `from_element` produces from `c9ElemT`: the content value
is the element text. -/
def c9InstT : V1.Instance :=
  .mk exSchema [("name", .vStr "n"), ("value", .vInt 7)] (.vStr "hi")

/-- A stand-in for the external XML parser used by witnesses: it rejects
the empty string the way `xml.etree.ElementTree.fromstring` does and is
not otherwise consulted by the theorems that take it. -/
def witnessParse : String → Except String Element :=
  fun s =>
    if s.isEmpty then .error "no element found: line 1, column 0"
    else .ok (.mk "unparsed" [] [] none)

end Fixtures

/-! ## Helper lemmas -/

theorem charDigit?_digitChar {d : Nat} (h : d < 10) :
    charDigit? (digitChar d) = some d := by
  interval_cases d <;> decide

theorem digitChar_ne_minus (d : Nat) : digitChar d ≠ '-' := by
  unfold digitChar
  split <;> decide

theorem foldlM_digits (ds : List Nat) (acc : Nat) (h : ∀ d ∈ ds, d < 10) :
    ((ds.map digitChar).reverse).foldlM
        (fun acc c => (charDigit? c).map (fun d => acc * 10 + d)) acc =
      some (acc * 10 ^ ds.length + Nat.ofDigits 10 ds) := by
  induction ds generalizing acc with
  | nil => simp [Nat.ofDigits]
  | cons d tl ih =>
      have hd : d < 10 := h d (List.mem_cons_self d tl)
      have htl : ∀ x ∈ tl, x < 10 := fun x hx => h x (List.mem_cons_of_mem d hx)
      rw [List.map_cons, List.reverse_cons, List.foldlM_append, ih acc htl]
      simp only [List.foldlM, charDigit?_digitChar hd, Nat.ofDigits_cons, List.length_cons]
      change some ((acc * 10 ^ tl.length + Nat.ofDigits 10 tl) * 10 + d) = _
      congr 1
      ring

theorem natDigitsRevAux_eq (fuel n : Nat) (h : n ≤ fuel) :
    natDigitsRevAux fuel n = Nat.digits 10 n := by
  induction fuel generalizing n with
  | zero =>
      interval_cases n
      simp [natDigitsRevAux]
  | succ fuel ih =>
      match n with
      | 0 => simp [natDigitsRevAux]
      | n + 1 =>
          rw [natDigitsRevAux, Nat.digits_def' (by norm_num : 1 < 10) (Nat.succ_pos n)]
          rw [ih ((n + 1) / 10) (by omega)]

theorem natDigitsRev_eq (n : Nat) : natDigitsRev n = Nat.digits 10 n :=
  natDigitsRevAux_eq n n le_rfl

theorem data_pyNatStr (n : Nat) (hn : n ≠ 0) :
    (pyNatStr n).data = ((Nat.digits 10 n).map digitChar).reverse := by
  unfold pyNatStr
  rw [if_neg hn, natDigitsRev_eq]

theorem parseNatDigits_pyNatStr (n : Nat) :
    parseNatDigits (pyNatStr n).data = some n := by
  rcases eq_or_ne n 0 with rfl | hn
  · decide
  · have hnil : Nat.digits 10 n ≠ [] := Nat.digits_ne_nil_iff_ne_zero.mpr hn
    have hlt : ∀ d ∈ Nat.digits 10 n, d < 10 :=
      fun d hd => Nat.digits_lt_base (by norm_num) hd
    rw [data_pyNatStr n hn]
    unfold parseNatDigits
    rw [if_neg (by simpa using hnil)]
    rw [foldlM_digits (Nat.digits 10 n) 0 hlt]
    simp [Nat.ofDigits_digits]

theorem data_pyNatStr_ne_nil (n : Nat) : (pyNatStr n).data ≠ [] := by
  rcases eq_or_ne n 0 with rfl | hn
  · decide
  · rw [data_pyNatStr n hn]
    simpa using Nat.digits_ne_nil_iff_ne_zero.mpr hn

theorem head_pyNatStr_ne_minus (n : Nat) (c : Char) (cs : List Char)
    (h : (pyNatStr n).data = c :: cs) : c ≠ '-' := by
  rcases eq_or_ne n 0 with rfl | hn
  · have h0 : (pyNatStr 0).data = ['0'] := by decide
    rw [h0] at h
    injection h with h1 _
    rw [← h1]
    decide
  · rw [data_pyNatStr n hn] at h
    have : c ∈ ((Nat.digits 10 n).map digitChar).reverse := by
      rw [h]; exact List.mem_cons_self c cs
    rw [List.mem_reverse] at this
    rcases List.mem_map.mp this with ⟨d, _, rfl⟩
    exact digitChar_ne_minus d

theorem data_minus_append (s : String) : ("-" ++ s).data = '-' :: s.data := by
  obtain ⟨cs⟩ := s
  rfl

/-- Round trip of the modelled Python integer conversion: `int(str(i)) = i`. -/
theorem pyParseInt_pyIntStr (n : Int) : pyParseInt (pyIntStr n) = some n := by
  unfold pyIntStr pyParseInt
  split
  · next hneg =>
      rw [data_minus_append]
      rw [pyParseIntChars.eq_2, if_pos rfl, parseNatDigits_pyNatStr]
      simp only [Option.map_some', Option.some.injEq]
      rw [Int.ofNat_eq_coe]; omega
  · next hpos =>
      rcases hc : (pyNatStr n.natAbs).data with _ | ⟨c, cs⟩
      · exact absurd hc (data_pyNatStr_ne_nil n.natAbs)
      · rw [pyParseIntChars.eq_2, if_neg (head_pyNatStr_ne_minus n.natAbs c cs hc)]
        rw [← hc, parseNatDigits_pyNatStr]
        simp only [Option.map_some', Option.some.injEq]
        rw [Int.ofNat_eq_coe]; omega

/-- Assigning a key makes it readable. -/
theorem dictGet?_dictSet_self {α : Type} (d : List (String × α)) (k : String) (v : α) :
    dictGet? (dictSet d k v) k = some v := by
  induction d with
  | nil => simp [dictSet, dictGet?]
  | cons hd tl ih =>
    obtain ⟨k0, v0⟩ := hd
    by_cases h : k0 = k
    · subst h
      simp [dictSet, dictGet?]
    · simp only [dictSet, if_neg h, dictGet?, List.find?]
      simp only [decide_eq_true_eq, h, if_false]
      exact ih

/-- Assigning one key leaves the other keys unchanged. -/
theorem dictGet?_dictSet_ne {α : Type} (d : List (String × α)) (k k2 : String) (v : α)
    (h : k2 ≠ k) : dictGet? (dictSet d k v) k2 = dictGet? d k2 := by
  induction d with
  | nil => simp [dictSet, dictGet?, List.find?, Ne.symm h]
  | cons hd tl ih =>
    obtain ⟨k0, v0⟩ := hd
    by_cases h0 : k0 = k
    · subst h0
      simp [dictSet, dictGet?, List.find?, Ne.symm h]
    · simp only [dictSet, if_neg h0, dictGet?, List.find?]
      by_cases h2 : k0 = k2
      · simp [h2]
      · simp only [decide_eq_true_eq, h2, if_false]
        exact ih

/-- A member of the dict after an assignment was already present or has
the assigned key. -/
theorem mem_dictSet {α : Type} (d : List (String × α)) (k : String) (v : α)
    (p : String × α) (hp : p ∈ dictSet d k v) : p ∈ d ∨ p.1 = k := by
  induction d with
  | nil =>
    simp only [dictSet, List.mem_singleton] at hp
    subst hp
    right
    rfl
  | cons hd tl ih =>
    obtain ⟨k0, v0⟩ := hd
    by_cases h0 : k0 = k
    · subst h0
      simp only [dictSet, if_pos rfl] at hp
      rcases List.mem_cons.mp hp with h | h
      · subst h
        right
        rfl
      · left
        exact List.mem_cons_of_mem _ h
    · simp only [dictSet, if_neg h0] at hp
      rcases List.mem_cons.mp hp with h | h
      · subst h
        left
        exact List.mem_cons_self _ _
      · rcases ih h with h2 | h2
        · left
          exact List.mem_cons_of_mem _ h2
        · right
          exact h2

/-- Appending an element the predicate rejects does not change `find?`. -/
theorem find?_append_singleton_neg {α : Type} (p : α → Bool) (l : List α) (x : α)
    (hx : p x = false) : List.find? p (l ++ [x]) = List.find? p l := by
  induction l with
  | nil => simp [List.find?, hx]
  | cons hd tl ih =>
    cases hp : p hd <;> simp [List.find?, hp, ih]

/-- Appending an element the predicate rejects does not change `filter`. -/
theorem filter_append_singleton_neg {α : Type} (p : α → Bool) (l : List α) (x : α)
    (hx : p x = false) : List.filter p (l ++ [x]) = List.filter p l := by
  simp [List.filter_append, List.filter, hx]

/-- Appending a pair under a fresh key does not change other lookups. -/
theorem dictGet?_append_ne {α : Type} (d : List (String × α)) (a k : String) (v : α)
    (h : k ≠ a) : dictGet? (d ++ [(a, v)]) k = dictGet? d k := by
  unfold dictGet?
  rw [find?_append_singleton_neg]
  exact decide_eq_false (Ne.symm h)

theorem attrib_addChild (e c : Element) : (e.addChild c).attrib = e.attrib := by
  cases e
  rfl

theorem attrib_setText (e : Element) (s : String) : (e.setText s).attrib = e.attrib := by
  cases e
  rfl

theorem attrib_setAttr (e : Element) (k v : String) :
    (e.setAttr k v).attrib = dictSet e.attrib k v := by
  cases e
  rfl

theorem text_addChild (e c : Element) : (e.addChild c).text = e.text := by
  cases e
  rfl

theorem text_setAttr (e : Element) (k v : String) : (e.setAttr k v).text = e.text := by
  cases e
  rfl

theorem text_setText (e : Element) (s : String) : (e.setText s).text = some s := by
  cases e
  rfl

theorem children_setAttr (e : Element) (k v : String) :
    (e.setAttr k v).children = e.children := by
  cases e
  rfl

theorem attrib_normalizeElement (e : Element) :
    (normalizeElement e).attrib = e.attrib := by
  cases e
  rfl

theorem text_normalizeElement_none (e : Element) (h : e.text = none) :
    (normalizeElement e).text = none := by
  obtain ⟨t, a, c, tx⟩ := e
  simp only [Element.text] at h
  subst h
  rfl

/-- On a list with distinct keys, the lookup of a member's key returns its
value. -/
theorem dictGet?_of_nodup {α : Type} :
    ∀ (l : List (String × α)), (l.map Prod.fst).Nodup →
      ∀ p ∈ l, dictGet? l p.1 = some p.2
  | [], _, p, hp => absurd hp (List.not_mem_nil p)
  | (k, v) :: tl, hnd, p, hp => by
    rcases List.mem_cons.mp hp with heq | hmem
    · subst heq
      simp [dictGet?, List.find?]
    · simp only [List.map_cons, List.nodup_cons] at hnd
      have hk : k ≠ p.1 := by
        intro hcontra
        have hmem2 : p.1 ∈ tl.map Prod.fst := List.mem_map_of_mem Prod.fst hmem
        rw [← hcontra] at hmem2
        exact hnd.1 hmem2
      have htl : dictGet? tl p.1 = some p.2 := dictGet?_of_nodup tl hnd.2 p hmem
      simp only [dictGet?, List.find?, decide_eq_false hk]
      exact htl

namespace V1

/-- The field loop processes an appended list by processing the prefix
first and, on success, continuing with the suffix. -/
theorem encodeFields_append (ex : Bool) (s : Schema) (l1 l2 : List (String × Value))
    (e : Element) :
    encodeFields ex s (l1 ++ l2) e =
      match encodeFields ex s l1 e with
      | .error err => .error err
      | .ok e1 => encodeFields ex s l2 e1 := by
  induction l1 generalizing e with
  | nil => simp [encodeFields]
  | cons hd tl ih =>
    obtain ⟨n, v⟩ := hd
    simp only [List.cons_append, encodeFields]
    cases encodeFieldStep ex s n v e with
    | error err => rfl
    | ok e1 => exact ih e1

/-- The decoder field loop, likewise. -/
theorem decodeFieldsV1_append (l1 l2 : List (String × FieldInfo)) (e : Element)
    (data : List (String × Value)) :
    decodeFieldsV1 (l1 ++ l2) e data =
      match decodeFieldsV1 l1 e data with
      | .error err => .error err
      | .ok d1 => decodeFieldsV1 l2 e d1 := by
  induction l1 generalizing data with
  | nil => simp [decodeFieldsV1]
  | cons hd tl ih =>
    obtain ⟨n, info⟩ := hd
    simp only [List.cons_append, decodeFieldsV1]
    cases decodeFieldStepV1 n info e data with
    | error err => rfl
    | ok d1 => exact ih d1

/-- One unfolding of the field loop. -/
theorem encodeFields_cons (ex : Bool) (s : Schema) (n : String) (v : Value)
    (rest : List (String × Value)) (e : Element) :
    encodeFields ex s ((n, v) :: rest) e =
      match encodeFieldStep ex s n v e with
      | .error err => .error err
      | .ok e1 => encodeFields ex s rest e1 := rfl

/-- One unfolding of the decoder field loop. -/
theorem decodeFieldsV1_cons (n : String) (info : FieldInfo)
    (rest : List (String × FieldInfo)) (e : Element) (data : List (String × Value)) :
    decodeFieldsV1 ((n, info) :: rest) e data =
      match decodeFieldStepV1 n info e data with
      | .error err => .error err
      | .ok d1 => decodeFieldsV1 rest e d1 := rfl

/-- A null-valued nested-record field with `allow_none` contributes
nothing (`continue`, line 142). -/
theorem encodeFieldStep_noneModel (ex : Bool) (s : Schema) (n : String) (e : Element)
    (info : FieldInfo) (ms : Schema) (hinfo : s.fieldInfo? n = some info)
    (hty : info.ty = .model ms) (hnone : info.allowNone = true) :
    encodeFieldStep ex s n .vNone e = .ok e := by
  simp only [encodeFieldStep, hinfo, hty, hnone, Value.isNone, Bool.and_self, if_true]

/-- A null-valued scalar field under `exclude_none=True` contributes
nothing (line 178). -/
theorem encodeFieldStep_noneScalar (s : Schema) (n : String) (e : Element)
    (info : FieldInfo) (t : PyTy) (hinfo : s.fieldInfo? n = some info)
    (hty : info.ty = .scalar t) :
    encodeFieldStep true s n .vNone e = .ok e := by
  simp only [encodeFieldStep, hinfo, hty, Value.isNone, Bool.and_self, Bool.not_true,
    Bool.false_eq_true, if_false]

/-- A list-like field with a non-record element type fails the encoder
check (lines 153-159) regardless of the value. -/
theorem encodeFieldStep_badList (ex : Bool) (s : Schema) (n : String) (v : Value)
    (e : Element) (info : FieldInfo) (elem : FieldTy)
    (hinfo : s.fieldInfo? n = some info) (hty : info.ty = .listOf elem)
    (hleaf : elem.leafIsModel = false) :
    encodeFieldStep ex s n v e =
      .error (.value ("Field " ++ n ++
        " is a list-like field but not a list of BaseModel")) := by
  cases v <;> simp only [encodeFieldStep, hinfo, hty, hleaf, Bool.not_false, if_true]

/-- A list-like field whose innermost element type is not a record fails
with the schema `ValueError`, whatever the element. -/
theorem decodeListFieldV1_nonmodel (fname : String) :
    ∀ (elem : FieldTy) (e : Element), elem.leafIsModel = false →
      decodeListFieldV1 fname elem e =
        .error (.value ("Field " ++ fname ++
          " is a list-like field but not a list of BaseModel"))
  | .scalar _, _, _ => rfl
  | .model ms, e, h => by simp [FieldTy.leafIsModel, FieldTy.leaf] at h
  | .listOf e2, e, h => by
      simp only [decodeListFieldV1]
      exact decodeListFieldV1_nonmodel fname e2 e
        (by simpa [FieldTy.leafIsModel, FieldTy.leaf] using h)

/-- The decoder step on such a field fails with the same `ValueError`. -/
theorem decodeFieldStepV1_badList (n : String) (info : FieldInfo) (elem : FieldTy)
    (e : Element) (data : List (String × Value))
    (hty : info.ty = .listOf elem) (hleaf : elem.leafIsModel = false) :
    decodeFieldStepV1 n info e data =
      .error (.value ("Field " ++ n ++
        " is a list-like field but not a list of BaseModel")) := by
  obtain ⟨ty, an, al, extra, df⟩ := info
  simp only [FieldInfo.ty] at hty
  cases hty
  simp only [decodeFieldStepV1, decodeListFieldV1_nonmodel n elem e hleaf]

/-- The list-item loop never touches the parent's attributes. -/
theorem encodeItems_attrib (ex : Bool) :
    ∀ (items : List Value) (e e' : Element),
      encodeItems ex items e = .ok e' → e'.attrib = e.attrib
  | [], e, e', h => by
    simp only [encodeItems, Except.ok.injEq] at h
    subst h
    rfl
  | .vModel inst :: rest, e, e', h => by
    simp only [encodeItems] at h
    rcases ht : toXmlInner ex inst (Element.new (classXmlName inst.schema)) with
      err | sub <;> rw [ht] at h <;> dsimp only at h
    · exact absurd h (by simp)
    · rw [encodeItems_attrib ex rest _ e' h, attrib_addChild]
  | .vStr s0 :: rest, e, e', h => absurd h (by simp [encodeItems])
  | .vInt n0 :: rest, e, e', h => absurd h (by simp [encodeItems])
  | .vBool b0 :: rest, e, e', h => absurd h (by simp [encodeItems])
  | .vNone :: rest, e, e', h => absurd h (by simp [encodeItems])
  | .vList xs :: rest, e, e', h => absurd h (by simp [encodeItems])

/-- The list-item loop never touches the parent's text. -/
theorem encodeItems_text (ex : Bool) :
    ∀ (items : List Value) (e e' : Element),
      encodeItems ex items e = .ok e' → e'.text = e.text
  | [], e, e', h => by
    simp only [encodeItems, Except.ok.injEq] at h
    subst h
    rfl
  | .vModel inst :: rest, e, e', h => by
    simp only [encodeItems] at h
    rcases ht : toXmlInner ex inst (Element.new (classXmlName inst.schema)) with
      err | sub <;> rw [ht] at h <;> dsimp only at h
    · exact absurd h (by simp)
    · rw [encodeItems_text ex rest _ e' h, text_addChild]
  | .vStr s0 :: rest, e, e', h => absurd h (by simp [encodeItems])
  | .vInt n0 :: rest, e, e', h => absurd h (by simp [encodeItems])
  | .vBool b0 :: rest, e, e', h => absurd h (by simp [encodeItems])
  | .vNone :: rest, e, e', h => absurd h (by simp [encodeItems])
  | .vList xs :: rest, e, e', h => absurd h (by simp [encodeItems])

/-- The content-item loop never touches the parent's attributes. -/
theorem encodeContentItems_attrib (ex : Bool) (name : String) :
    ∀ (items : List Value) (e e' : Element),
      encodeContentItems ex name items e = .ok e' → e'.attrib = e.attrib
  | [], e, e', h => by
    simp only [encodeContentItems, Except.ok.injEq] at h
    subst h
    rfl
  | .vModel inst :: rest, e, e', h => by
    simp only [encodeContentItems] at h
    rcases ht : toXmlInner ex inst (Element.new name) with err | sub <;>
      rw [ht] at h <;> dsimp only at h
    · exact absurd h (by simp)
    · rw [encodeContentItems_attrib ex name rest _ e' h, attrib_addChild]
  | .vStr s0 :: rest, e, e', h => absurd h (by simp [encodeContentItems])
  | .vInt n0 :: rest, e, e', h => absurd h (by simp [encodeContentItems])
  | .vBool b0 :: rest, e, e', h => absurd h (by simp [encodeContentItems])
  | .vNone :: rest, e, e', h => absurd h (by simp [encodeContentItems])
  | .vList xs :: rest, e, e', h => absurd h (by simp [encodeContentItems])

/-- The content-item loop never touches the parent's text. -/
theorem encodeContentItems_text (ex : Bool) (name : String) :
    ∀ (items : List Value) (e e' : Element),
      encodeContentItems ex name items e = .ok e' → e'.text = e.text
  | [], e, e', h => by
    simp only [encodeContentItems, Except.ok.injEq] at h
    subst h
    rfl
  | .vModel inst :: rest, e, e', h => by
    simp only [encodeContentItems] at h
    rcases ht : toXmlInner ex inst (Element.new name) with err | sub <;>
      rw [ht] at h <;> dsimp only at h
    · exact absurd h (by simp)
    · rw [encodeContentItems_text ex name rest _ e' h, text_addChild]
  | .vStr s0 :: rest, e, e', h => absurd h (by simp [encodeContentItems])
  | .vInt n0 :: rest, e, e', h => absurd h (by simp [encodeContentItems])
  | .vBool b0 :: rest, e, e', h => absurd h (by simp [encodeContentItems])
  | .vNone :: rest, e, e', h => absurd h (by simp [encodeContentItems])
  | .vList xs :: rest, e, e', h => absurd h (by simp [encodeContentItems])


/-- The field-loop step, unfolded uniformly in the value (its defining
equations are split per value constructor). -/
theorem encodeFieldStep_eq (ex : Bool) (s : Schema) (fname : String) (value : Value)
    (e : Element) :
    encodeFieldStep ex s fname value e =
      match s.fieldInfo? fname with
      | none => .error (.runtime ("KeyError: " ++ fname))
      | some info =>
        match info.ty with
        | .model _ =>
          if info.allowNone && value.isNone then .ok e
          else
            match value with
            | .vModel inst =>
              (match toXmlInner ex inst (Element.new (classXmlName inst.schema)) with
               | .error err => .error err
               | .ok sub => .ok (e.addChild sub))
            | _ => .error (.runtime "AttributeError: value is not a model")
        | .listOf elem =>
          if !elem.leafIsModel then
            .error (.value ("Field " ++ fname ++
              " is a list-like field but not a list of BaseModel"))
          else
            match value with
            | .vList items => encodeItems ex items e
            | _ => .error (.runtime "TypeError: value is not iterable")
        | .scalar _ =>
          if !(ex && value.isNone) then .ok (e.setAttr info.aliasName (pyStr value))
          else .ok e := by
  cases value <;> rfl

/-- One field-loop step never touches the element text. -/
theorem encodeFieldStep_text (ex : Bool) (s : Schema) (n : String) (v : Value)
    (e e' : Element) (h : encodeFieldStep ex s n v e = .ok e') : e'.text = e.text := by
  rw [encodeFieldStep_eq] at h
  rcases hf : s.fieldInfo? n with _ | info <;> rw [hf] at h <;> dsimp only at h
  · exact absurd h (by simp)
  · rcases hty : info.ty with t | ms | elem <;> rw [hty] at h <;> dsimp only at h
    · cases hb : (ex && v.isNone) <;> rw [hb] at h <;>
        simp only [Bool.not_false, Bool.not_true, Bool.false_eq_true, if_false,
          if_true, Except.ok.injEq] at h <;> subst h
      · exact text_setAttr e _ _
      · rfl
    · cases hb : (info.allowNone && v.isNone) <;> rw [hb] at h <;>
        simp only [Bool.false_eq_true, if_false, if_true, Except.ok.injEq] at h
      · cases v with
        | vModel inst =>
          dsimp only at h
          rcases ht : toXmlInner ex inst (Element.new (classXmlName inst.schema)) with
            err | sub <;> rw [ht] at h <;> dsimp only at h
          · exact absurd h (by simp)
          · simp only [Except.ok.injEq] at h
            subst h
            exact text_addChild e sub
        | vStr s0 => exact absurd h (by simp)
        | vInt n0 => exact absurd h (by simp)
        | vBool b0 => exact absurd h (by simp)
        | vNone => exact absurd h (by simp)
        | vList xs => exact absurd h (by simp)
      · subst h
        rfl
    · cases hb : elem.leafIsModel <;> rw [hb] at h <;>
        simp only [Bool.not_false, Bool.not_true, Bool.false_eq_true, if_false,
          if_true] at h
      · exact absurd h (by simp)
      · cases v with
        | vList items => exact encodeItems_text ex items e e' h
        | vStr s0 => exact absurd h (by simp)
        | vInt n0 => exact absurd h (by simp)
        | vBool b0 => exact absurd h (by simp)
        | vNone => exact absurd h (by simp)
        | vModel inst => exact absurd h (by simp)

/-- Every attribute present after one field-loop step was already present
or is keyed by the alias of the declared field the step consulted. -/
theorem encodeFieldStep_attribMem (ex : Bool) (s : Schema) (n : String) (v : Value)
    (e e' : Element) (h : encodeFieldStep ex s n v e = .ok e') :
    ∀ p ∈ e'.attrib, p ∈ e.attrib ∨
      ∃ info, s.fieldInfo? n = some info ∧ p.1 = info.aliasName := by
  rw [encodeFieldStep_eq] at h
  rcases hf : s.fieldInfo? n with _ | info <;> rw [hf] at h <;> dsimp only at h
  · exact absurd h (by simp)
  · rcases hty : info.ty with t | ms | elem <;> rw [hty] at h <;> dsimp only at h
    · cases hb : (ex && v.isNone) <;> rw [hb] at h <;>
        simp only [Bool.not_false, Bool.not_true, Bool.false_eq_true, if_false,
          if_true, Except.ok.injEq] at h <;> subst h
      · intro p hp
        rw [attrib_setAttr] at hp
        rcases mem_dictSet _ _ _ _ hp with h2 | h2
        · exact Or.inl h2
        · exact Or.inr ⟨info, rfl, h2⟩
      · intro p hp
        exact Or.inl hp
    · cases hb : (info.allowNone && v.isNone) <;> rw [hb] at h <;>
        simp only [Bool.false_eq_true, if_false, if_true, Except.ok.injEq] at h
      · cases v with
        | vModel inst =>
          dsimp only at h
          rcases ht : toXmlInner ex inst (Element.new (classXmlName inst.schema)) with
            err | sub <;> rw [ht] at h <;> dsimp only at h
          · exact absurd h (by simp)
          · simp only [Except.ok.injEq] at h
            subst h
            intro p hp
            rw [attrib_addChild] at hp
            exact Or.inl hp
        | vStr s0 => exact absurd h (by simp)
        | vInt n0 => exact absurd h (by simp)
        | vBool b0 => exact absurd h (by simp)
        | vNone => exact absurd h (by simp)
        | vList xs => exact absurd h (by simp)
      · subst h
        intro p hp
        exact Or.inl hp
    · cases hb : elem.leafIsModel <;> rw [hb] at h <;>
        simp only [Bool.not_false, Bool.not_true, Bool.false_eq_true, if_false,
          if_true] at h
      · exact absurd h (by simp)
      · cases v with
        | vList items =>
          intro p hp
          rw [encodeItems_attrib ex items e e' h] at hp
          exact Or.inl hp
        | vStr s0 => exact absurd h (by simp)
        | vInt n0 => exact absurd h (by simp)
        | vBool b0 => exact absurd h (by simp)
        | vNone => exact absurd h (by simp)
        | vModel inst => exact absurd h (by simp)

/-- The field loop never touches the element text. -/
theorem encodeFields_text (ex : Bool) (s : Schema) (vals : List (String × Value))
    (e e' : Element) (h : encodeFields ex s vals e = .ok e') : e'.text = e.text := by
  induction vals generalizing e with
  | nil =>
    simp only [encodeFields, Except.ok.injEq] at h
    subst h
    rfl
  | cons hd rest ih =>
    obtain ⟨n, v⟩ := hd
    simp only [encodeFields] at h
    rcases hs : encodeFieldStep ex s n v e with err | e1 <;> rw [hs] at h <;>
      dsimp only at h
    · exact absurd h (by simp)
    · rw [ih _ h]
      exact encodeFieldStep_text ex s n v e e1 hs

/-- Every attribute present after the field loop was already present or is
keyed by the alias of a declared field. -/
theorem encodeFields_attribMem (ex : Bool) (s : Schema) (vals : List (String × Value))
    (e e' : Element) (h : encodeFields ex s vals e = .ok e') :
    ∀ p ∈ e'.attrib, p ∈ e.attrib ∨
      ∃ n info, s.fieldInfo? n = some info ∧ p.1 = info.aliasName := by
  induction vals generalizing e with
  | nil =>
    simp only [encodeFields, Except.ok.injEq] at h
    subst h
    intro p hp
    exact Or.inl hp
  | cons hd rest ih =>
    obtain ⟨n, v⟩ := hd
    simp only [encodeFields] at h
    rcases hs : encodeFieldStep ex s n v e with err | e1 <;> rw [hs] at h <;>
      dsimp only at h
    · exact absurd h (by simp)
    · intro p hp
      rcases ih _ h p hp with h2 | h2
      · rcases encodeFieldStep_attribMem ex s n v e e1 hs p h2 with h3 | ⟨info, h3, h4⟩
        · exact Or.inl h3
        · exact Or.inr ⟨n, info, h3, h4⟩
      · exact Or.inr h2

/-- The content handling never touches the attributes. -/
theorem encodeContent_attrib (ex : Bool) (s : Schema) (c : Value) (e e' : Element)
    (h : encodeContent ex s c e = .ok e') : e'.attrib = e.attrib := by
  simp only [encodeContent] at h
  cases hb : (s.isXmlModel && !c.isNone) <;> rw [hb] at h <;>
    simp only [Bool.false_eq_true, if_false, if_true, Except.ok.injEq] at h
  · subst h
    rfl
  · rcases hty : s.content.ty with t | ms | elem <;> rw [hty] at h <;> dsimp only at h
    · simp only [Except.ok.injEq] at h
      subst h
      exact attrib_setText e _
    · simp only [Except.ok.injEq] at h
      subst h
      exact attrib_setText e _
    · rcases hlm : elem.leafModel? with _ | es <;> rw [hlm] at h <;> dsimp only at h
      · exact absurd h (by simp)
      · cases c with
        | vList items => exact encodeContentItems_attrib ex _ items e e' h
        | vStr s0 => exact absurd h (by simp)
        | vInt n0 => exact absurd h (by simp)
        | vBool b0 => exact absurd h (by simp)
        | vNone => exact absurd h (by simp)
        | vModel inst => exact absurd h (by simp)

/-- The text after the content handling: `str(xml_content)` exactly when
the model is an `XMLModel`, the content is non-null and the content field
is not list-like; unchanged otherwise. -/
theorem encodeContent_text (ex : Bool) (s : Schema) (c : Value) (e e' : Element)
    (h : encodeContent ex s c e = .ok e') :
    e'.text = if s.isXmlModel && !c.isNone && !s.content.ty.isSeq
      then some (pyStr c) else e.text := by
  simp only [encodeContent] at h
  cases hb : (s.isXmlModel && !c.isNone) <;> rw [hb] at h <;>
    simp only [Bool.false_eq_true, if_false, if_true, Except.ok.injEq] at h
  · subst h
    simp
  · rcases hty : s.content.ty with t | ms | elem <;> rw [hty] at h <;> dsimp only at h
    · simp only [Except.ok.injEq] at h
      subst h
      simp only [hb, FieldTy.isSeq, Bool.not_false, Bool.and_true, if_true]
      exact text_setText e _
    · simp only [Except.ok.injEq] at h
      subst h
      simp only [hb, FieldTy.isSeq, Bool.not_false, Bool.and_true, if_true]
      exact text_setText e _
    · simp only [FieldTy.isSeq, Bool.not_true, Bool.and_false, Bool.false_eq_true,
        if_false]
      rcases hlm : elem.leafModel? with _ | es <;> rw [hlm] at h <;> dsimp only at h
      · exact absurd h (by simp)
      · cases c with
        | vList items => exact encodeContentItems_text ex _ items e e' h
        | vStr s0 => exact absurd h (by simp)
        | vInt n0 => exact absurd h (by simp)
        | vBool b0 => exact absurd h (by simp)
        | vNone => exact absurd h (by simp)
        | vModel inst => exact absurd h (by simp)

/-- The text of a `to_xml` tree is `str(xml_content)` exactly when the
content is non-null and not list-like. -/
theorem toXml_text (ex : Bool) (obj : Instance) (el : Element)
    (h : toXml ex obj = .ok el) :
    el.text = if obj.schema.isXmlModel && !obj.content.isNone &&
        !obj.schema.content.ty.isSeq
      then some (pyStr obj.content) else none := by
  obtain ⟨s, vals, c⟩ := obj
  simp only [toXml, toXmlInner, Instance.schema, Instance.content] at h ⊢
  rcases hf : encodeFields ex s vals (Element.new (getXmlName s)) with err | e1 <;>
    rw [hf] at h <;> dsimp only at h
  · exact absurd h (by simp)
  · rw [encodeContent_text ex s c e1 el h,
      encodeFields_text ex s vals _ e1 hf]
    rfl

/-- Every attribute of a `to_xml` tree is keyed by the alias of a declared
non-content field; in particular the content field contributes none. -/
theorem toXml_attribMem (ex : Bool) (obj : Instance) (el : Element)
    (h : toXml ex obj = .ok el) :
    ∀ p ∈ el.attrib, ∃ n info, obj.schema.fieldInfo? n = some info ∧
      p.1 = info.aliasName := by
  obtain ⟨s, vals, c⟩ := obj
  simp only [toXml, toXmlInner, Instance.schema] at h ⊢
  rcases hf : encodeFields ex s vals (Element.new (getXmlName s)) with err | e1 <;>
    rw [hf] at h <;> dsimp only at h
  · exact absurd h (by simp)
  · intro p hp
    rw [encodeContent_attrib ex s c e1 el h] at hp
    rcases encodeFields_attribMem ex s vals _ e1 hf p hp with h2 | h2
    · exact absurd h2 (by simp [Element.new, Element.attrib])
    · exact h2

/-- The list-field decode depends only on the element's children. -/
theorem decodeListFieldV1_ext (n : String) :
    ∀ (elem : FieldTy) (e e2 : Element), e.children = e2.children →
      decodeListFieldV1 n elem e = decodeListFieldV1 n elem e2
  | .scalar _, _, _, _ => rfl
  | .model ms, e, e2, h => by
    simp only [decodeListFieldV1, Element.findall, h]
  | .listOf el, e, e2, h => by
    simp only [decodeListFieldV1]
    exact decodeListFieldV1_ext n el e e2 h

/-- The list-content decode depends only on the element's children. -/
theorem decodeContentListV1_ext (cn : String) :
    ∀ (elem : FieldTy) (e e2 : Element), e.children = e2.children →
      decodeContentListV1 cn elem e = decodeContentListV1 cn elem e2
  | .scalar _, _, _, _ => rfl
  | .model ms, e, e2, h => by
    simp only [decodeContentListV1, h]
  | .listOf el, e, e2, h => by
    simp only [decodeContentListV1]
    exact decodeContentListV1_ext cn el e e2 h

/-- The content handling depends only on the children and the text. -/
theorem decodeContentV1_ext (cf : FieldInfo) (cn : String) (e e2 : Element)
    (data : List (String × Value)) (hch : e.children = e2.children)
    (htx : e.text = e2.text) :
    decodeContentV1 cf cn e data = decodeContentV1 cf cn e2 data := by
  obtain ⟨ty, an, al, extra, df⟩ := cf
  cases ty with
  | scalar t => simp only [decodeContentV1, htx]
  | model ms => simp only [decodeContentV1, htx]
  | listOf el =>
    simp only [decodeContentV1]
    rw [decodeContentListV1_ext cn el e e2 hch]

/-- An appended attribute under an unconsulted key does not change one
decoder field step. -/
theorem decodeFieldStepV1_attrInv (n : String) (info : FieldInfo) (tag : String)
    (attrib : List (String × String)) (children : List Element) (tx : Option String)
    (a v : String) (data : List (String × Value))
    (ha : fieldAttrName? info ≠ some a) :
    decodeFieldStepV1 n info (.mk tag (attrib ++ [(a, v)]) children tx) data =
      decodeFieldStepV1 n info (.mk tag attrib children tx) data := by
  obtain ⟨ty, an, al, extra, df⟩ := info
  cases ty with
  | scalar t =>
    have hne : pyOr extra al ≠ a := by
      simp only [fieldAttrName?, FieldInfo.ty, ne_eq, Option.some.injEq] at ha
      exact ha
    have hget : Element.getAttr? (.mk tag (attrib ++ [(a, v)]) children tx)
        (pyOr extra al) = Element.getAttr? (.mk tag attrib children tx)
          (pyOr extra al) := by
      simp only [Element.getAttr?, Element.attrib]
      exact dictGet?_append_ne attrib a _ v hne
    simp only [decodeFieldStepV1, hget]
  | model ms =>
    simp only [decodeFieldStepV1, Element.find?, Element.children]
  | listOf el =>
    simp only [decodeFieldStepV1]
    rw [decodeListFieldV1_ext n el (.mk tag (attrib ++ [(a, v)]) children tx)
      (.mk tag attrib children tx) rfl]

/-- And does not change the whole decoder field loop. -/
theorem decodeFieldsV1_attrInv (fs : List (String × FieldInfo)) (tag : String)
    (attrib : List (String × String)) (children : List Element) (tx : Option String)
    (a v : String) (data : List (String × Value))
    (ha : ∀ p ∈ fs, fieldAttrName? p.2 ≠ some a) :
    decodeFieldsV1 fs (.mk tag (attrib ++ [(a, v)]) children tx) data =
      decodeFieldsV1 fs (.mk tag attrib children tx) data := by
  induction fs generalizing data with
  | nil => rfl
  | cons hd rest ih =>
    obtain ⟨n, info⟩ := hd
    rw [decodeFieldsV1_cons, decodeFieldsV1_cons,
      decodeFieldStepV1_attrInv n info tag attrib children tx a v data
        (ha (n, info) (List.mem_cons_self _ _))]
    cases decodeFieldStepV1 n info (.mk tag attrib children tx) data with
    | error err => rfl
    | ok data1 => exact ih data1 (fun p hp => ha p (List.mem_cons_of_mem _ hp))

/-- C10 for the v1 decoder, attribute half: `from_element` ignores an
appended attribute whose key no declared field consults. -/
theorem fromElement_attrInv (s : Schema) (tag : String)
    (attrib : List (String × String)) (children : List Element) (tx : Option String)
    (a v : String) (ha : a ∉ attrNames s) :
    fromElement s (.mk tag (attrib ++ [(a, v)]) children tx) =
      fromElement s (.mk tag attrib children tx) := by
  obtain ⟨cn, xn, nf, ix, cf, fs⟩ := s
  have hfields : ∀ p ∈ fs, fieldAttrName? p.2 ≠ some a := by
    intro p hp hcontra
    exact ha (List.mem_filterMap.mpr ⟨p, hp, hcontra⟩)
  simp only [fromElement]
  rw [decodeFieldsV1_attrInv fs tag attrib children tx a v [] hfields]
  cases hd : decodeFieldsV1 fs (.mk tag attrib children tx) [] with
  | error err => rfl
  | ok data =>
    dsimp only
    rw [decodeContentV1_ext cf cn (.mk tag (attrib ++ [(a, v)]) children tx)
      (.mk tag attrib children tx) data rfl rfl]

/-- An appended child with an unconsulted tag does not change the
list-field decode. -/
theorem decodeListFieldV1_childInv (n : String) :
    ∀ (elem : FieldTy) (tag : String) (attrib : List (String × String))
      (children : List Element) (tx : Option String) (c : Element),
      (∀ ms, elem.leaf = .model ms → c.tag ≠ getXmlName ms) →
      decodeListFieldV1 n elem (.mk tag attrib (children ++ [c]) tx) =
        decodeListFieldV1 n elem (.mk tag attrib children tx)
  | .scalar _, _, _, _, _, _, _ => rfl
  | .model ms, tag, attrib, children, tx, c, h => by
    have hfa : Element.findall (.mk tag attrib (children ++ [c]) tx) (getXmlName ms) =
        Element.findall (.mk tag attrib children tx) (getXmlName ms) := by
      simp only [Element.findall, Element.children]
      exact filter_append_singleton_neg _ children c (decide_eq_false (h ms rfl))
    simp only [decodeListFieldV1, hfa]
  | .listOf el, tag, attrib, children, tx, c, h => by
    simp only [decodeListFieldV1]
    exact decodeListFieldV1_childInv n el tag attrib children tx c
      (fun ms hm => h ms (by simpa [FieldTy.leaf] using hm))

/-- An appended child with an unconsulted tag does not change the
list-content decode. -/
theorem decodeContentListV1_childInv (cn : String) :
    ∀ (elem : FieldTy) (tag : String) (attrib : List (String × String))
      (children : List Element) (tx : Option String) (c : Element),
      (∀ ms, elem.leaf = .model ms → c.tag ≠ classXmlName ms) →
      decodeContentListV1 cn elem (.mk tag attrib (children ++ [c]) tx) =
        decodeContentListV1 cn elem (.mk tag attrib children tx)
  | .scalar _, _, _, _, _, _, _ => rfl
  | .model ms, tag, attrib, children, tx, c, h => by
    have hfa : List.filter (fun c2 => c2.tag = classXmlName ms)
          (Element.children (.mk tag attrib (children ++ [c]) tx)) =
        List.filter (fun c2 => c2.tag = classXmlName ms)
          (Element.children (.mk tag attrib children tx)) := by
      simp only [Element.children]
      exact filter_append_singleton_neg _ children c (decide_eq_false (h ms rfl))
    simp only [decodeContentListV1, hfa]
  | .listOf el, tag, attrib, children, tx, c, h => by
    simp only [decodeContentListV1]
    exact decodeContentListV1_childInv cn el tag attrib children tx c
      (fun ms hm => h ms (by simpa [FieldTy.leaf] using hm))

/-- An appended child with an unconsulted tag does not change one decoder
field step. -/
theorem decodeFieldStepV1_childInv (n : String) (info : FieldInfo) (tag : String)
    (attrib : List (String × String)) (children : List Element) (tx : Option String)
    (c : Element) (data : List (String × Value))
    (hc : fieldChildTag? info ≠ some c.tag) :
    decodeFieldStepV1 n info (.mk tag attrib (children ++ [c]) tx) data =
      decodeFieldStepV1 n info (.mk tag attrib children tx) data := by
  obtain ⟨ty, an, al, extra, df⟩ := info
  cases ty with
  | scalar t =>
    simp only [decodeFieldStepV1, Element.getAttr?, Element.attrib]
  | model ms =>
    have hne : (if ms.isXmlModel then getXmlName ms else pyOr extra al) ≠ c.tag := by
      simp only [fieldChildTag?, FieldInfo.ty, ne_eq, Option.some.injEq] at hc
      exact hc
    have hfind : Element.find? (.mk tag attrib (children ++ [c]) tx)
          (if ms.isXmlModel then getXmlName ms else pyOr extra al) =
        Element.find? (.mk tag attrib children tx)
          (if ms.isXmlModel then getXmlName ms else pyOr extra al) := by
      simp only [Element.find?, Element.children]
      exact find?_append_singleton_neg _ children c
        (decide_eq_false (fun h2 => hne (h2 ▸ rfl)))
    simp only [decodeFieldStepV1, hfind]
  | listOf el =>
    have hleaf : ∀ ms, el.leaf = .model ms → c.tag ≠ getXmlName ms := by
      intro ms hm hcontra
      apply hc
      simp only [fieldChildTag?, FieldInfo.ty, hm, hcontra]
    simp only [decodeFieldStepV1]
    rw [decodeListFieldV1_childInv n el tag attrib children tx c hleaf]

/-- An appended child with an unconsulted tag does not change the content
handling. -/
theorem decodeContentV1_childInv (cf : FieldInfo) (cn : String) (tag : String)
    (attrib : List (String × String)) (children : List Element) (tx : Option String)
    (c : Element) (data : List (String × Value))
    (hc : ∀ t ∈ contentTags (.mk cn none none true cf []), c.tag ≠ t) :
    decodeContentV1 cf cn (.mk tag attrib (children ++ [c]) tx) data =
      decodeContentV1 cf cn (.mk tag attrib children tx) data := by
  obtain ⟨ty, an, al, extra, df⟩ := cf
  cases ty with
  | scalar t => simp only [decodeContentV1, Element.text]
  | model ms => simp only [decodeContentV1, Element.text]
  | listOf el =>
    simp only [decodeContentV1]
    rw [decodeContentListV1_childInv cn el tag attrib children tx c ?_]
    intro ms hm
    apply hc
    simp only [contentTags, Schema.content, FieldInfo.ty, hm, List.mem_singleton]

/-- And does not change the whole decoder field loop. -/
theorem decodeFieldsV1_childInv (fs : List (String × FieldInfo)) (tag : String)
    (attrib : List (String × String)) (children : List Element) (tx : Option String)
    (c : Element) (data : List (String × Value))
    (hc : ∀ p ∈ fs, fieldChildTag? p.2 ≠ some c.tag) :
    decodeFieldsV1 fs (.mk tag attrib (children ++ [c]) tx) data =
      decodeFieldsV1 fs (.mk tag attrib children tx) data := by
  induction fs generalizing data with
  | nil => rfl
  | cons hd rest ih =>
    obtain ⟨n, info⟩ := hd
    rw [decodeFieldsV1_cons, decodeFieldsV1_cons,
      decodeFieldStepV1_childInv n info tag attrib children tx c data
        (hc (n, info) (List.mem_cons_self _ _))]
    cases decodeFieldStepV1 n info (.mk tag attrib children tx) data with
    | error err => rfl
    | ok data1 => exact ih data1 (fun p hp => hc p (List.mem_cons_of_mem _ hp))

/-- C10 for the v1 decoder, child half: `from_element` ignores an appended
child whose tag no declared field and no list-like content consults. -/
theorem fromElement_childInv (s : Schema) (tag : String)
    (attrib : List (String × String)) (children : List Element) (tx : Option String)
    (c : Element) (hc : c.tag ∉ childTags s) :
    fromElement s (.mk tag attrib (children ++ [c]) tx) =
      fromElement s (.mk tag attrib children tx) := by
  obtain ⟨cn, xn, nf, ix, cf, fs⟩ := s
  simp only [childTags, Schema.fields, List.mem_append] at hc
  push_neg at hc
  have hfields : ∀ p ∈ fs, fieldChildTag? p.2 ≠ some c.tag := by
    intro p hp hcontra
    exact hc.1 (List.mem_filterMap.mpr ⟨p, hp, hcontra⟩)
  simp only [fromElement]
  rw [decodeFieldsV1_childInv fs tag attrib children tx c [] hfields]
  cases hd : decodeFieldsV1 fs (.mk tag attrib children tx) [] with
  | error err => rfl
  | ok data =>
    dsimp only
    rw [decodeContentV1_childInv cf cn tag attrib children tx c data ?_]
    intro t ht hcontra
    apply hc.2
    subst hcontra
    simpa only [contentTags, Schema.content] using ht

/-- A conforming scalar value comes back from its attribute string. -/
theorem coerceV1_roundtrip (t : PyTy) (v : Value) (an : Bool)
    (h : scalarConform t v = true) :
    coerceV1 (.scalar t) an (.vStr (pyStr v)) = .ok v := by
  cases t with
  | str =>
    cases v with
    | vStr x => simp [coerceV1, pyStr, Value.isNone]
    | vInt x => simp [scalarConform] at h
    | vBool b => simp [scalarConform] at h
    | vNone => simp [scalarConform] at h
    | vList xs => simp [scalarConform] at h
    | vModel inst => simp [scalarConform] at h
  | int =>
    cases v with
    | vInt z =>
      simp only [coerceV1, pyStr, Value.isNone, Bool.and_false, Bool.false_eq_true,
        if_false, pyParseInt_pyIntStr]
    | vStr x => simp [scalarConform] at h
    | vBool b => simp [scalarConform] at h
    | vNone => simp [scalarConform] at h
    | vList xs => simp [scalarConform] at h
    | vModel inst => simp [scalarConform] at h
  | bool =>
    cases v with
    | vBool b =>
      cases b <;> simp only [coerceV1, pyStr, Value.isNone, Bool.and_false,
        Bool.false_eq_true, if_false] <;> rfl
    | vStr x => simp [scalarConform] at h
    | vInt x => simp [scalarConform] at h
    | vNone => simp [scalarConform] at h
    | vList xs => simp [scalarConform] at h
    | vModel inst => simp [scalarConform] at h
  | any =>
    cases v with
    | vStr x => simp [coerceV1, Value.isNone, pyStr]
    | vInt x => simp [scalarConform] at h
    | vBool b => simp [scalarConform] at h
    | vNone => simp [scalarConform] at h
    | vList xs => simp [scalarConform] at h
    | vModel inst => simp [scalarConform] at h

/-- `attrsRestored` only looks at the attributes. -/
theorem attrsRestored_congr (el el2 : Element) (hab : el.attrib = el2.attrib) :
    ∀ (fs : List (String × FieldInfo)) (vals : List (String × Value)),
      attrsRestored el fs vals → attrsRestored el2 fs vals
  | [], [], h => h
  | [], _ :: _, h => h.elim
  | _ :: _, [], h => h.elim
  | (n, info) :: fs, (m, v) :: vs, h => by
    obtain ⟨h1, h2⟩ := h
    refine ⟨?_, attrsRestored_congr el el2 hab fs vs h2⟩
    rw [Element.getAttr?, ← hab]
    exact h1

/-- Assigning a key outside the aliases preserves `dataRestored`. -/
theorem dataRestored_dictSet_ne (data : List (String × Value)) (k : String) (x : Value) :
    ∀ (fs : List (String × FieldInfo)) (vals : List (String × Value)),
      k ∉ aliasesOf fs → dataRestored data fs vals →
      dataRestored (dictSet data k x) fs vals
  | [], [], _, h => h
  | [], _ :: _, _, h => h.elim
  | _ :: _, [], _, h => h.elim
  | (n, info) :: fs, (m, v) :: vs, hk, h => by
    obtain ⟨h1, h2⟩ := h
    simp only [aliasesOf, List.map_cons, List.mem_cons, not_or] at hk
    refine ⟨?_, dataRestored_dictSet_ne data k x fs vs ?_ h2⟩
    · rw [dictGet?_dictSet_ne data k info.aliasName x (fun hc => hk.1 hc.symm)]
      exact h1
    · simpa [aliasesOf] using hk.2

/-- Encoding an attribute-only field list writes exactly the per-field
attribute strings and touches nothing else. -/
theorem encodeFields_scalars (s : Schema) :
    ∀ (fs : List (String × FieldInfo)) (vals : List (String × Value)) (e : Element),
      fieldsConform fs vals = true →
      (∀ p ∈ fs, s.fieldInfo? p.1 = some p.2) →
      (aliasesOf fs).Nodup →
      ∃ el, encodeFields false s vals e = .ok el ∧
        el.children = e.children ∧ el.text = e.text ∧
        (∀ k, k ∉ aliasesOf fs → el.getAttr? k = e.getAttr? k) ∧
        attrsRestored el fs vals
  | [], [], e, _, _, _ => ⟨e, rfl, rfl, rfl, fun _ _ => rfl, trivial⟩
  | [], _ :: _, e, hconf, _, _ => by simp [fieldsConform] at hconf
  | _ :: _, [], e, hconf, _, _ => by simp [fieldsConform] at hconf
  | (n, info) :: fs, (m, v) :: vs, e, hconf, hlook, hnd => by
    obtain ⟨ty, an, al, extra, df⟩ := info
    simp only [fieldsConform, Bool.and_eq_true, beq_iff_eq] at hconf
    obtain ⟨⟨hn, hty⟩, hconf2⟩ := hconf
    subst hn
    cases ty with
    | model ms => simp [FieldInfo.ty] at hty
    | listOf el2 => simp [FieldInfo.ty] at hty
    | scalar t =>
      simp only [FieldInfo.xmlNameExtra, FieldInfo.ty, Bool.and_eq_true,
        Option.isNone_iff_eq_none] at hty
      obtain ⟨hextra, hsc⟩ := hty
      subst hextra
      have hstep : encodeFieldStep false s n v e =
          .ok (e.setAttr al (pyStr v)) := by
        rw [encodeFieldStep_eq, hlook (n, .mk (.scalar t) an al none df)
          (List.mem_cons_self _ _)]
        cases v <;> rfl
      simp only [aliasesOf, List.map_cons, List.nodup_cons] at hnd
      obtain ⟨hal, hnd2⟩ := hnd
      obtain ⟨el, henc, hch, htx, hun, har⟩ :=
        encodeFields_scalars s fs vs (e.setAttr al (pyStr v)) hconf2
          (fun p hp => hlook p (List.mem_cons_of_mem _ hp)) hnd2
      refine ⟨el, ?_, ?_, ?_, ?_, ?_, ?_⟩
      · rw [encodeFields_cons, hstep]
        exact henc
      · rw [hch, children_setAttr]
      · rw [htx, text_setAttr]
      · intro k hk
        simp only [aliasesOf, List.map_cons, List.mem_cons, not_or,
          FieldInfo.aliasName] at hk
        rw [hun k (by simpa [aliasesOf] using hk.2)]
        simp only [Element.getAttr?, attrib_setAttr]
        exact dictGet?_dictSet_ne _ _ _ _ hk.1
      · simp only [FieldInfo.aliasName]
        rw [hun al (by simpa [aliasesOf, FieldInfo.aliasName] using hal)]
        simp only [Element.getAttr?, attrib_setAttr]
        exact dictGet?_dictSet_self _ _ _
      · exact har

/-- Decoding an attribute-only field list reads exactly the per-field
attribute strings into the raw bag. -/
theorem decodeFieldsV1_scalars (el : Element) :
    ∀ (fs : List (String × FieldInfo)) (vals : List (String × Value))
      (data : List (String × Value)),
      fieldsConform fs vals = true →
      attrsRestored el fs vals →
      (aliasesOf fs).Nodup →
      ∃ data1, decodeFieldsV1 fs el data = .ok data1 ∧
        (∀ k, k ∉ aliasesOf fs → dictGet? data1 k = dictGet? data k) ∧
        dataRestored data1 fs vals
  | [], [], data, _, _, _ => ⟨data, rfl, fun _ _ => rfl, trivial⟩
  | [], _ :: _, data, hconf, _, _ => by simp [fieldsConform] at hconf
  | _ :: _, [], data, hconf, _, _ => by simp [fieldsConform] at hconf
  | (n, info) :: fs, (m, v) :: vs, data, hconf, har, hnd => by
    obtain ⟨ty, an, al, extra, df⟩ := info
    simp only [fieldsConform, Bool.and_eq_true, beq_iff_eq] at hconf
    obtain ⟨⟨hn, hty⟩, hconf2⟩ := hconf
    subst hn
    cases ty with
    | model ms => simp [FieldInfo.ty] at hty
    | listOf el2 => simp [FieldInfo.ty] at hty
    | scalar t =>
      simp only [FieldInfo.xmlNameExtra, FieldInfo.ty, Bool.and_eq_true,
        Option.isNone_iff_eq_none] at hty
      obtain ⟨hextra, hsc⟩ := hty
      subst hextra
      obtain ⟨hhead, har2⟩ := har
      simp only [FieldInfo.aliasName] at hhead
      have hstep : decodeFieldStepV1 n (.mk (.scalar t) an al none df) el data =
          .ok (dictSet data al (.vStr (pyStr v))) := by
        simp only [decodeFieldStepV1]
        have : pyOr none al = al := rfl
        rw [this, hhead]
      simp only [aliasesOf, List.map_cons, List.nodup_cons] at hnd
      obtain ⟨hal, hnd2⟩ := hnd
      obtain ⟨data1, hdec, hun, hdr⟩ :=
        decodeFieldsV1_scalars el fs vs (dictSet data al (.vStr (pyStr v))) hconf2
          har2 hnd2
      refine ⟨data1, ?_, ?_, ?_, ?_⟩
      · rw [decodeFieldsV1_cons, hstep]
        exact hdec
      · intro k hk
        simp only [aliasesOf, List.map_cons, List.mem_cons, not_or,
          FieldInfo.aliasName] at hk
        rw [hun k (by simpa [aliasesOf] using hk.2)]
        exact dictGet?_dictSet_ne _ _ _ _ hk.1
      · simp only [FieldInfo.aliasName]
        rw [hun al (by simpa [aliasesOf, FieldInfo.aliasName] using hal)]
        exact dictGet?_dictSet_self _ _ _
      · exact hdr

/-- Validating the raw bag built from conforming attributes restores the
instance values exactly. -/
theorem validateFieldsV1_scalars :
    ∀ (fs : List (String × FieldInfo)) (vals data : List (String × Value)),
      fieldsConform fs vals = true →
      dataRestored data fs vals →
      validateFieldsV1 fs data = .ok vals
  | [], [], data, _, _ => rfl
  | [], _ :: _, data, hconf, _ => by simp [fieldsConform] at hconf
  | _ :: _, [], data, hconf, _ => by simp [fieldsConform] at hconf
  | (n, info) :: fs, (m, v) :: vs, data, hconf, hdr => by
    obtain ⟨ty, an, al, extra, df⟩ := info
    simp only [fieldsConform, Bool.and_eq_true, beq_iff_eq] at hconf
    obtain ⟨⟨hn, hty⟩, hconf2⟩ := hconf
    subst hn
    cases ty with
    | model ms => simp [FieldInfo.ty] at hty
    | listOf el2 => simp [FieldInfo.ty] at hty
    | scalar t =>
      simp only [FieldInfo.xmlNameExtra, FieldInfo.ty, Bool.and_eq_true,
        Option.isNone_iff_eq_none] at hty
      obtain ⟨hextra, hsc⟩ := hty
      subst hextra
      obtain ⟨hhead, hdr2⟩ := hdr
      simp only [FieldInfo.aliasName] at hhead
      simp only [validateFieldsV1, FieldInfo.aliasName, FieldInfo.ty,
        FieldInfo.allowNone, hhead, coerceV1_roundtrip t v an hsc,
        validateFieldsV1_scalars fs vs data hconf2 hdr2]

/-- The v1 attribute-only round trip: encoding a fresh instance (content
`None`) and decoding the re-parsed tree restores every declared field
exactly, while the inherited content slot comes back as the empty
string. -/
theorem v1Roundtrip (s : Schema) (vals : List (String × Value))
    (h : v1RoundtripOk s vals = true) :
    ∃ el, toXml false (.mk s vals .vNone) = .ok el ∧
      fromElement s (normalizeElement el) = .ok (.mk s vals (.vStr "")) := by
  obtain ⟨cn, xn, nf, ix, cf, fs⟩ := s
  obtain ⟨cty, can, cal, cx, cdf⟩ := cf
  simp only [v1RoundtripOk, Schema.isXmlModel, Schema.content, Schema.fields,
    FieldInfo.ty, FieldInfo.aliasName, Bool.and_eq_true, decide_eq_true_eq] at h
  obtain ⟨⟨⟨⟨⟨hix, hcty⟩, hnames⟩, hal⟩, hcal⟩, hconf⟩ := h
  subst hix
  cases cty with
  | model ms => simp at hcty
  | listOf el2 => simp at hcty
  | scalar t =>
    cases t with
    | str => simp at hcty
    | int => simp at hcty
    | bool => simp at hcty
    | any =>
      clear hcty
      have hlook : ∀ p ∈ fs,
          Schema.fieldInfo? (.mk cn xn nf true (.mk (.scalar .any) can cal cx cdf) fs)
            p.1 = some p.2 := by
        intro p hp
        simpa [Schema.fieldInfo?, Schema.fields] using dictGet?_of_nodup fs hnames p hp
      obtain ⟨el0, henc, hch, htx, hun, har⟩ :=
        encodeFields_scalars
          (.mk cn xn nf true (.mk (.scalar .any) can cal cx cdf) fs) fs vals
          (Element.new (getXmlName
            (.mk cn xn nf true (.mk (.scalar .any) can cal cx cdf) fs)))
          hconf hlook hal
      have htox : toXml false
          (.mk (.mk cn xn nf true (.mk (.scalar .any) can cal cx cdf) fs) vals .vNone) =
          .ok el0 := by
        simp only [toXml, Instance.schema, toXmlInner]
        rw [henc]
        simp only [encodeContent, Schema.isXmlModel, Value.isNone, Bool.not_true,
          Bool.and_false, Bool.false_eq_true, if_false]
      refine ⟨el0, htox, ?_⟩
      have htx0 : el0.text = none := by rw [htx]; rfl
      have hnab : (normalizeElement el0).attrib = el0.attrib :=
        attrib_normalizeElement el0
      have hntx : (normalizeElement el0).text = none :=
        text_normalizeElement_none el0 htx0
      have har2 : attrsRestored (normalizeElement el0) fs vals :=
        attrsRestored_congr el0 (normalizeElement el0) hnab.symm fs vals har
      obtain ⟨data1, hdec, hun2, hdr⟩ :=
        decodeFieldsV1_scalars (normalizeElement el0) fs vals [] hconf har2 hal
      have hcont : decodeContentV1 (.mk (.scalar .any) can cal cx cdf) cn
          (normalizeElement el0) data1 = .ok (dictSet data1 cal (.vStr "")) := by
        simp only [decodeContentV1, hntx, Option.getD_none]
      have hdr2 : dataRestored (dictSet data1 cal (.vStr "")) fs vals :=
        dataRestored_dictSet_ne data1 cal (.vStr "") fs vals hcal hdr
      have hval : validateFieldsV1 fs (dictSet data1 cal (.vStr "")) = .ok vals :=
        validateFieldsV1_scalars fs vals _ hconf hdr2
      simp only [fromElement]
      rw [hdec]
      dsimp only
      rw [hcont]
      dsimp only
      simp only [modelValidateV1, Schema.fields, Schema.content, FieldInfo.aliasName,
        FieldInfo.ty, FieldInfo.allowNone]
      rw [hval]
      dsimp only
      rw [dictGet?_dictSet_self]
      simp [coerceV1, Value.isNone]

end V1

namespace V2

/-- The encoder field loop processes an appended list by processing the
prefix first and, on success, continuing with the suffix. -/
theorem convertFieldsToXml_append (ba sba : Bool) (s : SchemaV2)
    (l1 l2 : List (String × ValueV2)) (e : Element) :
    convertFieldsToXml ba sba s (l1 ++ l2) e =
      match convertFieldsToXml ba sba s l1 e with
      | .error err => .error err
      | .ok e1 => convertFieldsToXml ba sba s l2 e1 := by
  induction l1 generalizing e with
  | nil => simp [convertFieldsToXml]
  | cons hd tl ih =>
    obtain ⟨n, v⟩ := hd
    simp only [List.cons_append, convertFieldsToXml]
    cases convertFieldStepV2 ba sba s n v e with
    | error err => rfl
    | ok e1 => exact ih e1

/-- One unfolding of the encoder field loop. -/
theorem convertFieldsToXml_cons (ba sba : Bool) (s : SchemaV2) (n : String)
    (v : ValueV2) (rest : List (String × ValueV2)) (e : Element) :
    convertFieldsToXml ba sba s ((n, v) :: rest) e =
      match convertFieldStepV2 ba sba s n v e with
      | .error err => .error err
      | .ok e1 => convertFieldsToXml ba sba s rest e1 := rfl

/-- One unfolding of the decoder field loop. -/
theorem convertFieldsFromXml_cons (setOrder : List SchemaV2 → List SchemaV2)
    (ba : Bool) (fuel : Nat) (n : String) (f : FieldV2)
    (rest : List (String × FieldV2)) (e : Element) (data : List (String × Raw)) :
    convertFieldsFromXml setOrder ba (fuel + 1) ((n, f) :: rest) e data =
      match convertFieldStepFromXml setOrder ba fuel n f e data with
      | .error err => .error err
      | .ok data1 => convertFieldsFromXml setOrder ba fuel rest e data1 := rfl

/-- A null-valued field contributes nothing to the serde encoder, with no
option involved, whatever its (analyzable) annotation. -/
theorem convertFieldStepV2_none (ba sba : Bool) (s : SchemaV2) (n : String)
    (e : Element) (f : FieldV2) (p : Bool × Bool)
    (hinfo : s.fieldInfo? n = some f) (hann : analyzeAnnotation f.ann = .ok p) :
    convertFieldStepV2 ba sba s n .vNone e = .ok e := by
  obtain ⟨isList, isBm⟩ := p
  cases isList <;> simp only [convertFieldStepV2, hinfo, hann, Bool.false_eq_true,
    if_false, if_true]

/-- A sequence-annotated field rejected by `_analyze_sequence` makes the
serde encoder step fail with that error, regardless of the value. -/
theorem convertFieldStepV2_badSeq (ba sba : Bool) (s : SchemaV2) (n : String)
    (v : ValueV2) (e : Element) (f : FieldV2) (args : List Ann) (err : Err)
    (hinfo : s.fieldInfo? n = some f) (hann : f.ann = .seq args)
    (herr : analyzeSequence (.seq args) = .error err) :
    convertFieldStepV2 ba sba s n v e = .error err := by
  have h2 : analyzeAnnotation f.ann = .error err := by
    rw [hann]
    simp only [ analyzeAnnotation, herr]
  simp only [convertFieldStepV2, hinfo, h2]

/-- The serde decoder step fails identically on such a field. -/
theorem convertFieldStepFromXml_badSeq (setOrder : List SchemaV2 → List SchemaV2)
    (ba : Bool) (fuel : Nat) (n : String) (f : FieldV2) (args : List Ann) (err : Err)
    (e : Element) (data : List (String × Raw))
    (hann : f.ann = .seq args) (herr : analyzeSequence (.seq args) = .error err) :
    convertFieldStepFromXml setOrder ba (fuel + 1) n f e data = .error err := by
  obtain ⟨ann, sa, va, df⟩ := f
  simp only [FieldV2.ann] at hann
  cases hann
  simp only [convertFieldStepFromXml, analyzeAnnotation, herr]

/-- The serde encoder field step, unfolded uniformly in the value (its
defining equations are split per value constructor). -/
theorem convertFieldStepV2_eq (byAlias submodelByAlias : Bool) (s : SchemaV2)
    (name : String) (value : ValueV2) (e : Element) :
    convertFieldStepV2 byAlias submodelByAlias s name value e =
      match s.fieldInfo? name with
      | none => .error (.runtime ("AttributeError: " ++ name))
      | some f =>
        match analyzeAnnotation f.ann with
        | .error err => .error err
        | .ok (isList, _) =>
          let isXmlContent := name == "xml_content"
          if isList then
            match value with
            | .vNone => .ok e
            | .vList items =>
              convertListItems byAlias submodelByAlias f.serializationAlias items e
            | _ => .error (.runtime "TypeError: value is not iterable")
          else
            match value with
            | .vModel inst =>
              (match convertToXml byAlias submodelByAlias inst
                  (Element.new (selectSubmodelName submodelByAlias
                    (getBasemodelName inst.schema) f.serializationAlias)) with
               | .error err => .error err
               | .ok sub => .ok (e.addChild sub))
            | .vNone => .ok e
            | v =>
              if isXmlContent then
                .ok (e.setText (pyStrV2 v))
              else
                .ok (e.setAttr (selectName byAlias name f.serializationAlias)
                  (pyStrV2 v)) := by
  cases value <;> rfl

/-- The serde list-item loop never touches the parent's attributes. -/
theorem convertListItems_attrib (ba sba : Bool) (sa : Option String) :
    ∀ (items : List ValueV2) (e e' : Element),
      convertListItems ba sba sa items e = .ok e' → e'.attrib = e.attrib
  | [], e, e', h => by
    simp only [convertListItems, Except.ok.injEq] at h
    subst h
    rfl
  | .vModel inst :: rest, e, e', h => by
    simp only [convertListItems] at h
    rcases ht : convertToXml ba sba inst (Element.new (selectSubmodelName sba
        (getBasemodelName inst.schema) sa)) with err | sub <;> rw [ht] at h <;>
      dsimp only at h
    · exact absurd h (by simp)
    · rw [convertListItems_attrib ba sba sa rest _ e' h, attrib_addChild]
  | .vStr s0 :: rest, e, e', h => by
    simp only [convertListItems] at h
    exact convertListItems_attrib ba sba sa rest e e' h
  | .vInt n0 :: rest, e, e', h => by
    simp only [convertListItems] at h
    exact convertListItems_attrib ba sba sa rest e e' h
  | .vBool b0 :: rest, e, e', h => by
    simp only [convertListItems] at h
    exact convertListItems_attrib ba sba sa rest e e' h
  | .vNone :: rest, e, e', h => by
    simp only [convertListItems] at h
    exact convertListItems_attrib ba sba sa rest e e' h
  | .vList xs :: rest, e, e', h => by
    simp only [convertListItems] at h
    exact convertListItems_attrib ba sba sa rest e e' h

/-- The serde encoder step on the `xml_content` field never touches the
attributes, whatever the value. -/
theorem convertFieldStepV2_contentAttrib (ba sba : Bool) (s : SchemaV2) (v : ValueV2)
    (e e' : Element) (h : convertFieldStepV2 ba sba s "xml_content" v e = .ok e') :
    e'.attrib = e.attrib := by
  rw [convertFieldStepV2_eq] at h
  rcases hf : s.fieldInfo? "xml_content" with _ | f <;> rw [hf] at h <;> dsimp only at h
  · exact absurd h (by simp)
  · rcases ha : analyzeAnnotation f.ann with err | p <;> rw [ha] at h <;> dsimp only at h
    · exact absurd h (by simp)
    · obtain ⟨isList, bm⟩ := p
      dsimp only at h
      cases isList <;>
        simp only [Bool.false_eq_true, if_false, if_true] at h
      · cases v with
        | vModel inst =>
          dsimp only at h
          rcases ht : convertToXml ba sba inst (Element.new (selectSubmodelName sba
              (getBasemodelName inst.schema) f.serializationAlias)) with err | sub <;>
            rw [ht] at h <;> dsimp only at h
          · exact absurd h (by simp)
          · simp only [Except.ok.injEq] at h
            subst h
            exact attrib_addChild e sub
        | vNone =>
          simp only [Except.ok.injEq] at h
          subst h
          rfl
        | vStr s0 =>
          simp only [show (("xml_content" : String) == "xml_content") = true from rfl,
            if_true, Except.ok.injEq] at h
          subst h
          exact attrib_setText e _
        | vInt n0 =>
          simp only [show (("xml_content" : String) == "xml_content") = true from rfl,
            if_true, Except.ok.injEq] at h
          subst h
          exact attrib_setText e _
        | vBool b0 =>
          simp only [show (("xml_content" : String) == "xml_content") = true from rfl,
            if_true, Except.ok.injEq] at h
          subst h
          exact attrib_setText e _
        | vList xs =>
          simp only [show (("xml_content" : String) == "xml_content") = true from rfl,
            if_true, Except.ok.injEq] at h
          subst h
          exact attrib_setText e _
      · cases v with
        | vNone =>
          simp only [Except.ok.injEq] at h
          subst h
          rfl
        | vList items => exact convertListItems_attrib ba sba _ items e e' h
        | vStr s0 => exact absurd h (by simp)
        | vInt n0 => exact absurd h (by simp)
        | vBool b0 => exact absurd h (by simp)
        | vModel inst => exact absurd h (by simp)

/-- The serde encoder step on the `xml_content` field sets the element
text to the string conversion for a non-null string value under a non-list
annotation. -/
theorem convertFieldStepV2_contentText (ba sba : Bool) (s : SchemaV2) (f : FieldV2)
    (bm : Bool) (e : Element) (s0 : String)
    (hf : s.fieldInfo? "xml_content" = some f)
    (ha : analyzeAnnotation f.ann = .ok (false, bm)) :
    convertFieldStepV2 ba sba s "xml_content" (.vStr s0) e = .ok (e.setText s0) := by
  rw [convertFieldStepV2_eq, hf]
  dsimp only
  rw [ha]
  simp [pyStrV2]

/-- The single-record candidate probe depends on the input element only
through its children. -/
theorem decodeSingleCandidates_ext (so : List SchemaV2 → List SchemaV2) (ba : Bool) :
    ∀ (fuel : Nat) (ts : List SchemaV2) (e e2 : Element) (name : String)
      (data : List (String × Raw)), e.children = e2.children →
      decodeSingleCandidates so ba fuel ts e name data =
        decodeSingleCandidates so ba fuel ts e2 name data
  | 0, _, _, _, _, _, _ => rfl
  | _ + 1, [], _, _, _, _, _ => rfl
  | fuel + 1, t :: ts, e, e2, name, data, h => by
    have hf : e.find? (getBasemodelName t) = e2.find? (getBasemodelName t) := by
      simp only [Element.find?, h]
    simp only [decodeSingleCandidates, hf]
    cases e2.find? (getBasemodelName t) with
    | none => exact decodeSingleCandidates_ext so ba fuel ts e e2 name data h
    | some sub =>
      dsimp only
      cases convertFromXml so ba fuel t sub with
      | error err => rfl
      | ok d => exact decodeSingleCandidates_ext so ba fuel ts e e2 name _ h

/-- The record-list candidate loop depends on the input element only
through its children. -/
theorem decodeGroupCandidates_ext (so : List SchemaV2 → List SchemaV2) (ba : Bool) :
    ∀ (fuel : Nat) (ts : List SchemaV2) (e e2 : Element), e.children = e2.children →
      decodeGroupCandidates so ba fuel ts e = decodeGroupCandidates so ba fuel ts e2
  | 0, _, _, _, _ => rfl
  | _ + 1, [], _, _, _ => rfl
  | fuel + 1, t :: ts, e, e2, h => by
    have hf : e.findall (getBasemodelName t) = e2.findall (getBasemodelName t) := by
      simp only [Element.findall, h]
    simp only [decodeGroupCandidates, hf]
    cases decodeChildrenV2 so ba fuel t (e2.findall (getBasemodelName t)) with
    | error err => rfl
    | ok group =>
      dsimp only
      rw [decodeGroupCandidates_ext so ba fuel ts e e2 h]

/-- An appended child with an unconsulted tag does not change the
single-record candidate probe. -/
theorem decodeSingleCandidates_childInv (so : List SchemaV2 → List SchemaV2)
    (ba : Bool) :
    ∀ (fuel : Nat) (ts : List SchemaV2) (tag : String)
      (attrib : List (String × String)) (children : List Element) (tx : Option String)
      (c : Element) (name : String) (data : List (String × Raw)),
      (∀ t ∈ ts, Element.tag c ≠ getBasemodelName t) →
      decodeSingleCandidates so ba fuel ts (.mk tag attrib (children ++ [c]) tx)
          name data =
        decodeSingleCandidates so ba fuel ts (.mk tag attrib children tx) name data
  | 0, _, _, _, _, _, _, _, _, _ => rfl
  | _ + 1, [], _, _, _, _, _, _, _, _ => rfl
  | fuel + 1, t :: ts, tag, attrib, children, tx, c, name, data, h => by
    have hf : Element.find? (.mk tag attrib (children ++ [c]) tx) (getBasemodelName t) =
        Element.find? (.mk tag attrib children tx) (getBasemodelName t) := by
      simp only [Element.find?, Element.children]
      exact find?_append_singleton_neg _ children c
        (decide_eq_false (h t (List.mem_cons_self _ _)))
    simp only [decodeSingleCandidates, hf]
    cases Element.find? (.mk tag attrib children tx) (getBasemodelName t) with
    | none =>
      exact decodeSingleCandidates_childInv so ba fuel ts tag attrib children tx c
        name data (fun t2 ht2 => h t2 (List.mem_cons_of_mem _ ht2))
    | some sub =>
      dsimp only
      cases convertFromXml so ba fuel t sub with
      | error err => rfl
      | ok d =>
        exact decodeSingleCandidates_childInv so ba fuel ts tag attrib children tx c
          name _ (fun t2 ht2 => h t2 (List.mem_cons_of_mem _ ht2))

/-- An appended child with an unconsulted tag does not change the
record-list candidate loop. -/
theorem decodeGroupCandidates_childInv (so : List SchemaV2 → List SchemaV2)
    (ba : Bool) :
    ∀ (fuel : Nat) (ts : List SchemaV2) (tag : String)
      (attrib : List (String × String)) (children : List Element) (tx : Option String)
      (c : Element),
      (∀ t ∈ ts, Element.tag c ≠ getBasemodelName t) →
      decodeGroupCandidates so ba fuel ts (.mk tag attrib (children ++ [c]) tx) =
        decodeGroupCandidates so ba fuel ts (.mk tag attrib children tx)
  | 0, _, _, _, _, _, _, _ => rfl
  | _ + 1, [], _, _, _, _, _, _ => rfl
  | fuel + 1, t :: ts, tag, attrib, children, tx, c, h => by
    have hf : Element.findall (.mk tag attrib (children ++ [c]) tx)
          (getBasemodelName t) =
        Element.findall (.mk tag attrib children tx) (getBasemodelName t) := by
      simp only [Element.findall, Element.children]
      exact filter_append_singleton_neg _ children c
        (decide_eq_false (h t (List.mem_cons_self _ _)))
    simp only [decodeGroupCandidates, hf]
    cases decodeChildrenV2 so ba fuel t
        (Element.findall (.mk tag attrib children tx) (getBasemodelName t)) with
    | error err => rfl
    | ok group =>
      dsimp only
      rw [decodeGroupCandidates_childInv so ba fuel ts tag attrib children tx c
        (fun t2 ht2 => h t2 (List.mem_cons_of_mem _ ht2))]

/-- An appended attribute under an unconsulted key does not change one
serde decoder field step. -/
theorem convertFieldStepFromXml_attrInv (so : List SchemaV2 → List SchemaV2)
    (ba : Bool) (fuel : Nat) (name : String) (f : FieldV2) (tag : String)
    (attrib : List (String × String)) (children : List Element) (tx : Option String)
    (a v : String) (data : List (String × Raw))
    (ha : fieldAttrNameV2 ba name f ≠ some a) :
    convertFieldStepFromXml so ba fuel name f
        (.mk tag (attrib ++ [(a, v)]) children tx) data =
      convertFieldStepFromXml so ba fuel name f (.mk tag attrib children tx) data := by
  match fuel with
  | 0 => rfl
  | fuel + 1 =>
    obtain ⟨ann, sa, va, df⟩ := f
    simp only [convertFieldStepFromXml]
    rcases han : analyzeAnnotation ann with err | p
    · rfl
    · obtain ⟨isList, isBm⟩ := p
      dsimp only
      cases isBm with
      | true =>
        cases isList with
        | false =>
          rcases hft : findBasemodelTypes ann with err | types
          · rfl
          · dsimp only
            cases types.isEmpty with
            | true => rfl
            | false =>
              exact decodeSingleCandidates_ext so ba fuel (so types)
                (.mk tag (attrib ++ [(a, v)]) children tx)
                (.mk tag attrib children tx) _ data rfl
        | true =>
          rcases hft : findBasemodelTypes ann with err | types
          · rfl
          · dsimp only
            cases types.isEmpty with
            | true => rfl
            | false =>
              rw [decodeGroupCandidates_ext so ba fuel (so types)
                (.mk tag (attrib ++ [(a, v)]) children tx)
                (.mk tag attrib children tx) rfl]
              exact rfl
      | false =>
        cases hxc : name == "xml_content" with
        | true => rfl
        | false =>
          have hne : (if ba then pyOr va name else name) ≠ a := by
            intro hcontra
            apply ha
            simp only [fieldAttrNameV2, FieldV2.ann, FieldV2.validationAlias, han,
              hxc, Bool.false_eq_true, if_false, hcontra]
          have hget : Element.getAttr? (.mk tag (attrib ++ [(a, v)]) children tx)
              (if ba then pyOr va name else name) =
              Element.getAttr? (.mk tag attrib children tx)
                (if ba then pyOr va name else name) := by
            simp only [Element.getAttr?, Element.attrib]
            exact dictGet?_append_ne attrib a _ v hne
          simp only [Bool.false_and, Bool.false_eq_true, if_false, hxc, hget]

/-- An appended child with an unconsulted tag does not change one serde
decoder field step, provided the run's set enumeration only reorders the
collected candidates. -/
theorem convertFieldStepFromXml_childInv (so : List SchemaV2 → List SchemaV2)
    (ba : Bool) (fuel : Nat) (name : String) (f : FieldV2) (tag : String)
    (attrib : List (String × String)) (children : List Element) (tx : Option String)
    (c : Element) (data : List (String × Raw))
    (hsub : ∀ (l : List SchemaV2) (x : SchemaV2), x ∈ so l → x ∈ l)
    (hct : ∀ t ∈ fieldChildTagsV2 f, Element.tag c ≠ t) :
    convertFieldStepFromXml so ba fuel name f
        (.mk tag attrib (children ++ [c]) tx) data =
      convertFieldStepFromXml so ba fuel name f (.mk tag attrib children tx) data := by
  match fuel with
  | 0 => rfl
  | fuel + 1 =>
    obtain ⟨ann, sa, va, df⟩ := f
    simp only [convertFieldStepFromXml]
    rcases han : analyzeAnnotation ann with err | p
    · rfl
    · obtain ⟨isList, isBm⟩ := p
      dsimp only
      cases isBm with
      | true =>
        have htags : ∀ types, findBasemodelTypes ann = .ok types →
            ∀ t ∈ so types, Element.tag c ≠ getBasemodelName t := by
          intro types hft t ht
          apply hct
          simp only [fieldChildTagsV2, FieldV2.ann, han, hft]
          exact List.mem_map_of_mem getBasemodelName (hsub types t ht)
        cases isList with
        | false =>
          rcases hft : findBasemodelTypes ann with err | types
          · rfl
          · dsimp only
            cases types.isEmpty with
            | true => rfl
            | false =>
              exact decodeSingleCandidates_childInv so ba fuel (so types) tag attrib
                children tx c _ data (htags types hft)
        | true =>
          rcases hft : findBasemodelTypes ann with err | types
          · rfl
          · dsimp only
            cases types.isEmpty with
            | true => rfl
            | false =>
              rw [decodeGroupCandidates_childInv so ba fuel (so types) tag attrib
                children tx c (htags types hft)]
              exact rfl
      | false =>
        cases hxc : name == "xml_content" with
        | true => rfl
        | false => rfl

/-- An appended attribute under an unconsulted key does not change the
serde decoder field loop. -/
theorem convertFieldsFromXml_attrInv (so : List SchemaV2 → List SchemaV2) (ba : Bool) :
    ∀ (fuel : Nat) (fields : List (String × FieldV2)) (tag : String)
      (attrib : List (String × String)) (children : List Element) (tx : Option String)
      (a v : String) (data : List (String × Raw)),
      (∀ p ∈ fields, fieldAttrNameV2 ba p.1 p.2 ≠ some a) →
      convertFieldsFromXml so ba fuel fields
          (.mk tag (attrib ++ [(a, v)]) children tx) data =
        convertFieldsFromXml so ba fuel fields (.mk tag attrib children tx) data
  | 0, _, _, _, _, _, _, _, _, _ => rfl
  | _ + 1, [], _, _, _, _, _, _, _, _ => rfl
  | fuel + 1, (n, f) :: rest, tag, attrib, children, tx, a, v, data, ha => by
    rw [convertFieldsFromXml_cons, convertFieldsFromXml_cons,
      convertFieldStepFromXml_attrInv so ba fuel n f tag attrib children tx a v data
        (ha (n, f) (List.mem_cons_self _ _))]
    cases convertFieldStepFromXml so ba fuel n f (.mk tag attrib children tx) data with
    | error err => rfl
    | ok data1 =>
      exact convertFieldsFromXml_attrInv so ba fuel rest tag attrib children tx a v
        data1 (fun p hp => ha p (List.mem_cons_of_mem _ hp))

/-- An appended child with an unconsulted tag does not change the serde
decoder field loop. -/
theorem convertFieldsFromXml_childInv (so : List SchemaV2 → List SchemaV2) (ba : Bool) :
    ∀ (fuel : Nat) (fields : List (String × FieldV2)) (tag : String)
      (attrib : List (String × String)) (children : List Element) (tx : Option String)
      (c : Element) (data : List (String × Raw)),
      (∀ (l : List SchemaV2) (x : SchemaV2), x ∈ so l → x ∈ l) →
      (∀ p ∈ fields, ∀ t ∈ fieldChildTagsV2 p.2, Element.tag c ≠ t) →
      convertFieldsFromXml so ba fuel fields
          (.mk tag attrib (children ++ [c]) tx) data =
        convertFieldsFromXml so ba fuel fields (.mk tag attrib children tx) data
  | 0, _, _, _, _, _, _, _, _, _ => rfl
  | _ + 1, [], _, _, _, _, _, _, _, _ => rfl
  | fuel + 1, (n, f) :: rest, tag, attrib, children, tx, c, data, hsub, hct => by
    rw [convertFieldsFromXml_cons, convertFieldsFromXml_cons,
      convertFieldStepFromXml_childInv so ba fuel n f tag attrib children tx c data
        hsub (hct (n, f) (List.mem_cons_self _ _))]
    cases convertFieldStepFromXml so ba fuel n f (.mk tag attrib children tx) data with
    | error err => rfl
    | ok data1 =>
      exact convertFieldsFromXml_childInv so ba fuel rest tag attrib children tx c
        data1 hsub (fun p hp => hct p (List.mem_cons_of_mem _ hp))

/-- C10 for the serde decoder, attribute half. -/
theorem convertFromXml_attrInv (so : List SchemaV2 → List SchemaV2) (ba : Bool)
    (fuel : Nat) (s : SchemaV2) (tag : String) (attrib : List (String × String))
    (children : List Element) (tx : Option String) (a v : String)
    (ha : a ∉ attrNamesV2 ba s) :
    convertFromXml so ba fuel s (.mk tag (attrib ++ [(a, v)]) children tx) =
      convertFromXml so ba fuel s (.mk tag attrib children tx) := by
  match fuel with
  | 0 => rfl
  | fuel + 1 =>
    obtain ⟨cn, xn, cfg, fs⟩ := s
    simp only [convertFromXml]
    exact convertFieldsFromXml_attrInv so ba fuel fs tag attrib children tx a v []
      (fun p hp hcontra => ha (List.mem_filterMap.mpr ⟨p, hp, hcontra⟩))

/-- C10 for the serde decoder, child half. -/
theorem convertFromXml_childInv (so : List SchemaV2 → List SchemaV2) (ba : Bool)
    (fuel : Nat) (s : SchemaV2) (tag : String) (attrib : List (String × String))
    (children : List Element) (tx : Option String) (c : Element)
    (hsub : ∀ (l : List SchemaV2) (x : SchemaV2), x ∈ so l → x ∈ l)
    (hc : Element.tag c ∉ childTagsV2 s) :
    convertFromXml so ba fuel s (.mk tag attrib (children ++ [c]) tx) =
      convertFromXml so ba fuel s (.mk tag attrib children tx) := by
  match fuel with
  | 0 => rfl
  | fuel + 1 =>
    obtain ⟨cn, xn, cfg, fs⟩ := s
    simp only [convertFromXml]
    refine convertFieldsFromXml_childInv so ba fuel fs tag attrib children tx c []
      hsub ?_
    simp only [childTagsV2, SchemaV2.fields] at hc
    intro p hp t ht hcontra
    apply hc
    subst hcontra
    clear hc
    induction fs with
    | nil => cases hp
    | cons hd rest ih =>
      rcases List.mem_cons.mp hp with heq | hmem
      · subst heq
        exact List.mem_append.mpr (Or.inl ht)
      · exact List.mem_append.mpr (Or.inr (ih hmem))

/-- `select_name` with `by_alias=False` always picks the field name. -/
theorem selectName_false (n : String) (al : Option String) :
    selectName false n al = n := by
  cases al <;> simp [selectName]

/-- A primitive annotation always analyzes to `(False, False)`. -/
theorem analyzeAnnotation_prim (t : PyTy) :
    analyzeAnnotation (.prim t) = .ok (false, false) := by
  cases t <;> rfl

/-- A conforming value comes back from its serde attribute string. -/
theorem coerceV2_roundtrip (t : PyTy) (v : ValueV2)
    (h : scalarConformV2 t v = true) :
    coerceV2 (.prim t) (.rstr (pyStrV2 v)) = .ok v := by
  cases t with
  | str =>
    cases v with
    | vStr x => rfl
    | vInt x => simp [scalarConformV2] at h
    | vBool b => simp [scalarConformV2] at h
    | vNone => simp [scalarConformV2] at h
    | vList xs => simp [scalarConformV2] at h
    | vModel inst => simp [scalarConformV2] at h
  | int =>
    cases v with
    | vInt z => simp only [coerceV2, pyStrV2, pyParseInt_pyIntStr]
    | vStr x => simp [scalarConformV2] at h
    | vBool b => simp [scalarConformV2] at h
    | vNone => simp [scalarConformV2] at h
    | vList xs => simp [scalarConformV2] at h
    | vModel inst => simp [scalarConformV2] at h
  | bool =>
    cases v with
    | vBool b => cases b <;> rfl
    | vStr x => simp [scalarConformV2] at h
    | vInt x => simp [scalarConformV2] at h
    | vNone => simp [scalarConformV2] at h
    | vList xs => simp [scalarConformV2] at h
    | vModel inst => simp [scalarConformV2] at h
  | any =>
    cases v with
    | vStr x => rfl
    | vInt x => simp [scalarConformV2] at h
    | vBool b => simp [scalarConformV2] at h
    | vNone => simp [scalarConformV2] at h
    | vList xs => simp [scalarConformV2] at h
    | vModel inst => simp [scalarConformV2] at h

/-- `attrsRestoredV2` only looks at the attributes. -/
theorem attrsRestoredV2_congr (el el2 : Element) (hab : el.attrib = el2.attrib) :
    ∀ (fs : List (String × FieldV2)) (vals : List (String × ValueV2)),
      attrsRestoredV2 el fs vals → attrsRestoredV2 el2 fs vals
  | [], [], h => h
  | [], _ :: _, h => h.elim
  | _ :: _, [], h => h.elim
  | (n, f) :: fs, (m, v) :: vs, h => by
    obtain ⟨h1, h2⟩ := h
    refine ⟨?_, attrsRestoredV2_congr el el2 hab fs vs h2⟩
    simp only [Element.getAttr?] at h1 ⊢
    rw [← hab]
    exact h1

/-- Encoding an attribute-only serde field list writes exactly the
per-field attribute strings and touches nothing else. -/
theorem convertFieldsToXml_scalars (s : SchemaV2) :
    ∀ (fs : List (String × FieldV2)) (vals : List (String × ValueV2)) (e : Element),
      fieldsConformV2 fs vals = true →
      (∀ p ∈ fs, s.fieldInfo? p.1 = some p.2) →
      (fs.map Prod.fst).Nodup →
      ∃ el, convertFieldsToXml false false s vals e = .ok el ∧
        el.children = e.children ∧ el.text = e.text ∧
        (∀ k, k ∉ fs.map Prod.fst → el.getAttr? k = e.getAttr? k) ∧
        attrsRestoredV2 el fs vals
  | [], [], e, _, _, _ => ⟨e, rfl, rfl, rfl, fun _ _ => rfl, trivial⟩
  | [], _ :: _, e, hconf, _, _ => by simp [fieldsConformV2] at hconf
  | _ :: _, [], e, hconf, _, _ => by simp [fieldsConformV2] at hconf
  | (n, f) :: fs, (m, v) :: vs, e, hconf, hlook, hnd => by
    obtain ⟨ann, sa, va, df⟩ := f
    simp only [fieldsConformV2, Bool.and_eq_true, beq_iff_eq, Bool.not_eq_true',
      FieldV2.ann, FieldV2.validationAlias, Option.isNone_iff_eq_none] at hconf
    obtain ⟨⟨⟨⟨hn, hxc⟩, hann⟩, hva⟩, hconf2⟩ := hconf
    subst hn
    subst hva
    cases ann with
    | noneTy => simp at hann
    | basemodel s2 => simp at hann
    | seq args => simp at hann
    | union args => simp at hann
    | prim t =>
      have hstep : convertFieldStepV2 false false s n v e =
          .ok (e.setAttr n (pyStrV2 v)) := by
        rw [convertFieldStepV2_eq, hlook (n, .mk (.prim t) sa none df)
          (List.mem_cons_self _ _)]
        dsimp only [FieldV2.ann, FieldV2.serializationAlias]
        rw [analyzeAnnotation_prim]
        dsimp only
        cases v with
        | vStr x => simp only [Bool.false_eq_true, if_false, hxc, selectName_false]
        | vInt x => simp only [Bool.false_eq_true, if_false, hxc, selectName_false]
        | vBool b => simp only [Bool.false_eq_true, if_false, hxc, selectName_false]
        | vNone => cases t <;> simp [scalarConformV2] at hann
        | vList xs => cases t <;> simp [scalarConformV2] at hann
        | vModel inst => cases t <;> simp [scalarConformV2] at hann
      simp only [List.map_cons, List.nodup_cons] at hnd
      obtain ⟨hnmem, hnd2⟩ := hnd
      obtain ⟨el, henc, hch, htx, hun, har⟩ :=
        convertFieldsToXml_scalars s fs vs (e.setAttr n (pyStrV2 v)) hconf2
          (fun p hp => hlook p (List.mem_cons_of_mem _ hp)) hnd2
      refine ⟨el, ?_, ?_, ?_, ?_, ?_, ?_⟩
      · rw [convertFieldsToXml_cons, hstep]
        exact henc
      · rw [hch, children_setAttr]
      · rw [htx, text_setAttr]
      · intro k hk
        simp only [List.map_cons, List.mem_cons, not_or] at hk
        rw [hun k hk.2]
        simp only [Element.getAttr?, attrib_setAttr]
        exact dictGet?_dictSet_ne _ _ _ _ hk.1
      · rw [hun n hnmem]
        simp only [Element.getAttr?, attrib_setAttr]
        exact dictGet?_dictSet_self _ _ _
      · exact har

/-- Decoding an attribute-only serde field list reads exactly the
per-field attribute strings into the raw bag, given enough fuel. -/
theorem convertFieldsFromXml_scalars (so : List SchemaV2 → List SchemaV2)
    (el : Element) :
    ∀ (fs : List (String × FieldV2)) (vals : List (String × ValueV2)) (fuel : Nat)
      (data : List (String × Raw)),
      fs.length + 1 ≤ fuel →
      fieldsConformV2 fs vals = true →
      attrsRestoredV2 el fs vals →
      (fs.map Prod.fst).Nodup →
      convertFieldsFromXml so true fuel fs el data = .ok (rawBag data fs vals) ∧
        (∀ k, k ∉ fs.map Prod.fst →
          dictGet? (rawBag data fs vals) k = dictGet? data k) ∧
        dataRestoredV2 (rawBag data fs vals) fs vals
  | fs, vals, 0, data, hfuel, _, _, _ => absurd hfuel (by omega)
  | [], [], fuel + 1, data, _, _, _, _ => ⟨rfl, fun _ _ => rfl, trivial⟩
  | [], _ :: _, fuel + 1, data, _, hconf, _, _ => by simp [fieldsConformV2] at hconf
  | _ :: _, [], fuel + 1, data, _, hconf, _, _ => by simp [fieldsConformV2] at hconf
  | (n, f) :: fs, (m, v) :: vs, fuel + 1, data, hfuel, hconf, har, hnd => by
    obtain ⟨ann, sa, va, df⟩ := f
    simp only [fieldsConformV2, Bool.and_eq_true, beq_iff_eq, Bool.not_eq_true',
      FieldV2.ann, FieldV2.validationAlias, Option.isNone_iff_eq_none] at hconf
    obtain ⟨⟨⟨⟨hn, hxc⟩, hann⟩, hva⟩, hconf2⟩ := hconf
    subst hn
    subst hva
    cases ann with
    | noneTy => simp at hann
    | basemodel s2 => simp at hann
    | seq args => simp at hann
    | union args => simp at hann
    | prim t =>
      obtain ⟨hhead, har2⟩ := har
      have hfuel2 : fs.length + 1 ≤ fuel := by
        simp only [List.length_cons] at hfuel
        omega
      have hfuel3 : 1 ≤ fuel := by omega
      obtain ⟨fuel2, hfe⟩ : ∃ fuel2, fuel = fuel2 + 1 :=
        ⟨fuel - 1, by omega⟩
      subst hfe
      have hstep : convertFieldStepFromXml so true (fuel2 + 1) n
          (.mk (.prim t) sa none df) el data =
          .ok (dictSet data n (.rstr (pyStrV2 v))) := by
        simp only [convertFieldStepFromXml, analyzeAnnotation_prim]
        have hname : pyOr none n = n := rfl
        simp only [Bool.false_and, Bool.false_eq_true, if_false, if_true, hname,
          hxc, hhead]
      simp only [List.map_cons, List.nodup_cons] at hnd
      obtain ⟨hnmem, hnd2⟩ := hnd
      obtain ⟨hdec, hun, hdr⟩ :=
        convertFieldsFromXml_scalars so el fs vs (fuel2 + 1)
          (dictSet data n (.rstr (pyStrV2 v))) hfuel2 hconf2 har2 hnd2
      refine ⟨?_, ?_, ?_, ?_⟩
      · rw [convertFieldsFromXml_cons, hstep]
        exact hdec
      · intro k hk
        simp only [List.map_cons, List.mem_cons, not_or] at hk
        rw [show rawBag data ((n, FieldV2.mk (.prim t) sa none df) :: fs)
            ((n, v) :: vs) =
            rawBag (dictSet data n (.rstr (pyStrV2 v))) fs vs from rfl,
          hun k hk.2]
        exact dictGet?_dictSet_ne _ _ _ _ hk.1
      · rw [show rawBag data ((n, FieldV2.mk (.prim t) sa none df) :: fs)
            ((n, v) :: vs) =
            rawBag (dictSet data n (.rstr (pyStrV2 v))) fs vs from rfl,
          hun n hnmem]
        exact dictGet?_dictSet_self _ _ _
      · exact hdr

/-- Validating the raw bag built from conforming serde attributes restores
the instance values exactly. -/
theorem validateFieldsV2_scalars :
    ∀ (fs : List (String × FieldV2)) (vals : List (String × ValueV2))
      (data : List (String × Raw)),
      fieldsConformV2 fs vals = true →
      dataRestoredV2 data fs vals →
      validateFieldsV2 fs data = .ok vals
  | [], [], data, _, _ => rfl
  | [], _ :: _, data, hconf, _ => by simp [fieldsConformV2] at hconf
  | _ :: _, [], data, hconf, _ => by simp [fieldsConformV2] at hconf
  | (n, f) :: fs, (m, v) :: vs, data, hconf, hdr => by
    obtain ⟨ann, sa, va, df⟩ := f
    simp only [fieldsConformV2, Bool.and_eq_true, beq_iff_eq, Bool.not_eq_true',
      FieldV2.ann, FieldV2.validationAlias, Option.isNone_iff_eq_none] at hconf
    obtain ⟨⟨⟨⟨hn, hxc⟩, hann⟩, hva⟩, hconf2⟩ := hconf
    subst hn
    subst hva
    cases ann with
    | noneTy => simp at hann
    | basemodel s2 => simp at hann
    | seq args => simp at hann
    | union args => simp at hann
    | prim t =>
      obtain ⟨hhead, hdr2⟩ := hdr
      simp only [validateFieldsV2]
      have hkey : pyOr none n = n := rfl
      rw [hkey, hhead]
      dsimp only
      rw [coerceV2_roundtrip t v hann]
      dsimp only
      rw [validateFieldsV2_scalars fs vs data hconf2 hdr2]

/-- The serde attribute-only round trip is the identity on the instance,
for every set enumeration and enough recursion fuel. -/
theorem v2Roundtrip (s : SchemaV2) (vals : List (String × ValueV2))
    (h : v2RoundtripOk s vals = true) :
    ∃ el, modelDumpXmlTree false false (.mk s vals) = .ok el ∧
      (∀ (so : List SchemaV2 → List SchemaV2) (fuel : Nat),
        s.fields.length + 2 ≤ fuel →
        convertFromXml so true fuel s (normalizeElement el) =
          .ok (rawBag [] s.fields vals)) ∧
      modelValidateV2 s (rawBag [] s.fields vals) = .ok (.mk s vals) := by
  obtain ⟨cn, xn, cfg, fs⟩ := s
  simp only [v2RoundtripOk, SchemaV2.fields, Bool.and_eq_true, decide_eq_true_eq] at h
  obtain ⟨hnames, hconf⟩ := h
  have hlook : ∀ p ∈ fs,
      SchemaV2.fieldInfo? (.mk cn xn cfg fs) p.1 = some p.2 := by
    intro p hp
    simpa [SchemaV2.fieldInfo?, SchemaV2.fields] using dictGet?_of_nodup fs hnames p hp
  obtain ⟨el0, henc, hch, htx, hun, har⟩ :=
    convertFieldsToXml_scalars (.mk cn xn cfg fs) fs vals
      (Element.new (getBasemodelName (.mk cn xn cfg fs))) hconf hlook hnames
  have har2 : attrsRestoredV2 (normalizeElement el0) fs vals :=
    attrsRestoredV2_congr el0 (normalizeElement el0)
      (attrib_normalizeElement el0).symm fs vals har
  refine ⟨el0, ?_, ?_, ?_⟩
  · simp only [modelDumpXmlTree, InstanceV2.schema, convertToXml]
    exact henc
  · intro so fuel hfuel
    simp only [SchemaV2.fields, List.length_cons] at hfuel ⊢
    obtain ⟨fuel1, hfe⟩ : ∃ f1, fuel = f1 + 1 := ⟨fuel - 1, by omega⟩
    subst hfe
    simp only [convertFromXml]
    exact (convertFieldsFromXml_scalars so (normalizeElement el0) fs vals fuel1 []
      (by omega) hconf har2 hnames).1
  · have hdr := (convertFieldsFromXml_scalars id (normalizeElement el0) fs vals
      (fs.length + 1) [] (by omega) hconf har2 hnames).2.2
    simp only [modelValidateV2, SchemaV2.fields]
    rw [validateFieldsV2_scalars fs vals _ hconf hdr]

end V2

/-! ## Claim theorems -/

/-- C4: For every record type, the resolved element name follows the
precedence chain: an explicit type-level override (`__xml_name__`) wins
regardless of any configured derivation function; otherwise a configured
`__xml_name_function__` is applied to the class identifier; otherwise
(including when the function is explicitly `None`) the raw identifier is
used verbatim.  The serde resolver `_get_basemodel_name` has no derivation
function: override (class attribute, then `model_config`), else the raw
identifier. -/
theorem claim_C4 :
    (∀ (s : V1.Schema) (n : String), s.xmlName = some n → V1.getXmlName s = n) ∧
    (∀ (s : V1.Schema) (f : V1.NameFn), s.xmlName = none → s.nameFn = some f →
      V1.getXmlName s = f.apply s.className) ∧
    (∀ s : V1.Schema, s.xmlName = none → s.nameFn = none →
      V1.getXmlName s = s.className) ∧
    (∀ (t : V2.SchemaV2) (n : String), t.xmlName = some n → V2.getBasemodelName t = n) ∧
    (∀ (t : V2.SchemaV2) (n : String), t.xmlName = none → t.configXmlName = some n →
      V2.getBasemodelName t = n) ∧
    (∀ t : V2.SchemaV2, t.xmlName = none → t.configXmlName = none →
      V2.getBasemodelName t = t.className) := by
  refine ⟨?_, ?_, ?_, ?_, ?_, ?_⟩
  · intro s n h
    simp [V1.getXmlName, h]
  · intro s f h1 h2
    simp [V1.getXmlName, h1, h2]
  · intro s h1 h2
    simp [V1.getXmlName, h1, h2]
  · intro t n h
    simp [V2.getBasemodelName, h]
  · intro t n h1 h2
    simp [V2.getBasemodelName, h1, h2]
  · intro t h1 h2
    simp [V2.getBasemodelName, h1, h2]

/-- C4 witness: the chain evaluated on concrete classes — an override next
to a configured function, a lowercasing function alone, and neither. -/
theorem claim_C4_witness :
    V1.getXmlName Fixtures.exSchema = "example" ∧
    V1.getXmlName (.mk "ExampleModelWithXmlNameFunc" none (some .upper) true
      Fixtures.defaultContent []) = "EXAMPLEMODELWITHXMLNAMEFUNC" ∧
    V1.getXmlName (.mk "ExampleModelWithXmlNameFuncNone" none none true
      Fixtures.defaultContent []) = "ExampleModelWithXmlNameFuncNone" ∧
    V2.getBasemodelName Fixtures.exSchemaV2 = "example" := by
  refine ⟨?_, ?_, ?_, ?_⟩
  · exact claim_C4.1 Fixtures.exSchema "example" rfl
  · have h := claim_C4.2.1 (.mk "ExampleModelWithXmlNameFunc" none (some .upper) true
      Fixtures.defaultContent []) .upper rfl rfl
    rw [h]
    decide
  · exact claim_C4.2.2.1 (.mk "ExampleModelWithXmlNameFuncNone" none none true
      Fixtures.defaultContent []) rfl rfl
  · exact claim_C4.2.2.2.2.1 Fixtures.exSchemaV2 "example" rfl rfl

/-- C2 counterexample: `XMLModel.to_xml` run with its default
`exclude_none=False` writes the attribute string `"None"` for a
null-valued scalar field instead of omitting it — an option *is* required
to get the omission, contradicting the claim. -/
theorem claim_C2_counterexample :
    V1.toXml false (.mk Fixtures.optSchema [("a", .vNone)] .vNone) =
      .ok (.mk "opt" [("a", "None")] [] none) ∧
    (Element.mk "opt" [("a", "None")] [] none).getAttr? "a" = some "None" ∧
    (some "None" : Option String) ≠ none := by
  refine ⟨?_, ?_, ?_⟩
  · rfl
  · rfl
  · simp

/-- C2 as amended: null record-typed fields are omitted by both encoders;
null scalar fields are omitted unconditionally by serde's encoder, but
`XMLModel.to_xml` omits them only when `exclude_none=True` (otherwise it
writes the string `"None"`).  Omission is stated as the field contributing
nothing: encoding with the null field present equals encoding without the
field. -/
theorem claim_C2_amended :
    (∀ (ex : Bool) (s : V1.Schema) (pre post : List (String × V1.Value)) (e : Element)
       (n : String) (info : V1.FieldInfo) (ms : V1.Schema),
       s.fieldInfo? n = some info → info.ty = .model ms → info.allowNone = true →
       V1.encodeFields ex s (pre ++ (n, .vNone) :: post) e =
         V1.encodeFields ex s (pre ++ post) e) ∧
    (∀ (s : V1.Schema) (pre post : List (String × V1.Value)) (e : Element)
       (n : String) (info : V1.FieldInfo) (t : PyTy),
       s.fieldInfo? n = some info → info.ty = .scalar t →
       V1.encodeFields true s (pre ++ (n, .vNone) :: post) e =
         V1.encodeFields true s (pre ++ post) e) ∧
    (∀ (ba sba : Bool) (s2 : V2.SchemaV2) (pre post : List (String × V2.ValueV2))
       (e : Element) (n : String) (f : V2.FieldV2) (p : Bool × Bool),
       s2.fieldInfo? n = some f → V2.analyzeAnnotation f.ann = .ok p →
       V2.convertFieldsToXml ba sba s2 (pre ++ (n, .vNone) :: post) e =
         V2.convertFieldsToXml ba sba s2 (pre ++ post) e) := by
  refine ⟨?_, ?_, ?_⟩
  · intro ex s pre post e n info ms hinfo hty hnone
    rw [V1.encodeFields_append, V1.encodeFields_append]
    cases V1.encodeFields ex s pre e with
    | error err => rfl
    | ok e1 =>
      show V1.encodeFields ex s ((n, .vNone) :: post) e1 = _
      rw [V1.encodeFields_cons, V1.encodeFieldStep_noneModel ex s n e1 info ms hinfo hty hnone]
  · intro s pre post e n info t hinfo hty
    rw [V1.encodeFields_append, V1.encodeFields_append]
    cases V1.encodeFields true s pre e with
    | error err => rfl
    | ok e1 =>
      show V1.encodeFields true s ((n, .vNone) :: post) e1 = _
      rw [V1.encodeFields_cons, V1.encodeFieldStep_noneScalar s n e1 info t hinfo hty]
  · intro ba sba s2 pre post e n f p hinfo hann
    rw [V2.convertFieldsToXml_append, V2.convertFieldsToXml_append]
    cases V2.convertFieldsToXml ba sba s2 pre e with
    | error err => rfl
    | ok e1 =>
      show V2.convertFieldsToXml ba sba s2 ((n, .vNone) :: post) e1 = _
      rw [V2.convertFieldsToXml_cons, V2.convertFieldStepV2_none ba sba s2 n e1 f p hinfo hann]

/-- C2 witness: the amended statement applied to an optional nested record
set to `None`, an optional scalar set to `None` under `exclude_none=True`,
and a serde optional scalar set to `None`: each encodes exactly as if the
field were absent. -/
theorem claim_C2_witness :
    V1.encodeFields false Fixtures.outerSchema [("inner", .vNone)] (Element.new "outer") =
      V1.encodeFields false Fixtures.outerSchema [] (Element.new "outer") ∧
    V1.encodeFields true Fixtures.optSchema [("a", .vNone)] (Element.new "opt") =
      V1.encodeFields true Fixtures.optSchema [] (Element.new "opt") ∧
    V2.convertFieldsToXml false false Fixtures.optSchemaV2 [("a", .vNone)] (Element.new "opt") =
      V2.convertFieldsToXml false false Fixtures.optSchemaV2 [] (Element.new "opt") := by
  refine ⟨?_, ?_, ?_⟩
  · exact claim_C2_amended.1 false Fixtures.outerSchema [] [] (Element.new "outer")
      "inner" (.mk (.model Fixtures.innerSchema) true "inner" none (some .vNone))
      Fixtures.innerSchema rfl rfl rfl
  · exact claim_C2_amended.2.1 Fixtures.optSchema [] [] (Element.new "opt")
      "a" (.mk (.scalar .int) true "a" none (some .vNone)) .int rfl rfl
  · exact claim_C2_amended.2.2 false false Fixtures.optSchemaV2 [] [] (Element.new "opt")
      "a" (.mk (.union [.prim .int, .noneTy]) none none (some .vNone)) (false, false)
      rfl rfl

/-- C3: a list-like field whose element type information is missing or not
a record type fails with the same schema `ValueError` in both directions,
at the moment the loop visits the field, for every value of the field (a
type-shape error, not a value error).  In `xmlmodel.py` the error message
is the same string when encoding and when decoding; in `serde.py` both
directions raise through the same `_analyze_sequence` check, covering both
the no-type-arguments and the non-record-element messages. -/
theorem claim_C3 :
    (∀ (ex : Bool) (s : V1.Schema) (pre post : List (String × V1.Value)) (e e1 : Element)
       (n : String) (info : V1.FieldInfo) (elem : V1.FieldTy) (v : V1.Value),
       s.fieldInfo? n = some info → info.ty = .listOf elem → elem.leafIsModel = false →
       V1.encodeFields ex s pre e = .ok e1 →
       V1.encodeFields ex s (pre ++ (n, v) :: post) e =
         .error (.value ("Field " ++ n ++
           " is a list-like field but not a list of BaseModel"))) ∧
    (∀ (fields1 fields2 : List (String × V1.FieldInfo)) (e : Element) (n : String)
       (info : V1.FieldInfo) (elem : V1.FieldTy) (data d1 : List (String × V1.Value)),
       info.ty = .listOf elem → elem.leafIsModel = false →
       V1.decodeFieldsV1 fields1 e data = .ok d1 →
       V1.decodeFieldsV1 (fields1 ++ (n, info) :: fields2) e data =
         .error (.value ("Field " ++ n ++
           " is a list-like field but not a list of BaseModel"))) ∧
    (∀ (ba sba : Bool) (s2 : V2.SchemaV2) (pre post : List (String × V2.ValueV2))
       (e e1 : Element) (n : String) (f : V2.FieldV2) (args : List V2.Ann) (err : Err)
       (v : V2.ValueV2),
       s2.fieldInfo? n = some f → f.ann = .seq args →
       V2.analyzeSequence (.seq args) = .error err →
       V2.convertFieldsToXml ba sba s2 pre e = .ok e1 →
       V2.convertFieldsToXml ba sba s2 (pre ++ (n, v) :: post) e = .error err) ∧
    (∀ (setOrder : List V2.SchemaV2 → List V2.SchemaV2) (ba : Bool) (fuel : Nat)
       (n : String) (f : V2.FieldV2) (args : List V2.Ann) (err : Err)
       (rest : List (String × V2.FieldV2)) (e : Element) (data : List (String × V2.Raw)),
       f.ann = .seq args → V2.analyzeSequence (.seq args) = .error err →
       V2.convertFieldsFromXml setOrder ba (fuel + 2) ((n, f) :: rest) e data =
         .error err) ∧
    (∀ (setOrder : List V2.SchemaV2 → List V2.SchemaV2) (ba : Bool)
       (fields : List (String × V2.FieldV2)) (n : String) (f : V2.FieldV2)
       (args : List V2.Ann) (err : Err), (n, f) ∈ fields →
       f.ann = .seq args → V2.analyzeSequence (.seq args) = .error err →
       ∀ (fuel : Nat) (e : Element) (data d : List (String × V2.Raw)),
         V2.convertFieldsFromXml setOrder ba fuel fields e data ≠ .ok d) := by
  refine ⟨?_, ?_, ?_, ?_, ?_⟩
  · intro ex s pre post e e1 n info elem v hinfo hty hleaf hpre
    rw [V1.encodeFields_append, hpre]
    show V1.encodeFields ex s ((n, v) :: post) e1 = _
    rw [V1.encodeFields_cons, V1.encodeFieldStep_badList ex s n v e1 info elem hinfo hty hleaf]
  · intro fields1 fields2 e n info elem data d1 hty hleaf hpre
    rw [V1.decodeFieldsV1_append, hpre]
    show V1.decodeFieldsV1 ((n, info) :: fields2) e d1 = _
    rw [V1.decodeFieldsV1_cons, V1.decodeFieldStepV1_badList n info elem e d1 hty hleaf]
  · intro ba sba s2 pre post e e1 n f args err v hinfo hann herr hpre
    rw [V2.convertFieldsToXml_append, hpre]
    show V2.convertFieldsToXml ba sba s2 ((n, v) :: post) e1 = _
    rw [V2.convertFieldsToXml_cons,
      V2.convertFieldStepV2_badSeq ba sba s2 n v e1 f args err hinfo hann herr]
  · intro setOrder ba fuel n f args err rest e data hann herr
    rw [V2.convertFieldsFromXml_cons,
      V2.convertFieldStepFromXml_badSeq setOrder ba fuel n f args err e data hann herr]
  · intro setOrder ba fields n f args err hmem hann herr
    induction fields with
    | nil => cases hmem
    | cons hd tl ih =>
      intro fuel e data d
      match fuel with
      | 0 => simp [V2.convertFieldsFromXml]
      | fuel + 1 =>
        obtain ⟨m, g⟩ := hd
        rcases List.mem_cons.mp hmem with heq | hmem2
        · cases heq
          match fuel with
          | 0 =>
            obtain ⟨ann, sa, va, df⟩ := f
            simp [V2.convertFieldsFromXml, V2.convertFieldStepFromXml]
          | fuel + 1 =>
            rw [V2.convertFieldsFromXml_cons,
              V2.convertFieldStepFromXml_badSeq setOrder ba fuel n f args err e data hann herr]
            simp
        · rw [V2.convertFieldsFromXml_cons]
          cases V2.convertFieldStepFromXml setOrder ba fuel m g e data with
          | error err2 => simp
          | ok data1 => exact ih hmem2 fuel e data1 d

/-- C3 witness: the `List[int]` and bare-`List` fields of the test models,
populated, fail to encode and fail to decode with the same error per
pipeline. -/
theorem claim_C3_witness :
    V1.encodeFields false Fixtures.badListSchema [("data", .vList [.vInt 1])]
        (Element.new "test") =
      .error (.value "Field data is a list-like field but not a list of BaseModel") ∧
    V1.decodeFieldsV1 Fixtures.badListSchema.fields (.mk "test" [] [] none) [] =
      .error (.value "Field data is a list-like field but not a list of BaseModel") ∧
    V2.convertFieldsToXml false false Fixtures.badListSchemaV2
        [("data", .vList [.vInt 1])] (Element.new "test") =
      .error (.value "Invalid list type, must be a list of basemodels (type args is not a basemodel)") ∧
    V2.convertFieldsFromXml id true 10 Fixtures.noArgSchemaV2.fields
        (.mk "test" [] [] none) [] =
      .error (.value "Invalid list type, must be a list of basemodels (no type args)") := by
  refine ⟨?_, ?_, ?_, ?_⟩
  · exact claim_C3.1 false Fixtures.badListSchema [] [] (Element.new "test")
      (Element.new "test") "data" (.mk (.listOf (.scalar .int)) false "data" none none)
      (.scalar .int) (.vList [.vInt 1]) rfl rfl rfl rfl
  · exact claim_C3.2.1 [] [("xml_content", Fixtures.defaultContent)]
      (.mk "test" [] [] none) "data"
      (.mk (.listOf (.scalar .int)) false "data" none none) (.scalar .int) [] [] rfl rfl rfl
  · exact claim_C3.2.2.1 false false Fixtures.badListSchemaV2 [] [] (Element.new "test")
      (Element.new "test") "data" (.mk (.seq [.prim .int]) none none none) [.prim .int]
      (.value "Invalid list type, must be a list of basemodels (type args is not a basemodel)")
      (.vList [.vInt 1]) rfl rfl rfl rfl
  · exact claim_C3.2.2.2.1 id true 8 "data" (.mk (.seq []) none none none) []
      (.value "Invalid list type, must be a list of basemodels (no type args)") []
      (.mk "test" [] [] none) [] rfl rfl

/-- C5 (code bug): for a boolean field holding `True`, both encoders set
the attribute to the Python `str()` conversion `"True"`, not the `"true"`
promised by the claim and by the example in `to_xml`'s own docstring
(xmlmodel.py line 124 shows `is_friendly="true"` while `e.set(name,
str(value))` produces `"True"`). -/
theorem claim_C5 :
    V1.toXml false (.mk Fixtures.boolSchema [("flag", .vBool true)] .vNone) =
      .ok (.mk "b" [("flag", "True")] [] none) ∧
    V2.modelDumpXmlTree false false (.mk Fixtures.boolSchemaV2 [("flag", .vBool true)]) =
      .ok (.mk "b" [("flag", "True")] [] none) ∧
    ("True" : String) ≠ "true" := by
  refine ⟨?_, ?_, ?_⟩
  · rfl
  · rfl
  · decide

/-- C8: when the external XML parser rejects the input (including the empty
string), both deserializers fail with a parse error before any decoding;
the result does not depend on the target type, and a parse error is a
distinct failure kind from the schema (`ValueError`) and validation
failures. -/
theorem claim_C8 :
    ∀ (parse : String → Except String Element) (xml msg : String)
      (s1 : V1.Schema) (s2 : V2.SchemaV2)
      (setOrder : List V2.SchemaV2 → List V2.SchemaV2) (fuel : Nat) (byAlias : Bool),
      parse xml = .error msg →
      V1.fromXml parse s1 xml = .error (.parse msg) ∧
      V2.modelValidateXml parse setOrder fuel s2 byAlias xml = .error (.parse msg) ∧
      (∀ m1 m2 : String, Err.parse m1 ≠ Err.value m2 ∧
        Err.parse m1 ≠ Err.validation m2 ∧ Err.parse m1 ≠ Err.runtime m2) := by
  intro parse xml msg s1 s2 setOrder fuel byAlias h
  refine ⟨?_, ?_, ?_⟩
  · simp [V1.fromXml, h]
  · simp [V2.modelValidateXml, h]
  · intro m1 m2
    refine ⟨?_, ?_, ?_⟩ <;> simp

/-- C8 witness: the empty string, rejected by the parser exactly as
`fromstring("")` is, fails both pipelines with the same parse error for
two different target types. -/
theorem claim_C8_witness :
    V1.fromXml Fixtures.witnessParse Fixtures.exSchema "" =
      .error (.parse "no element found: line 1, column 0") ∧
    V2.modelValidateXml Fixtures.witnessParse id 10 Fixtures.exSchemaV2 true "" =
      .error (.parse "no element found: line 1, column 0") := by
  have h := claim_C8 Fixtures.witnessParse "" "no element found: line 1, column 0"
    Fixtures.exSchema Fixtures.exSchemaV2 id 10 true rfl
  exact ⟨h.1, h.2.1⟩

/-- C6 counterexample: `_find_basemodel_types` (serde.py line 88) returns a
Python `set`, whose iteration order is unspecified, and the record-list
branch of `convert_from_xml` (lines 255-267) walks that set directly.  For
the two-candidate field of `pairSchemaV2` (candidates declared `A` then
`B`), the enumeration that yields the reversed set order puts every match
of the second-declared candidate `B` before the matches of `A`, and the
two enumerations produce different outputs from the same element, so the
order is not fixed by the declaration and the result is not deterministic
across runs. -/
theorem claim_C6_counterexample :
    V2.convertFromXml (fun l => l.reverse) true 10 Fixtures.pairSchemaV2
        Fixtures.pairElem =
      .ok [("items", .rlist [.rdict [("y", .rstr "0")], .rdict [("x", .rstr "0")],
                             .rdict [("x", .rstr "1")]])] ∧
    V2.convertFromXml id true 10 Fixtures.pairSchemaV2 Fixtures.pairElem ≠
      V2.convertFromXml (fun l => l.reverse) true 10 Fixtures.pairSchemaV2
        Fixtures.pairElem := by
  constructor
  · rfl
  · have h1 : V2.convertFromXml id true 10 Fixtures.pairSchemaV2 Fixtures.pairElem =
        .ok [("items", .rlist [.rdict [("x", .rstr "0")], .rdict [("x", .rstr "1")],
                               .rdict [("y", .rstr "0")]])] := rfl
    have h2 : V2.convertFromXml (fun l => l.reverse) true 10 Fixtures.pairSchemaV2
          Fixtures.pairElem =
        .ok [("items", .rlist [.rdict [("y", .rstr "0")], .rdict [("x", .rstr "0")],
                               .rdict [("x", .rstr "1")]])] := rfl
    rw [h1, h2]
    simp

/-- C6 (amended): decoding a record-list field collects, per candidate
type, all immediate children whose tag equals that candidate's element
name, each decoded recursively, in document order within the candidate;
the per-candidate groups are concatenated in the order in which the run's
set iteration (`setOrder`) enumerates the candidates — an order the code
leaves to the Python `set`, which need not put the first-declared
candidate first and need not agree between runs.  The concatenated list is
stored under the field's key. -/
theorem claim_C6_amended :
    (∀ (setOrder : List V2.SchemaV2 → List V2.SchemaV2) (ba : Bool) (fuel : Nat)
       (t : V2.SchemaV2) (ts : List V2.SchemaV2) (e : Element) (g1 g2 : List V2.Raw),
       V2.decodeChildrenV2 setOrder ba fuel t (e.findall (V2.getBasemodelName t)) =
         .ok g1 →
       V2.decodeGroupCandidates setOrder ba fuel ts e = .ok g2 →
       V2.decodeGroupCandidates setOrder ba (fuel + 1) (t :: ts) e = .ok (g1 ++ g2)) ∧
    (∀ (setOrder : List V2.SchemaV2 → List V2.SchemaV2) (ba : Bool) (fuel : Nat)
       (t : V2.SchemaV2) (c : Element) (cs : List Element)
       (d : List (String × V2.Raw)) (ds : List V2.Raw),
       V2.convertFromXml setOrder ba fuel t c = .ok d →
       V2.decodeChildrenV2 setOrder ba fuel t cs = .ok ds →
       V2.decodeChildrenV2 setOrder ba (fuel + 1) t (c :: cs) =
         .ok (.rdict d :: ds)) ∧
    (∀ (setOrder : List V2.SchemaV2 → List V2.SchemaV2) (ba : Bool) (fuel : Nat)
       (name : String) (ann : V2.Ann) (sa va : Option String) (df : Option V2.ValueV2)
       (args : List V2.Ann) (e : Element) (data : List (String × V2.Raw))
       (types : List V2.SchemaV2) (items : List V2.Raw),
       ann = .seq args →
       V2.analyzeAnnotation ann = .ok (true, true) →
       V2.findBasemodelTypes ann = .ok types →
       types.isEmpty = false →
       V2.decodeGroupCandidates setOrder ba fuel (setOrder types) e = .ok items →
       V2.convertFieldStepFromXml setOrder ba (fuel + 1) name (.mk ann sa va df) e data =
         .ok (dictSet data (if ba then pyOr va name else name) (.rlist items))) := by
  refine ⟨?_, ?_, ?_⟩
  · intro setOrder ba fuel t ts e g1 g2 h1 h2
    simp only [V2.decodeGroupCandidates]
    rw [h1]
    dsimp only
    rw [h2]
  · intro setOrder ba fuel t c cs d ds h1 h2
    simp only [V2.decodeChildrenV2]
    rw [h1]
    dsimp only
    rw [h2]
  · intro setOrder ba fuel name ann sa va df args e data types items
      hann hana hft hne hgroups
    subst hann
    simp only [V2.convertFieldStepFromXml]
    rw [hana]
    dsimp only
    rw [hft]
    dsimp only
    rw [hne]
    simp only [Bool.false_eq_true, if_false]
    rw [hgroups]
    simp

/-- C6 witness: the amended statement applied to the two-candidate fixture
under the insertion-order enumeration: the `a`-tagged children in document
order, then the `b`-tagged child, concatenated and stored under
`"items"`. -/
theorem claim_C6_witness :
    V2.decodeGroupCandidates id true 10 [Fixtures.aSchemaV2, Fixtures.bSchemaV2]
        Fixtures.pairElem =
      .ok [.rdict [("x", .rstr "0")], .rdict [("x", .rstr "1")],
           .rdict [("y", .rstr "0")]] ∧
    V2.decodeChildrenV2 id true 10 Fixtures.aSchemaV2
        [.mk "a" [("x", "0")] [] none, .mk "a" [("x", "1")] [] none] =
      .ok [.rdict [("x", .rstr "0")], .rdict [("x", .rstr "1")]] ∧
    V2.convertFieldStepFromXml id true 10 "items"
        (.mk (.seq [.basemodel Fixtures.aSchemaV2, .basemodel Fixtures.bSchemaV2])
          none none none) Fixtures.pairElem [] =
      .ok [("items", .rlist [.rdict [("x", .rstr "0")], .rdict [("x", .rstr "1")],
                             .rdict [("y", .rstr "0")]])] := by
  refine ⟨?_, ?_, ?_⟩
  · have h := claim_C6_amended.1 id true 9 Fixtures.aSchemaV2 [Fixtures.bSchemaV2]
      Fixtures.pairElem [.rdict [("x", .rstr "0")], .rdict [("x", .rstr "1")]]
      [.rdict [("y", .rstr "0")]] rfl rfl
    simpa using h
  · have h := claim_C6_amended.2.1 id true 9 Fixtures.aSchemaV2
      (.mk "a" [("x", "0")] [] none) [.mk "a" [("x", "1")] [] none]
      [("x", .rstr "0")] [.rdict [("x", .rstr "1")]] rfl rfl
    simpa using h
  · have h := claim_C6_amended.2.2 id true 9 "items"
      (.seq [.basemodel Fixtures.aSchemaV2, .basemodel Fixtures.bSchemaV2])
      none none none
      [.basemodel Fixtures.aSchemaV2, .basemodel Fixtures.bSchemaV2]
      Fixtures.pairElem [] [Fixtures.aSchemaV2, Fixtures.bSchemaV2]
      [.rdict [("x", .rstr "0")], .rdict [("x", .rstr "1")],
       .rdict [("y", .rstr "0")]] rfl rfl rfl rfl rfl
    simpa [dictSet, pyOr] using h

/-- C7 counterexample: text is not set *only* for non-null scalar content.
`to_xml` writes `e.text = str(obj.xml_content)` (xmlmodel.py line 202) for
every non-null content whose field is not list-like, whatever the runtime
value: a record-valued `xml_content` is stringified into the element text
(here `"xml_content=None"`) instead of being excluded. -/
theorem claim_C7_counterexample :
    V1.toXml false (.mk Fixtures.outerSchema [("inner", .vNone)]
        (.vModel (.mk Fixtures.innerSchema [] .vNone))) =
      .ok (.mk "outer" [] [] (some "xml_content=None")) ∧
    (some "xml_content=None" : Option String) ≠ none := by
  exact ⟨rfl, by simp⟩

/-- C7 (amended): in both encoders the content field never contributes an
attribute — every attribute of a v1 `to_xml` tree is keyed by the alias of
a declared non-content field, the v1 content handling leaves the attribute
dict untouched, and the serde step on the field named `xml_content` never
touches the attributes.  The element text, however, is the `str()` of the
content exactly when the content is non-null and its field is not
list-like, whatever the runtime value (not only for scalars; a
record-valued content is stringified too); in serde a non-null string
`xml_content` under a non-list annotation becomes the text. -/
theorem claim_C7_amended :
    (∀ (ex : Bool) (obj : V1.Instance) (el : Element),
       V1.toXml ex obj = .ok el →
       ∀ p ∈ el.attrib, ∃ n info, obj.schema.fieldInfo? n = some info ∧
         p.1 = V1.FieldInfo.aliasName info) ∧
    (∀ (ex : Bool) (s : V1.Schema) (c : V1.Value) (e e1 : Element),
       V1.encodeContent ex s c e = .ok e1 → e1.attrib = e.attrib) ∧
    (∀ (ex : Bool) (obj : V1.Instance) (el : Element),
       V1.toXml ex obj = .ok el →
       el.text = if obj.schema.isXmlModel && !obj.content.isNone &&
           !obj.schema.content.ty.isSeq
         then some (V1.pyStr obj.content) else none) ∧
    (∀ (ba sba : Bool) (s2 : V2.SchemaV2) (v : V2.ValueV2) (e e' : Element),
       V2.convertFieldStepV2 ba sba s2 "xml_content" v e = .ok e' →
       e'.attrib = e.attrib) ∧
    (∀ (ba sba : Bool) (s2 : V2.SchemaV2) (f : V2.FieldV2) (bm : Bool) (e : Element)
       (s0 : String),
       s2.fieldInfo? "xml_content" = some f →
       V2.analyzeAnnotation f.ann = .ok (false, bm) →
       V2.convertFieldStepV2 ba sba s2 "xml_content" (.vStr s0) e =
         .ok (e.setText s0)) := by
  refine ⟨?_, ?_, ?_, ?_, ?_⟩
  · intro ex obj el h
    exact V1.toXml_attribMem ex obj el h
  · intro ex s c e e1 h
    exact V1.encodeContent_attrib ex s c e e1 h
  · intro ex obj el h
    exact V1.toXml_text ex obj el h
  · intro ba sba s2 v e e' h
    exact V2.convertFieldStepV2_contentAttrib ba sba s2 v e e' h
  · intro ba sba s2 f bm e s0 hf ha
    exact V2.convertFieldStepV2_contentText ba sba s2 f bm e s0 hf ha

/-- C7 witness: on the test models, every root attribute is a declared
field alias, the content handling and the serde `xml_content` step leave
the attributes unchanged, a string content becomes the text and a null
content leaves the text unset. -/
theorem claim_C7_witness :
    (∃ n info, Fixtures.exSchema.fieldInfo? n = some info ∧
      "name" = V1.FieldInfo.aliasName info) ∧
    Element.attrib ((Element.new "example").setText "hi") =
      Element.attrib (Element.new "example") ∧
    Element.text (.mk "example" [("name", "t"), ("value", "1")] [] (some "hi")) =
      some "hi" ∧
    Element.text (.mk "example" [("name", "test"), ("value", "123")] [] none) =
      none ∧
    Element.attrib ((Element.new "c").setText "body") =
      Element.attrib (Element.new "c") ∧
    V2.convertFieldStepV2 false false Fixtures.contentSchemaV2 "xml_content"
        (.vStr "body") (Element.new "c") =
      .ok ((Element.new "c").setText "body") := by
  refine ⟨?_, ?_, ?_, ?_, ?_, ?_⟩
  · exact claim_C7_amended.1 false Fixtures.exInst
      (.mk "example" [("name", "test"), ("value", "123")] [] none) rfl
      ("name", "test") (by decide)
  · exact claim_C7_amended.2.1 false Fixtures.exSchema (.vStr "hi")
      (Element.new "example") ((Element.new "example").setText "hi") rfl
  · have h := claim_C7_amended.2.2.1 false
      (.mk Fixtures.exSchema [("name", .vStr "t"), ("value", .vInt 1)] (.vStr "hi"))
      (.mk "example" [("name", "t"), ("value", "1")] [] (some "hi")) rfl
    exact h.trans rfl
  · have h := claim_C7_amended.2.2.1 false Fixtures.exInst
      (.mk "example" [("name", "test"), ("value", "123")] [] none) rfl
    exact h.trans rfl
  · exact claim_C7_amended.2.2.2.1 false false Fixtures.contentSchemaV2 (.vStr "body")
      (Element.new "c") ((Element.new "c").setText "body") rfl
  · exact claim_C7_amended.2.2.2.2 false false Fixtures.contentSchemaV2
      (.mk (.prim .str) none none none) false (Element.new "c") "body" rfl rfl

/-- C10: both decoders read only the attributes and child tags that
correspond to declared fields (and, for v1, the list-like content): an
appended attribute whose key no field consults, or an appended child whose
tag no field consults, leaves the decode result unchanged — so unknown
names never raise and never reach the constructed instance.  For serde the
child half holds for every set enumeration that only reorders the
collected candidate set. -/
theorem claim_C10 :
    (∀ (s : V1.Schema) (tag : String) (attrib : List (String × String))
       (children : List Element) (tx : Option String) (a v : String),
       a ∉ V1.attrNames s →
       V1.fromElement s (.mk tag (attrib ++ [(a, v)]) children tx) =
         V1.fromElement s (.mk tag attrib children tx)) ∧
    (∀ (s : V1.Schema) (tag : String) (attrib : List (String × String))
       (children : List Element) (tx : Option String) (c : Element),
       Element.tag c ∉ V1.childTags s →
       V1.fromElement s (.mk tag attrib (children ++ [c]) tx) =
         V1.fromElement s (.mk tag attrib children tx)) ∧
    (∀ (so : List V2.SchemaV2 → List V2.SchemaV2) (ba : Bool) (fuel : Nat)
       (s2 : V2.SchemaV2) (tag : String) (attrib : List (String × String))
       (children : List Element) (tx : Option String) (a v : String),
       a ∉ V2.attrNamesV2 ba s2 →
       V2.convertFromXml so ba fuel s2 (.mk tag (attrib ++ [(a, v)]) children tx) =
         V2.convertFromXml so ba fuel s2 (.mk tag attrib children tx)) ∧
    (∀ (so : List V2.SchemaV2 → List V2.SchemaV2) (ba : Bool) (fuel : Nat)
       (s2 : V2.SchemaV2) (tag : String) (attrib : List (String × String))
       (children : List Element) (tx : Option String) (c : Element),
       (∀ (l : List V2.SchemaV2) (x : V2.SchemaV2), x ∈ so l → x ∈ l) →
       Element.tag c ∉ V2.childTagsV2 s2 →
       V2.convertFromXml so ba fuel s2 (.mk tag attrib (children ++ [c]) tx) =
         V2.convertFromXml so ba fuel s2 (.mk tag attrib children tx)) := by
  refine ⟨?_, ?_, ?_, ?_⟩
  · intro s tag attrib children tx a v ha
    exact V1.fromElement_attrInv s tag attrib children tx a v ha
  · intro s tag attrib children tx c hc
    exact V1.fromElement_childInv s tag attrib children tx c hc
  · intro so ba fuel s2 tag attrib children tx a v ha
    exact V2.convertFromXml_attrInv so ba fuel s2 tag attrib children tx a v ha
  · intro so ba fuel s2 tag attrib children tx c hsub hc
    exact V2.convertFromXml_childInv so ba fuel s2 tag attrib children tx c hsub hc

/-- C10 witness: a junk attribute and a junk child on the test models
leave both decoders' results unchanged. -/
theorem claim_C10_witness :
    V1.fromElement Fixtures.exSchema
        (.mk "example" ([("name", "n"), ("value", "7")] ++ [("junk", "x")]) [] none) =
      V1.fromElement Fixtures.exSchema
        (.mk "example" [("name", "n"), ("value", "7")] [] none) ∧
    V1.fromElement Fixtures.exSchema
        (.mk "example" [("name", "n"), ("value", "7")]
          ([] ++ [Element.mk "junk" [] [] none]) none) =
      V1.fromElement Fixtures.exSchema
        (.mk "example" [("name", "n"), ("value", "7")] [] none) ∧
    V2.convertFromXml id true 10 Fixtures.exSchemaV2
        (.mk "example" ([("name", "n"), ("value", "7")] ++ [("junk", "x")]) [] none) =
      V2.convertFromXml id true 10 Fixtures.exSchemaV2
        (.mk "example" [("name", "n"), ("value", "7")] [] none) ∧
    V2.convertFromXml id true 10 Fixtures.pairSchemaV2
        (.mk "pair" [] (Fixtures.pairElem.children ++ [Element.mk "junk" [] [] none])
          none) =
      V2.convertFromXml id true 10 Fixtures.pairSchemaV2
        (.mk "pair" [] Fixtures.pairElem.children none) := by
  refine ⟨?_, ?_, ?_, ?_⟩
  · exact claim_C10.1 Fixtures.exSchema "example" [("name", "n"), ("value", "7")]
      [] none "junk" "x" (by decide)
  · exact claim_C10.2.1 Fixtures.exSchema "example" [("name", "n"), ("value", "7")]
      [] none (Element.mk "junk" [] [] none) (by decide)
  · exact claim_C10.2.2.1 id true 10 Fixtures.exSchemaV2 "example"
      [("name", "n"), ("value", "7")] [] none "junk" "x" (by decide)
  · exact claim_C10.2.2.2 id true 10 Fixtures.pairSchemaV2 "pair" []
      Fixtures.pairElem.children none (Element.mk "junk" [] [] none)
      (fun l x h => h) (by decide)

/-- C9: in `from_element` (xmlmodel.py lines 308-333), whenever the content
field is not classified as list-like (`sub_fields is None`), the raw bag
always receives a binding for the content alias, set to `element.text or
""`: the element text when present, the empty string when the element has
no text; the binding step never fails and never omits the key.
Consequently, for the default `xml_content: Optional[Any] = None` content
field, every successfully decoded instance carries `element.text or ""` as
its content value — the empty string, never `None`, for a text-less
element. -/
theorem claim_C9 :
    (∀ (cf : V1.FieldInfo) (cn : String) (e : Element)
       (data : List (String × V1.Value)),
       cf.ty.isSeq = false →
       V1.decodeContentV1 cf cn e data =
         .ok (dictSet data cf.aliasName (.vStr (e.text.getD "")))) ∧
    (∀ (cf : V1.FieldInfo) (cn : String) (e : Element)
       (data d1 : List (String × V1.Value)),
       cf.ty.isSeq = false →
       V1.decodeContentV1 cf cn e data = .ok d1 →
       dictGet? d1 cf.aliasName = some (.vStr (e.text.getD ""))) ∧
    (∀ (s : V1.Schema) (e : Element) (inst : V1.Instance),
       s.content.ty = .scalar .any →
       V1.fromElement s e = .ok inst →
       inst.content = .vStr (e.text.getD "")) := by
  have step : ∀ (cf : V1.FieldInfo) (cn : String) (e : Element)
      (data : List (String × V1.Value)),
      cf.ty.isSeq = false →
      V1.decodeContentV1 cf cn e data =
        .ok (dictSet data cf.aliasName (.vStr (e.text.getD ""))) := by
    intro cf cn e data hseq
    obtain ⟨ty, an, al, xe, df⟩ := cf
    simp only [V1.FieldInfo.ty] at hseq
    cases ty with
    | scalar t => simp only [V1.decodeContentV1, V1.FieldInfo.aliasName]
    | model ms => simp only [V1.decodeContentV1, V1.FieldInfo.aliasName]
    | listOf el => simp [V1.FieldTy.isSeq] at hseq
  refine ⟨step, ?_, ?_⟩
  · intro cf cn e data d1 hseq h
    rw [step cf cn e data hseq] at h
    simp only [Except.ok.injEq] at h
    subst h
    exact dictGet?_dictSet_self data cf.aliasName _
  · intro s e inst hct h
    obtain ⟨cn, xn, nf, ix, cf, fs⟩ := s
    simp only [V1.Schema.content] at hct
    simp only [V1.fromElement] at h
    rcases hd : V1.decodeFieldsV1 fs e [] with err | data <;> rw [hd] at h <;>
      dsimp only at h
    · exact absurd h (by simp)
    · rw [step cf cn e data (by rw [hct]; rfl)] at h
      dsimp only at h
      simp only [V1.modelValidateV1, V1.Schema.fields, V1.Schema.content] at h
      rcases hv : V1.validateFieldsV1 fs
          (dictSet data cf.aliasName (.vStr (e.text.getD ""))) with err | vals <;>
        rw [hv] at h
      · exact absurd h (by simp)
      · rw [dictGet?_dictSet_self] at h
        rw [hct] at h
        simp only [V1.coerceV1, V1.Value.isNone, Bool.and_false, Bool.false_eq_true,
          if_false] at h
        simp only [Except.ok.injEq] at h
        subst h
        rfl

/-- C9 witness: the test `ExampleModel` schema decoded from a text-less
element and from an element with text `"hi"`: the content binding is
present in the raw bag, and the decoded instances carry `.vStr ""` and
`.vStr "hi"` respectively. -/
theorem claim_C9_witness :
    V1.decodeContentV1 Fixtures.defaultContent "ExampleModel" Fixtures.c9Elem [] =
      .ok [("xml_content", .vStr "")] ∧
    dictGet? [("xml_content", V1.Value.vStr "")] "xml_content" = some (.vStr "") ∧
    Fixtures.c9Inst.content = .vStr "" ∧
    Fixtures.c9InstT.content = .vStr "hi" := by
  refine ⟨?_, ?_, ?_, ?_⟩
  · have h := claim_C9.1 Fixtures.defaultContent "ExampleModel" Fixtures.c9Elem [] rfl
    exact h
  · have h := claim_C9.2.1 Fixtures.defaultContent "ExampleModel" Fixtures.c9Elem []
      [("xml_content", .vStr "")] rfl rfl
    exact h
  · exact claim_C9.2.2 Fixtures.exSchema Fixtures.c9Elem Fixtures.c9Inst rfl rfl
  · exact claim_C9.2.2 Fixtures.exSchema Fixtures.c9ElemT Fixtures.c9InstT rfl rfl

/-- C1 counterexample: even for the attribute-only test model
`ExampleModel`, the v1 round trip is not the identity on instances: the
inherited `xml_content` field starts as `None`, the decoder always binds
the content key to `element.text or ""`, and validation passes the string
through `Optional[Any]`, so the decoded instance carries `""` where the
original carried `None`. -/
theorem claim_C1_counterexample :
    V1.toXml false Fixtures.exInst =
      .ok (.mk "example" [("name", "test"), ("value", "123")] [] none) ∧
    V1.fromElement Fixtures.exSchema
        (normalizeElement
          (.mk "example" [("name", "test"), ("value", "123")] [] none)) =
      .ok Fixtures.exInstRT ∧
    Fixtures.exInstRT ≠ Fixtures.exInst := by
  refine ⟨rfl, rfl, ?_⟩
  intro h
  have h2 := congrArg V1.Instance.content h
  simp only [Fixtures.exInstRT, Fixtures.exInst, V1.Instance.content] at h2
  exact V1.Value.noConfusion h2

/-- C1 (amended): for an attribute-only schema (scalar, non-record,
non-list fields with conforming values, distinct names and aliases, no
`xml_name` overrides), the round trip through the serialized tree restores
every declared field exactly in both pipelines.  In v1 the round trip is
nevertheless not the identity on instances: the inherited `xml_content`
slot of a fresh instance comes back as `""` instead of `None`.  In serde
(whose models carry no extra content slot, encoding with the default
`by_alias=False` and validating with the default `by_alias=True`) the
round trip is the identity, for every candidate-set enumeration and
enough recursion fuel. -/
theorem claim_C1_amended :
    (∀ (s : V1.Schema) (vals : List (String × V1.Value)),
       V1.v1RoundtripOk s vals = true →
       ∃ el, V1.toXml false (.mk s vals .vNone) = .ok el ∧
         V1.fromElement s (normalizeElement el) = .ok (.mk s vals (.vStr ""))) ∧
    (∀ (s2 : V2.SchemaV2) (vals : List (String × V2.ValueV2)),
       V2.v2RoundtripOk s2 vals = true →
       ∃ el, V2.modelDumpXmlTree false false (.mk s2 vals) = .ok el ∧
         (∀ (so : List V2.SchemaV2 → List V2.SchemaV2) (fuel : Nat),
           s2.fields.length + 2 ≤ fuel →
           V2.convertFromXml so true fuel s2 (normalizeElement el) =
             .ok (V2.rawBag [] s2.fields vals)) ∧
         V2.modelValidateV2 s2 (V2.rawBag [] s2.fields vals) = .ok (.mk s2 vals)) := by
  exact ⟨fun s vals h => V1.v1Roundtrip s vals h,
         fun s2 vals h => V2.v2Roundtrip s2 vals h⟩

/-- C1 witness: the side conditions hold for the attribute-only test
models, the v1 round trip restores `name` and `value` and turns the
content into `""`, and the serde round trip is the identity. -/
theorem claim_C1_witness :
    V1.v1RoundtripOk Fixtures.exSchema
      [("name", .vStr "test"), ("value", .vInt 123)] = true ∧
    (∃ el, V1.toXml false Fixtures.exInst = .ok el ∧
       V1.fromElement Fixtures.exSchema (normalizeElement el) =
         .ok Fixtures.exInstRT) ∧
    V2.v2RoundtripOk Fixtures.exSchemaV2
      [("name", .vStr "test"), ("value", .vInt 123)] = true ∧
    (∃ el, V2.modelDumpXmlTree false false Fixtures.exInstV2 = .ok el ∧
       (∀ (so : List V2.SchemaV2 → List V2.SchemaV2) (fuel : Nat),
         Fixtures.exSchemaV2.fields.length + 2 ≤ fuel →
         V2.convertFromXml so true fuel Fixtures.exSchemaV2 (normalizeElement el) =
           .ok (V2.rawBag [] Fixtures.exSchemaV2.fields
             [("name", .vStr "test"), ("value", .vInt 123)])) ∧
       V2.modelValidateV2 Fixtures.exSchemaV2
           (V2.rawBag [] Fixtures.exSchemaV2.fields
             [("name", .vStr "test"), ("value", .vInt 123)]) =
         .ok Fixtures.exInstV2) := by
  refine ⟨by decide, ?_, by decide, ?_⟩
  · exact claim_C1_amended.1 Fixtures.exSchema
      [("name", .vStr "test"), ("value", .vInt 123)] (by decide)
  · exact claim_C1_amended.2 Fixtures.exSchemaV2
      [("name", .vStr "test"), ("value", .vInt 123)] (by decide)

end PydanticXml
